import Mathlib

/-!
# Spade: chain reconciler and proposal lifecycle

A shallow embedding of the cron stages of the broker
(`cron/trackdeals.go`, `cron/proposepending.go`, `cron/signpending.go`):
the database tables are lists of rows, an SQL `UPDATE ... WHERE` is a map over
the rows, Go maps are association lists, `int64` arithmetic wraps explicitly and
`big.Int` is `Int`.  What the chain node, the clock and a storage provider answer is a
parameter of the step that asks.  Left out are logging and the summary counters, which
never feed back into a stored value, the label columns of a deal, the refresh of the
materialized views, and failures of the store itself.
-/

namespace Spade

/-! ## Machine integers -/

/-- Two's complement reading of an integer as a Go `int64`. -/
def wrapInt64 (x : Int) : Int := (x + 2 ^ 63) % 2 ^ 64 - 2 ^ 63

/-- Go conversion `int64(u)` of a `uint64` value `u`. -/
def int64OfUint64 (u : Nat) : Int := wrapInt64 ((u % 2 ^ 64 : Nat) : Int)

/-- Go `a + b` on `int64` (as on `abi.ChainEpoch`). -/
def addInt64 (a b : Int) : Int := wrapInt64 (a + b)

/-- Go `a - b` on `int64` (as on `abi.ChainEpoch`). -/
def subInt64 (a b : Int) : Int := wrapInt64 (a - b)

/-- The method `big.Int.Int64()`: the low 64 bits of the magnitude read as an
`int64`, negated (with wrap-around) for a negative number. -/
def bigInt64 (x : Int) : Int :=
  let v := wrapInt64 ((x.natAbs % 2 ^ 64 : Nat) : Int)
  if x < 0 then wrapInt64 (-v) else v

/-- The constant `filbuiltin.EpochsInDay`: a day of 30 second epochs. -/
def EpochsInDay : Int := 2880

/-! ## Go maps as association lists -/

/-- Go `v, found := m[k]`. -/
def mapGet {κ ν : Type} [DecidableEq κ] : List (κ × ν) → κ → Option ν
  | [], _ => none
  | (k', v) :: rest, k => if k' = k then some v else mapGet rest k

/-- Go `m[k] = v`. -/
def mapSet {κ ν : Type} [DecidableEq κ] : List (κ × ν) → κ → ν → List (κ × ν)
  | [], k, v => [(k, v)]
  | (k', v') :: rest, k, v =>
    if k' = k then (k, v) :: rest else (k', v') :: mapSet rest k v

/-- Go `delete(m, k)`. -/
def mapDelete {κ ν : Type} [DecidableEq κ] (m : List (κ × ν)) (k : κ) : List (κ × ν) :=
  m.filter (fun e => decide (e.1 ≠ k))

/-! ## Chain data -/

/-- A `filaddr.Address`: either an ID address `f0<n>` or any other (robust) form. -/
inductive Address where
  | id (n : Nat)
  | robust (s : String)
deriving DecidableEq, Repr

/-- The function `fil.ParseActorString` applied to `a.String()`: only ID addresses parse. -/
def Address.parseActor : Address → Except String Nat
  | .id n => .ok n
  | .robust s => .error ("not an actor id: " ++ s)

/-- The method `fil.ActorID.AsFilAddr`. -/
def asFilAddr (n : Nat) : Address := .id n

/-- The fields of `lotusmarket.DealProposal` read by the reconciler. -/
structure DealProposal where
  PieceCID : String
  PieceSize : Nat
  VerifiedDeal : Bool
  Client : Address
  Provider : Address
  StartEpoch : Int
  EndEpoch : Int
deriving DecidableEq, Repr

/-- The accessors of `lotusmarket.DealState`. -/
structure DealState where
  SectorStartEpoch : Int
  LastUpdatedEpoch : Int
  SlashEpoch : Int
deriving DecidableEq, Repr

/-- The value `lotusmarket.EmptyDealState()`. -/
def EmptyDealState : DealState :=
  { SectorStartEpoch := -1, LastUpdatedEpoch := -1, SlashEpoch := -1 }

/-! ## The market-state walk of `track-deals` -/

/-- The local record of a deal as read from `spd.published_deals` at the start of the run. -/
structure filDeal where
  pieceID : Int
  pieceCid : String
  status : String
deriving DecidableEq, Repr

/-- The per-deal working record of the walk. -/
structure deal where
  proposal : DealProposal
  dealID : Int
  pieceID : Int := 0
  providerID : Nat := 0
  clientID : Nat := 0
  pieceLog2Size : Nat := 0
  prevState : Option filDeal := none
  sectorStart : Option Int := none
  status : String
  terminationReason : String := ""
deriving DecidableEq, Repr

/-- The first lines of the walk closure: a fresh record, always beginning as "published". -/
def newDeal (id : Nat) (prop : DealProposal) : deal :=
  { proposal := prop, dealID := int64OfUint64 id, status := "published" }

/-- The result of `dealStates.Get(id)` with the fallback `EmptyDealState()` when not found. -/
def stateOrEmpty : Option DealState → DealState
  | some s => s
  | none => EmptyDealState

/-- The status cascade of the walk closure (`trackdeals.go` lines 205-216). -/
def setStatus (height : Int) (s : DealState) (d : deal) : deal :=
  if s.SlashEpoch ≠ -1 then
    { d with status := "terminated",
             terminationReason := "entered on-chain final-slashed state" }
  else if s.SectorStartEpoch > 0 then
    { d with sectorStart := some s.SectorStartEpoch, status := "active" }
  else if addInt64 d.proposal.StartEpoch EpochsInDay < height then
    { d with status := "terminated",
             terminationReason := "containing sector missed expected sealing epoch" }
  else d

/-- The datacap credit of the walk closure (lines 218-225): a verified deal still
"published" whose client is tracked adds `int64(PieceSize)` to that client's entry; a
tracked client without datacap (`nil`) aborts the run. -/
def creditDatacap (m : List (Address × Option Int)) (d : deal) :
    Except String (List (Address × Option Int)) :=
  match mapGet m d.proposal.Client with
  | some dcap =>
    if d.proposal.VerifiedDeal = true ∧ d.status = "published" then
      match dcap with
      | none => .error "client does not seem to have datacap yet published fil+ deal"
      | some v => .ok (mapSet m d.proposal.Client (some (v + int64OfUint64 d.proposal.PieceSize)))
    else .ok m
  | none => .ok m

/-- Whether the walk closure appends the deal to `toUpsert` (lines 228-240): a deal not
known locally, or one whose status changed. -/
def needsUpsert (d : deal) : Bool :=
  match d.prevState with
  | none => true
  | some prev => decide (d.status ≠ prev.status)

/-- The mutable state of the walk. -/
structure WalkState where
  initialDbDeals : List (Int × filDeal)
  tenantClientDatacap : List (Address × Option Int)
  toUpsert : List deal

/-- The record `d` of the walk closure once its previous state and status are set. -/
def walkDeal (height : Int) (initialDbDeals : List (Int × filDeal))
    (found : Option DealState) (id : Nat) (prop : DealProposal) : deal :=
  let d := newDeal id prop
  setStatus height (stateOrEmpty found) { d with prevState := mapGet initialDbDeals d.dealID }

/-- One call of the closure passed to `dealProposals.ForEach` (lines 181-243). -/
def walkStep (height : Int) (dealStates : Nat → Except String (Option DealState))
    (st : WalkState) (id : Nat) (prop : DealProposal) : Except String WalkState :=
  match dealStates id with
  | .error e => .error ("failed to get state for deal in proposals array: " ++ e)
  | .ok found =>
    let d := walkDeal height st.initialDbDeals found id prop
    match creditDatacap st.tenantClientDatacap d with
    | .error e => .error e
    | .ok dcaps =>
      .ok { initialDbDeals :=
              match d.prevState with
              | some _ => mapDelete st.initialDbDeals d.dealID
              | none => st.initialDbDeals,
            tenantClientDatacap := dcaps,
            toUpsert := if needsUpsert d then st.toUpsert ++ [d] else st.toUpsert }

/-- The iteration `dealProposals.ForEach`: the closure on every chain deal in turn, stopping
at the first error. -/
def walk (height : Int) (dealStates : Nat → Except String (Option DealState)) :
    WalkState → List (Nat × DealProposal) → Except String WalkState
  | st, [] => .ok st
  | st, (id, prop) :: rest =>
    match walkStep height dealStates st id prop with
    | .error e => .error e
    | .ok st' => walk height dealStates st' rest

/-- The loop filling `tenantClientDatacap` (lines 96-103) from `StateVerifiedClientStatus`. -/
def queryDatacap (verifiedClientStatus : Address → Except String (Option Int)) :
    List Nat → List (Address × Option Int) → Except String (List (Address × Option Int))
  | [], m => .ok m
  | c :: rest, m =>
    match verifiedClientStatus (asFilAddr c) with
    | .error e => .error e
    | .ok dcap => queryDatacap verifiedClientStatus rest (mapSet m (asFilAddr c) dcap)

/-- The status a chain deal gets in the walk, as a function of the chain data alone. -/
def chainStatus (height : Int) (found : Option DealState) (prop : DealProposal) : String :=
  (setStatus height (stateOrEmpty found) (newDeal 0 prop)).status

/-- Count of set bits of the 64-bit representation (`bits.OnesCount64`). -/
def onesCount64 (n : Nat) : Nat :=
  ((List.range 64).filter (fun i => n.testBit i)).length

/-- Count of trailing zero bits of the 64-bit representation (`bits.TrailingZeros64`). -/
def trailingZeros64 (n : Nat) : Nat :=
  ((List.range 64).find? (fun i => n.testBit i)).getD 64

/-- The loop "fill in some blanks" (lines 248-287) on one deal: the actor ids of client and
provider and the log2 of the piece size, or an error that aborts the run. The label
fields are not modelled. -/
def fillBlanks (d : deal) : Except String deal :=
  match d.proposal.Client.parseActor with
  | .error e => .error e
  | .ok clientID =>
    match d.proposal.Provider.parseActor with
    | .error e => .error e
    | .ok providerID =>
      if onesCount64 d.proposal.PieceSize ≠ 1 then .error "deal size for is not a power of 2"
      else .ok { d with clientID := clientID, providerID := providerID,
                        pieceLog2Size := trailingZeros64 d.proposal.PieceSize }

/-- The blanks loop over all of `toUpsert`. -/
def fillAllBlanks : List deal → Except String (List deal)
  | [] => .ok []
  | d :: rest =>
    match fillBlanks d with
    | .error e => .error e
    | .ok d' =>
      match fillAllBlanks rest with
      | .error e => .error e
      | .ok rest' => .ok (d' :: rest')

/-- The list `toFail` (lines 289-297): what remains of `initialDbDeals` after the walk and
is not yet "terminated". -/
def toFail (remaining : List (Int × filDeal)) : List Int :=
  (remaining.filter (fun e => decide (e.2.status ≠ "terminated"))).map (fun e => e.1)

/-! ## The relational store -/

/-- A JSON value as held in the JSONB columns. -/
inductive Json where
  | null
  | bool (b : Bool)
  | num (n : Int)
  | str (s : String)
  | arr (items : List Json)
  | obj (fields : List (String × Json))

/-- A JSONB object: its fields by key. -/
abbrev JsonObj := List (String × Json)

/-- The JSONB operator `a || b` on two objects: the fields of `b` are set in `a`. -/
def jsonbConcat (a : JsonObj) : JsonObj → JsonObj
  | [] => a
  | (k, v) :: rest => jsonbConcat (mapSet a k v) rest

/-- The function `JSONB_SET( m, '{ key }', v )` on a top-level key. -/
def jsonbSet (m : JsonObj) (key : String) (v : Json) : JsonObj := mapSet m key v

/-- Whether a JSON value is `null`. -/
def Json.isNull : Json → Bool
  | .null => true
  | _ => false

mutual
/-- The function `JSONB_STRIP_NULLS`: object fields holding `null` are dropped, recursively. -/
def Json.stripNulls : Json → Json
  | .obj fields => .obj (stripNullFields fields)
  | .arr items => .arr (stripNullItems items)
  | j => j
/-- The function `JSONB_STRIP_NULLS` on the fields of an object. -/
def stripNullFields : List (String × Json) → List (String × Json)
  | [] => []
  | (k, v) :: rest =>
    if v.isNull then stripNullFields rest else (k, v.stripNulls) :: stripNullFields rest
/-- The function `JSONB_STRIP_NULLS` inside an array: elements are kept, objects in them stripped. -/
def stripNullItems : List Json → List Json
  | [] => []
  | x :: rest => x.stripNulls :: stripNullItems rest
end

/-- A row of `spd.proposals`, with the columns the cron stages read or write. -/
structure Proposal where
  proposal_uuid : String
  piece_id : Int
  provider_id : Nat
  client_id : Nat
  start_epoch : Int
  entry_created : Int
  signature_obtained : Option Int
  proposal_delivered : Option Int
  proposal_failstamp : Int
  activated_deal_id : Option Int
  proposal_meta : JsonObj

/-- A row of `spd.published_deals` (label columns left out). -/
structure PublishedDeal where
  deal_id : Int
  client_id : Nat
  provider_id : Nat
  piece_id : Int
  piece_cid : String
  claimed_log2_size : Nat
  is_filplus : Bool
  status : String
  published_deal_meta : JsonObj
  start_epoch : Int
  end_epoch : Int
  sector_start_epoch : Option Int

/-- A row of `spd.clients`. -/
structure Client where
  client_id : Nat
  tenant_id : Option Int
  client_meta : JsonObj

/-- A row of `spd.pieces`. -/
structure Piece where
  piece_id : Int
  piece_cid : String
  piece_log2_size : Nat
  piece_meta : JsonObj

/-- The tables of the store that the cron stages touch. -/
structure Store where
  proposals : List Proposal
  published_deals : List PublishedDeal
  invalidated_deals : List Int
  clients : List Client
  pieces : List Piece
  market_state : Option Int

/-! ## The reconcile transaction of `track-deals` -/

/-- The value `metaJSONB`: the termination reason under `termination_reason`, omitted
when empty. -/
def metaJSONB (d : deal) : JsonObj :=
  if d.terminationReason = "" then [] else [("termination_reason", .str d.terminationReason)]

/-- The `INSERT ... ON CONFLICT ( deal_id ) DO UPDATE ... RETURNING piece_id` of one deal
(lines 312-339). The store derives `piece_id` of a new row from its `piece_cid`; that
derivation is the parameter `pieceIdOf`. -/
def upsertDeal (pieceIdOf : String → Int) (d : deal) :
    List PublishedDeal → List PublishedDeal × Int
  | [] =>
    ([{ deal_id := d.dealID, client_id := d.clientID, provider_id := d.providerID,
        piece_id := pieceIdOf d.proposal.PieceCID, piece_cid := d.proposal.PieceCID,
        claimed_log2_size := d.pieceLog2Size, is_filplus := d.proposal.VerifiedDeal,
        status := d.status, published_deal_meta := metaJSONB d,
        start_epoch := d.proposal.StartEpoch, end_epoch := d.proposal.EndEpoch,
        sector_start_epoch := d.sectorStart }],
     pieceIdOf d.proposal.PieceCID)
  | r :: rest =>
    if r.deal_id = d.dealID then
      ({ r with status := d.status,
                published_deal_meta := jsonbConcat r.published_deal_meta (metaJSONB d),
                sector_start_epoch :=
                  match d.sectorStart with
                  | some e => some e
                  | none => r.sector_start_epoch } :: rest,
       r.piece_id)
    else
      let res := upsertDeal pieceIdOf d rest
      (r :: res.1, res.2)

/-- The `WHERE` clause of the activation link (lines 347-358). -/
def linkMatches (d : deal) (p : Proposal) : Bool :=
  decide (p.proposal_failstamp = 0) && p.proposal_delivered.isSome &&
    p.activated_deal_id.isNone && decide (p.piece_id = d.pieceID) &&
    decide (p.provider_id = d.providerID) && decide (p.client_id = d.clientID)

/-- The guard of the activation link (line 341): newly "active". -/
def becameActive (d : deal) : Bool :=
  decide (d.status = "active") &&
    (match d.prevState with
     | none => true
     | some prev => decide (prev.status ≠ "active"))

/-- The effect of the activation link on one row: `SET activated_deal_id = $1`. -/
def linkRow (d : deal) (p : Proposal) : Proposal :=
  if linkMatches d p then { p with activated_deal_id := some d.dealID } else p

/-- The activation link of one deal (lines 341-367). -/
def linkProposals (d : deal) (proposals : List Proposal) : List Proposal :=
  if becameActive d then proposals.map (linkRow d) else proposals

/-- One round of the loop over `toUpsert` (lines 311-368): upsert the deal, take the
returned `piece_id`, link the matching proposals. -/
def upsertStep (pieceIdOf : String → Int) (db : Store) (d : deal) : Store :=
  let res := upsertDeal pieceIdOf d db.published_deals
  let d' := { d with pieceID := res.2 }
  { db with published_deals := res.1, proposals := linkProposals d' db.proposals }

/-- The effect on one row of the termination of deals gone from the market state. -/
def failDealRow (failIds : List Int) (r : PublishedDeal) : PublishedDeal :=
  if decide (r.deal_id ∈ failIds) && decide (r.status ≠ "terminated") then
    { r with status := "terminated",
             published_deal_meta := jsonbConcat r.published_deal_meta
               [("termination_reason", .str "deal no longer part of market-actor state")] }
  else r

/-- The termination of deals gone from the market state (lines 370-387). -/
def failDeals (failIds : List Int) (deals : List PublishedDeal) : List PublishedDeal :=
  if failIds.length > 0 then deals.map (failDealRow failIds) else deals

/-- The value `di` written for one entry of `tenantClientDatacap` (lines 391-399): the
64-bit reading of the projected datacap, zero for `nil` and for the two clients that
are zeroed out. -/
def datacapToWrite (c : Address) (d : Option Int) : Int :=
  let di := match d with
    | some v => bigInt64 v
    | none => 0
  if c = .id 1151139 ∨ c = .id 2090659 then 0 else di

/-- The datacap write for one client (lines 401-413); the keys of `tenantClientDatacap`
are ID addresses, the only ones `fil.MustParseActorString` accepts. -/
def writeDatacap (clients : List Client) (c : Address) (d : Option Int) : List Client :=
  match c with
  | .id n =>
    clients.map (fun r =>
      if r.client_id = n then
        { r with client_meta := jsonbSet r.client_meta "activatable_datacap" (.num (datacapToWrite c d)) }
      else r)
  | .robust _ => clients

/-- The loop "update datacap" over `tenantClientDatacap` (lines 390-414). -/
def writeAllDatacap (clients : List Client) : List (Address × Option Int) → List Client
  | [] => clients
  | (c, d) :: rest => writeAllDatacap (writeDatacap clients c d) rest

/-- The test `COALESCE( (piece_meta->'size_proven_correct')::BOOL, false )`. -/
def sizeProven (piece_meta : JsonObj) : Bool :=
  match mapGet piece_meta "size_proven_correct" with
  | some (.bool b) => b
  | _ => false

/-- The update "anything that activated is obviously the correct size" (lines 416-439):
an unproven piece with an active deal is marked proven and takes that deal's claimed
log2 size (of the first such deal when there are several). -/
def markProven (deals : List PublishedDeal) (pieces : List Piece) : List Piece :=
  pieces.map (fun r =>
    if sizeProven r.piece_meta then r
    else
      match deals.find? (fun pd => decide (pd.piece_id = r.piece_id) && decide (pd.status = "active")) with
      | some pd =>
        { r with piece_meta := jsonbConcat r.piece_meta [("size_proven_correct", .bool true)],
                 piece_log2_size := pd.claimed_log2_size }
      | none => r)

/-- The effect on one row of the update "clear out proposals that will never make it";
`now` is the value of `spd.big_now()` and `height` the height of the pinned tipset. -/
def failMissedStartRow (now height : Int) (p : Proposal) : Proposal :=
  if p.proposal_failstamp = 0 ∧ p.activated_deal_id = none ∧
      p.start_epoch < subInt64 height EpochsInDay then
    { p with proposal_failstamp := now,
             proposal_meta := jsonbSet p.proposal_meta "failure"
               (.str "proposal DealStartEpoch missed without activation") }
  else p

/-- The update "clear out proposals that will never make it" (lines 441-462). -/
def failMissedStart (now height : Int) (proposals : List Proposal) : List Proposal :=
  proposals.map (failMissedStartRow now height)

/-- The subquery test `id IN ( SELECT deal_id FROM spd.published_deals WHERE status = 'terminated' )`. -/
def isTerminatedDeal (deals : List PublishedDeal) (id : Int) : Bool :=
  deals.any (fun d => decide (d.deal_id = id) && decide (d.status = "terminated"))

/-- The effect on one row of the update "clear out proposals that had an active deal
which subsequently terminated". -/
def failTerminatedRow (now : Int) (deals : List PublishedDeal) (p : Proposal) : Proposal :=
  match p.activated_deal_id with
  | some id =>
    if isTerminatedDeal deals id then
      { p with activated_deal_id := none, proposal_failstamp := now,
               proposal_meta := jsonbSet p.proposal_meta "failure"
                 (.str "sector containing deal was terminated") }
    else p
  | none => p

/-- The update "clear out proposals that had an active deal which subsequently
terminated" (lines 464-481). -/
def failTerminated (now : Int) (deals : List PublishedDeal) (proposals : List Proposal) :
    List Proposal :=
  proposals.map (failTerminatedRow now deals)

/-- The effect on one row of the update "clear out proposals that had an active deal
which subsequently was deemed invalid". -/
def failInvalidatedRow (now : Int) (invalidated : List Int) (p : Proposal) : Proposal :=
  match p.activated_deal_id with
  | some id =>
    if p.proposal_failstamp = 0 ∧ id ∈ invalidated then
      { p with proposal_failstamp := now,
               proposal_meta := jsonbSet p.proposal_meta "failure" (.str "deal declared invalid") }
    else p
  | none => p

/-- The update "clear out proposals that had an active deal which subsequently was deemed
invalid" (lines 483-501). -/
def failInvalidated (now : Int) (invalidated : List Int) (proposals : List Proposal) :
    List Proposal :=
  proposals.map (failInvalidatedRow now invalidated)

/-- The values `spd.big_now()` takes in the three proposal-failing updates of one run. -/
structure Stamps where
  missed : Int
  terminated : Int
  invalid : Int

/-- The three proposal-failing updates in the order of the transaction (lines 441-501). -/
def failProposals (stamps : Stamps) (height : Int) (deals : List PublishedDeal)
    (invalidated : List Int) (proposals : List Proposal) : List Proposal :=
  failInvalidated stamps.invalid invalidated
    (failTerminated stamps.terminated deals
      (failMissedStart stamps.missed height proposals))

/-- The body of the transaction (lines 305-522), matview refresh apart. -/
def reconcileTx (pieceIdOf : String → Int) (stamps : Stamps) (height : Int)
    (upserts : List deal) (failIds : List Int) (datacap : List (Address × Option Int))
    (db : Store) : Store :=
  let db1 := upserts.foldl (upsertStep pieceIdOf) db
  let deals := failDeals failIds db1.published_deals
  { proposals := failProposals stamps height deals db1.invalidated_deals db1.proposals,
    published_deals := deals,
    invalidated_deals := db1.invalidated_deals,
    clients := writeAllDatacap db1.clients datacap,
    pieces := markProven deals db1.pieces,
    market_state := some height }

/-- What the chain node answers during one run, at the pinned tipset. -/
structure ChainView where
  height : Int
  dealProposals : List (Nat × DealProposal)
  dealStates : Nat → Except String (Option DealState)
  verifiedClientStatus : Address → Except String (Option Int)

/-- The list `tenantClients`: `SELECT client_id FROM spd.clients WHERE tenant_id IS NOT NULL`. -/
def tenantClients (clients : List Client) : List Nat :=
  (clients.filter (fun c => c.tenant_id.isSome)).map (fun c => c.client_id)

/-- The map `initialDbDeals` read from `spd.published_deals` (lines 114-143); the stored
`piece_cid` is kept as text. -/
def loadDbDeals : List PublishedDeal → List (Int × filDeal) → List (Int × filDeal)
  | [], m => m
  | r :: rest, m =>
    loadDbDeals rest (mapSet m r.deal_id { pieceID := r.piece_id, pieceCid := r.piece_cid, status := r.status })

/-- The action of `track-deals`: query datacap, load the local deals, walk the market
state, fill in the blanks, then run the transaction. An error leaves the store as it was. -/
def trackDeals (chain : ChainView) (pieceIdOf : String → Int) (stamps : Stamps)
    (db : Store) : Except String Store :=
  match queryDatacap chain.verifiedClientStatus (tenantClients db.clients) [] with
  | .error e => .error e
  | .ok datacap =>
    match walk chain.height chain.dealStates
        { initialDbDeals := loadDbDeals db.published_deals [],
          tenantClientDatacap := datacap, toUpsert := [] } chain.dealProposals with
    | .error e => .error e
    | .ok w =>
      match fillAllBlanks w.toUpsert with
      | .error e => .error e
      | .ok upserts =>
        .ok (reconcileTx pieceIdOf stamps chain.height upserts (toFail w.initialDbDeals)
              w.tenantClientDatacap db)

/-! ## The sign and deliver stages -/

/-- The `WHERE` clause of `sign-pending` (lines 67-70). -/
def awaitsSignature (p : Proposal) : Bool :=
  p.signature_obtained.isNone && decide (p.proposal_failstamp = 0)

/-- The update of `sign-pending` for one signed proposal (lines 134-155); `nowTs` is the
value of `NOW()`. -/
def recordSignature (nowTs : Int) (sig : Json) (cid : String) (uuid : String)
    (proposals : List Proposal) : List Proposal :=
  proposals.map (fun p =>
    if p.proposal_uuid = uuid then
      { p with signature_obtained := some nowTs,
               proposal_meta := jsonbSet (jsonbSet p.proposal_meta "signature" sig)
                 "signed_proposal_cid" (.str cid) }
    else p)

/-- The rows before and after an update, position by position. -/
def beforeAfter (before after : List Proposal) : List (Proposal × Proposal) :=
  List.zip before after

/-- The `WHERE` clause of `propose-pending` (lines 106-111). -/
def awaitsDelivery (p : Proposal) : Bool :=
  p.proposal_delivered.isNone && p.signature_obtained.isSome && decide (p.proposal_failstamp = 0)

/-- The update of `propose-pending` for a provider that cannot be dialled (lines 121-136). -/
def failUndialable (now : Int) (uuid : String) (proposals : List Proposal) : List Proposal :=
  proposals.map (fun p =>
    if p.proposal_uuid = uuid then
      { p with proposal_failstamp := now,
               proposal_meta := jsonbSet p.proposal_meta "failure"
                 (.str "provider not dialable: insufficient information published on chain") }
    else p)

/-- A Go error as the delivery loop uses it: its text and whether
`errors.Is(err, context.DeadlineExceeded)` holds. -/
structure RpcError where
  text : String
  isDeadlineExceeded : Bool
deriving DecidableEq, Repr

/-- The type `filtypes.StorageProposalV120Response`. -/
structure StorageProposalV120Response where
  Accepted : Bool
  Message : String
deriving DecidableEq, Repr

/-- What `lp2p.ExecCborRPC` hands back: the timing sample (as the JSON object it
marshals to), the error if any, and the decoded response. -/
structure RpcResult where
  took : JsonObj
  err : Option RpcError
  resp : StorageProposalV120Response

/-- The value of `proposalErr` after lines 238-241: a response that is not accepted
becomes an error carrying the response message. -/
def proposalErr (res : RpcResult) : Option RpcError :=
  match res.err with
  | some e => some e
  | none =>
    if !res.resp.Accepted then some { text := res.resp.Message, isDeadlineExceeded := false }
    else none

/-- The timing update (lines 249-260): `proposal_meta || $2::JSONB`. -/
def mergeTiming (took : JsonObj) (uuid : String) (proposals : List Proposal) : List Proposal :=
  proposals.map (fun p =>
    if p.proposal_uuid = uuid then { p with proposal_meta := jsonbConcat p.proposal_meta took }
    else p)

/-- The update on success (lines 268-279); `nowTs` is the value of `NOW()`. -/
def markDelivered (nowTs : Int) (uuid : String) (proposals : List Proposal) : List Proposal :=
  proposals.map (fun p =>
    if p.proposal_uuid = uuid then { p with proposal_delivered := some nowTs } else p)

/-- The update on failure (lines 292-311); `now` is the value of `spd.big_now()`. -/
def markFailed (now : Int) (message : String) (uuid : String) (proposals : List Proposal) :
    List Proposal :=
  proposals.map (fun p =>
    if p.proposal_uuid = uuid then
      { p with proposal_failstamp := now,
               proposal_meta := stripNullFields (jsonbSet p.proposal_meta "failure" (.str message)) }
    else p)

/-- The store writes of one delivery attempt (lines 238-311). -/
def recordAttempt (now nowTs : Int) (res : RpcResult) (uuid : String)
    (proposals : List Proposal) : List Proposal :=
  let timed := mergeTiming res.took uuid proposals
  match proposalErr res with
  | none => markDelivered nowTs uuid timed
  | some e => markFailed now e.text uuid timed

/-- The value `didTimeout` of an attempt (line 283). -/
def didTimeout (res : RpcResult) : Bool :=
  match proposalErr res with
  | some e => e.isDeadlineExceeded
  | none => false

/-- An entry of a provider's queue. -/
structure proposalPending where
  ProposalUUID : String
  Provider : Address
  PeerID : Option String
  Multiaddrs : List String
deriving DecidableEq, Repr

/-- What the surroundings supply to the round at one position of the queue: the
nanoseconds elapsed since `t0` as `time.Since(t0)` reads them in the test of line 198,
whether the context got cancelled during the sleep, the outcome of the RPC and the two
clock values of the store. -/
structure Round where
  elapsed : Int
  cancelled : Bool
  rpc : RpcResult
  now : Int
  nowTs : Int

/-- The budget `time.Duration(perSpTimeout+spProposalSleep)*time.Second` of line 198, in
nanoseconds: the sum of the two `int` flags, then the product with `time.Second`, both in
signed 64-bit arithmetic. -/
def spBudget (perSpTimeout spProposalSleep : Int) : Int :=
  wrapInt64 (addInt64 perSpTimeout spProposalSleep * 1000000000)

/-- The duration `time.Duration(spProposalSleep) * time.Second` of the timer of line 210,
in nanoseconds. -/
def sleepBetween (spProposalSleep : Int) : Int :=
  wrapInt64 (wrapInt64 spProposalSleep * 1000000000)

/-- The least time since `t0`, in nanoseconds, at which the round at position `i` can
reach its call of `lp2p.ExecCborRPC` (line 217): at a position other than the first the
timer of line 210 fires no sooner than its duration after the test of line 198. -/
def earliestAttempt (spProposalSleep : Int) (i : Nat) (r : Round) : Int :=
  if i ≠ 0 then r.elapsed + max 0 (sleepBetween spProposalSleep) else r.elapsed

/-- The loop of `proposeToSp` (lines 193-320) from position `i` on; `budget` is the value
of `spBudget`, and the elapsed time of a round is the one read by the test of line 198,
before the disconnect and the sleep of lines 203-212. -/
def proposeLoop (budget : Int) (rounds : Nat → Round) :
    Nat → List proposalPending → List Proposal → List Proposal
  | _, [], tbl => tbl
  | i, p :: rest, tbl =>
    if (rounds i).elapsed ≥ budget then tbl
    else if i ≠ 0 ∧ (rounds i).cancelled = true then tbl
    else
      let tbl' := recordAttempt (rounds i).now (rounds i).nowTs (rounds i).rpc p.ProposalUUID tbl
      if didTimeout (rounds i).rpc then tbl' else proposeLoop budget rounds (i + 1) rest tbl'

/-- The function `proposeToSp`; `addrInfoOk` tells whether `lp2p.AssembleAddrInfo`
succeeded on the first entry. -/
def proposeToSp (perSpTimeout spProposalSleep : Int) (addrInfoOk : Bool)
    (rounds : Nat → Round) (props : List proposalPending) (tbl : List Proposal) :
    List Proposal :=
  if props.length = 0 then tbl
  else if !addrInfoOk then tbl
  else proposeLoop (spBudget perSpTimeout spProposalSleep) rounds 0 props tbl

/-- The entries of the queue for which the loop of `proposeToSp`, from position `i` on,
calls `lp2p.ExecCborRPC`: the attempts it counts as delivered, failed or timed out. -/
def proposeTrace (budget : Int) (rounds : Nat → Round) :
    Nat → List proposalPending → List proposalPending
  | _, [] => []
  | i, p :: rest =>
    if (rounds i).elapsed ≥ budget then []
    else if i ≠ 0 ∧ (rounds i).cancelled = true then []
    else if didTimeout (rounds i).rpc then [p]
    else p :: proposeTrace budget rounds (i + 1) rest

/-- The entries for which `proposeToSp` calls `lp2p.ExecCborRPC`. -/
def attemptedBy (perSpTimeout spProposalSleep : Int) (addrInfoOk : Bool)
    (rounds : Nat → Round) (props : List proposalPending) : List proposalPending :=
  if props.length = 0 then []
  else if !addrInfoOk then []
  else proposeTrace (spBudget perSpTimeout spProposalSleep) rounds 0 props

/-- The store writes of the attempts on the listed entries, the first at position `i`. -/
def applyAttempts (rounds : Nat → Round) :
    Nat → List proposalPending → List Proposal → List Proposal
  | _, [], tbl => tbl
  | i, p :: rest, tbl =>
    applyAttempts rounds (i + 1) rest
      (recordAttempt (rounds i).now (rounds i).nowTs (rounds i).rpc p.ProposalUUID tbl)

/-- The counters of `runTotals` that the queue building sets. -/
structure runTotals where
  proposals : Nat
  uniqueProviders : Nat
deriving DecidableEq, Repr

/-- The state of the queue building loop of `propose-pending`: the map `props`, the
table of proposals and the counter `tot.proposals`. -/
structure QueueState where
  props : List (Address × List proposalPending)
  table : List Proposal
  proposals : Nat

/-- The loop over `pending` (lines 119-140) from position `i` on: an entry without peer id
or without multiaddrs is failed in the store, any other is appended to the queue of
its payload provider and counted; `now i` is the value of `spd.big_now()` at
position `i`. -/
def buildQueues (now : Nat → Int) : Nat → List proposalPending → QueueState → QueueState
  | _, [], st => st
  | i, p :: rest, st =>
    if p.PeerID = none ∨ p.Multiaddrs.length = 0 then
      buildQueues now (i + 1) rest
        { st with table := failUndialable (now i) p.ProposalUUID st.table }
    else
      buildQueues now (i + 1) rest
        { st with props := mapSet st.props p.Provider
                    ((mapGet st.props p.Provider).getD [] ++ [p]),
                  proposals := st.proposals + 1 }

/-- The queues and totals of `propose-pending` (lines 118-141) for a pending list. -/
def proposalsPerSP (now : Nat → Int) (pending : List proposalPending) (tbl : List Proposal) :
    QueueState :=
  buildQueues now 0 pending { props := [], table := tbl, proposals := 0 }

/-- The totals reported after the queue building (line 141 sets `uniqueProviders`). -/
def queueTotals (st : QueueState) : runTotals :=
  { proposals := st.proposals, uniqueProviders := st.props.length }

/-- The queue of a provider: the entry of the map `props`, empty when there is none. -/
def queueOf (st : QueueState) (sp : Address) : List proposalPending :=
  (mapGet st.props sp).getD []

/-- A pending proposal is dialable: its provider has a peer id and at least one multiaddr. -/
def Dialable (p : proposalPending) : Bool :=
  p.PeerID.isSome && decide (0 < p.Multiaddrs.length)

/-! ### The loop of `sign-pending` -/

/-- An entry of the list `pending` of `sign-pending`: the id of the proposal and the
client of its payload. -/
structure signaturePending where
  ProposalUUID : String
  Client : Address
deriving DecidableEq, Repr

/-- An entry of the map `knownWallets`. -/
structure knownWallet where
  robust : Address
  key : String
deriving DecidableEq, Repr

/-- The counters of `sign-pending`. -/
structure signTotals where
  signed : Nat
  failed : Nat
deriving DecidableEq, Repr

/-- What the surroundings answer to `sign-pending`: the chain node resolving an ID address
(`StateAccountKey`), the key store (the key file of a robust address, read and
trimmed), the CBOR serialisation of a payload (`cborutil.Dump`), the signature of the
serialised payload under a key (`wallet.WalletSign`), the CID of the signed proposal
(`cborutil.AsIpld`) and the value of `NOW()` at each position. -/
structure SignEnv where
  stateAccountKey : Address → Except String Address
  readKey : Address → Except String String
  dump : signaturePending → Except String String
  walletSign : String → String → Except String Json
  signedCid : signaturePending → Json → Except String String
  nowTs : Nat → Int

/-- The state of the loop of `sign-pending`. -/
structure SignState where
  table : List Proposal
  knownWallets : List (Address × knownWallet)
  totals : signTotals

/-- The wallet lookup of one round (lines 82-111): a client not yet in `knownWallets` is
resolved to its robust form when it is an ID address, and its key is read. -/
def loadWallet (env : SignEnv) (knownWallets : List (Address × knownWallet))
    (client : Address) : Except String (List (Address × knownWallet)) :=
  match mapGet knownWallets client with
  | some _ => .ok knownWallets
  | none =>
    match (match client with
           | .id _ => env.stateAccountKey client
           | .robust _ => .ok client) with
    | .error e => .error e
    | .ok robust =>
      match env.readKey robust with
      | .error e => .error e
      | .ok k => .ok (mapSet knownWallets client { robust := robust, key := k })

/-- The key `knownWallets[client].key`. -/
def walletKey (knownWallets : List (Address × knownWallet)) (client : Address) : String :=
  match mapGet knownWallets client with
  | some kw => kw.key
  | none => ""

/-- The loop of `sign-pending` (lines 80-158) from position `i` on: the state it leaves and
the error it returns, if any. Every error ends the run; an error of
`wallet.WalletSign` is counted in `failed` first. -/
def signLoop (env : SignEnv) : Nat → List signaturePending → SignState →
    SignState × Option String
  | _, [], st => (st, none)
  | i, p :: rest, st =>
    match loadWallet env st.knownWallets p.Client with
    | .error e => (st, some e)
    | .ok kws =>
      match env.dump p with
      | .error e => ({ st with knownWallets := kws }, some e)
      | .ok raw =>
        match env.walletSign (walletKey kws p.Client) raw with
        | .error e =>
          ({ st with knownWallets := kws,
                     totals := { st.totals with failed := st.totals.failed + 1 } }, some e)
        | .ok sig =>
          match env.signedCid p sig with
          | .error e => ({ st with knownWallets := kws }, some e)
          | .ok cid =>
            signLoop env (i + 1) rest
              { table := recordSignature (env.nowTs i) sig cid p.ProposalUUID st.table,
                knownWallets := kws,
                totals := { st.totals with signed := st.totals.signed + 1 } }

/-- The action of `sign-pending` on its pending list. -/
def signPending (env : SignEnv) (pending : List signaturePending) (tbl : List Proposal) :
    SignState × Option String :=
  if pending.length = 0 then
    ({ table := tbl, knownWallets := [], totals := { signed := 0, failed := 0 } }, none)
  else
    signLoop env 0 pending
      { table := tbl, knownWallets := [], totals := { signed := 0, failed := 0 } }

/-! ## The bulk piece ingester -/

/-- The type `filabi.PieceInfo`. -/
structure PieceInfo where
  Size : Nat
  PieceCID : String
deriving DecidableEq, Repr

/-- What `bulk-piece-poll` reads of a `fil.CommP`: the two forms of its piece CID and the
log2 of its padded size. -/
structure CommP where
  pcidV1 : String
  pcidV2 : String
  log2Size : Nat
deriving DecidableEq, Repr

/-- The method `CommP.PieceInfo`. -/
def CommP.PieceInfo (c : CommP) : PieceInfo :=
  { Size := 2 ^ c.log2Size, PieceCID := c.pcidV1 }

/-- The type `Aggregate`: a fetched aggregate descriptor. -/
structure Aggregate where
  AggCommP : CommP
  PieceList : List CommP
  Collection : String
deriving DecidableEq, Repr

/-- The type `BulkPieceSource` (its field `Type` is `SourceType` here); `Flags` is a Go
map, possibly nil. -/
structure BulkPieceSource where
  SourceType : String
  Config : String
  PathParts : List String
  Flags : Option (List (String × Bool))
  URLTemplate : String
deriving DecidableEq, Repr

/-- A row of `spd.piece_segments`. -/
structure PieceSegment where
  piece_id : Int
  segment_id : Int
  position : Nat
deriving DecidableEq, Repr

/-- A row of `spd.tenants_pieces`. -/
structure TenantPiece where
  piece_id : Int
  dataset_id : Option Int
  tenant_id : Int
deriving DecidableEq, Repr

/-- The tables that `bulk-piece-poll` reads or writes; `datasets` holds the pairs
`( dataset_id, tenant_id )`. -/
structure PieceStore where
  pieces : List Piece
  piece_segments : List PieceSegment
  tenants_pieces : List TenantPiece
  datasets : List (Int × Int)

/-- The subquery `( SELECT piece_id FROM spd.pieces WHERE piece_cid = $1 )`. -/
def pieceIdByCid (pieces : List Piece) (cid : String) : Option Int :=
  (pieces.find? (fun r => decide (r.piece_cid = cid))).map (fun r => r.piece_id)

/-- The next value of the `piece_id` sequence: above every id in the table. -/
def nextPieceId (pieces : List Piece) : Int :=
  pieces.foldl (fun m r => max m r.piece_id) 0 + 1

/-- The statement `INSERT INTO spd.pieces ... ON CONFLICT DO NOTHING` (lines 151-159 and
162-169): a piece is unique by its CID. -/
def insertPiece (cid : String) (log2Size : Nat) (piece_meta : JsonObj) (pieces : List Piece) :
    List Piece :=
  if pieces.any (fun r => decide (r.piece_cid = cid)) then pieces
  else pieces ++ [{ piece_id := nextPieceId pieces, piece_cid := cid,
                    piece_log2_size := log2Size, piece_meta := piece_meta }]

/-- The statement `INSERT INTO spd.piece_segments ... ON CONFLICT DO NOTHING` (lines
171-185): a position is unique within its parent; a piece that is not found makes the
statement fail. -/
def insertSegment (aggCid segCid : String) (position : Nat) (db : PieceStore) :
    Except String PieceStore :=
  match pieceIdByCid db.pieces aggCid, pieceIdByCid db.pieces segCid with
  | some a, some g =>
    if db.piece_segments.any (fun r => decide (r.piece_id = a) && decide (r.position = position))
    then .ok db
    else .ok { db with piece_segments :=
                 db.piece_segments ++ [{ piece_id := a, segment_id := g, position := position }] }
  | _, _ => .error "null value in column of relation piece_segments"

/-- The subquery `( SELECT dataset_id FROM spd.datasets WHERE tenant_id = $2 limit 1 )`. -/
def datasetOf (datasets : List (Int × Int)) (tenant : Int) : Option Int :=
  (datasets.find? (fun e => decide (e.2 = tenant))).map (fun e => e.1)

/-- The statement `INSERT INTO spd.tenants_pieces ... ON CONFLICT DO NOTHING` (lines
188-201): a claim is unique by piece and tenant. -/
def insertClaim (aggCid : String) (tenant : Int) (db : PieceStore) : Except String PieceStore :=
  match pieceIdByCid db.pieces aggCid with
  | some a =>
    if db.tenants_pieces.any (fun r => decide (r.piece_id = a) && decide (r.tenant_id = tenant))
    then .ok db
    else .ok { db with tenants_pieces := db.tenants_pieces ++
                 [{ piece_id := a, dataset_id := datasetOf db.datasets tenant, tenant_id := tenant }] }
  | none => .error "null value in column of relation tenants_pieces"

/-- The loop over `agg.PieceList` inside the transaction (lines 161-186), from position
`i` on: each segment piece is inserted under its v2 CID, then its ordering row. -/
def insertSegments (aggCid : String) : Nat → List CommP → PieceStore → Except String PieceStore
  | _, [], db => .ok db
  | i, g :: rest, db =>
    match insertSegment aggCid g.pcidV2 i
        { db with pieces := insertPiece g.pcidV2 g.log2Size [] db.pieces } with
    | .error e => .error e
    | .ok db' => insertSegments aggCid (i + 1) rest db'

/-- The body of the transaction of one aggregate (lines 149-205). -/
def ingestAggregate (tenant : Int) (agg : Aggregate) (db : PieceStore) :
    Except String PieceStore :=
  match insertSegments agg.AggCommP.pcidV1 0 agg.PieceList
      { db with pieces := insertPiece agg.AggCommP.pcidV1 agg.AggCommP.log2Size
                  [("is_frc58_segmented", .bool true)] db.pieces } with
  | .error e => .error e
  | .ok db' => insertClaim agg.AggCommP.pcidV1 tenant db'

/-- The test of line 123 on the flags of a source: the map is nil or `is_frc58` is not
set in it. -/
def notFrc58 (src : BulkPieceSource) : Bool :=
  match src.Flags with
  | none => true
  | some flags => !((mapGet flags "is_frc58").getD false)

/-- What a run of `bulk-piece-poll` gets from outside the store: the tenants with a bulk
source, the error of loading the AWS configuration, the pages listed for a tenant and a
day offset (each page an error or its objects, each object an error of fetching or
decoding or the decoded descriptor; a listing without pages stands for one empty page),
the v1 CID that `datasegment.NewAggregate` and `PieceCID` recompute for a size and a piece
list, and the error of the materialized-view refresh. -/
structure PollEnv where
  tenants : Except String (List (Int × BulkPieceSource))
  loadConfig : BulkPieceSource → Option String
  listing : Int → Int → List (Except String (List (Except String Aggregate)))
  aggregate : Nat → List PieceInfo → Except String String
  refreshMatviews : Option String

/-- How the action of a command ends: it returns nil, returns an error, or panics. -/
inductive Outcome where
  | ok
  | error (e : String)
  | panic (e : String)
deriving DecidableEq, Repr

/-- The handling of one listed object (lines 109-207): fetch and decode, the flag test,
the aggregate recomputed and compared with the supplied v1 CID, then the transaction of
the aggregate, of which nothing is committed when it fails. -/
def ingestObject (aggregate : Nat → List PieceInfo → Except String String)
    (src : BulkPieceSource) (tenant : Int) (obj : Except String Aggregate) (db : PieceStore) :
    Except String PieceStore :=
  match obj with
  | .error e => .error e
  | .ok agg =>
    if notFrc58 src then .error "do not know how to handle non-frc58 bulksources yet"
    else
      match aggregate agg.AggCommP.PieceInfo.Size (agg.PieceList.map CommP.PieceInfo) with
      | .error e => .error e
      | .ok aggReifiedPcidV1 =>
        if aggReifiedPcidV1 ≠ agg.AggCommP.pcidV1 then
          .error "supplied list of pieces does not aggregate with the expected PCidV1"
        else ingestAggregate tenant agg db

/-- The loop over `ls.Contents` (line 108): the first error ends the run, with the store
as the earlier objects left it. -/
def ingestObjects (aggregate : Nat → List PieceInfo → Except String String)
    (src : BulkPieceSource) (tenant : Int) :
    List (Except String Aggregate) → PieceStore → PieceStore × Option String
  | [], db => (db, none)
  | obj :: rest, db =>
    match ingestObject aggregate src tenant obj db with
    | .error e => (db, some e)
    | .ok db' => ingestObjects aggregate src tenant rest db'

/-- The loop over the pages of one day prefix (lines 98-213). -/
def ingestPages (aggregate : Nat → List PieceInfo → Except String String)
    (src : BulkPieceSource) (tenant : Int) :
    List (Except String (List (Except String Aggregate))) → PieceStore →
      PieceStore × Option String
  | [], db => (db, none)
  | .error e :: _, db => (db, some e)
  | .ok objs :: rest, db =>
    match ingestObjects aggregate src tenant objs db with
    | (db', some e) => (db', some e)
    | (db', none) => ingestPages aggregate src tenant rest db'

/-- The day offsets `n, n - 1, ..., 0`. -/
def countDown : Nat → List Int
  | 0 => [0]
  | n + 1 => ((n + 1 : Nat) : Int) :: countDown n

/-- The day offsets of the loop of line 93: `d` starts at the flag converted to
`time.Duration`, a signed 64-bit integer, and runs while `d >= 0`. -/
def dayOffsets (skipEntriesAgedDays : Nat) : List Int :=
  if int64OfUint64 skipEntriesAgedDays < 0 then []
  else countDown (int64OfUint64 skipEntriesAgedDays).toNat

/-- The loop over the day offsets (line 93) for one tenant. -/
def ingestDays (env : PollEnv) (src : BulkPieceSource) (tenant : Int) :
    List Int → PieceStore → PieceStore × Option String
  | [], db => (db, none)
  | d :: rest, db =>
    match ingestPages env.aggregate src tenant (env.listing tenant d) db with
    | (db', some e) => (db', some e)
    | (db', none) => ingestDays env src tenant rest db'

/-- The body of the loop over the tenants (lines 78-216), for one tenant; indexing
`PathParts` out of range panics. -/
def ingestTenant (env : PollEnv) (days : List Int) (t : Int × BulkPieceSource)
    (db : PieceStore) : PieceStore × Outcome :=
  if t.2.SourceType ≠ "s3" then (db, .error "unsupported bulk source type")
  else
    match t.2.PathParts[0]? with
    | none => (db, .panic "index out of range")
    | some _ =>
      match env.loadConfig t.2 with
      | some e => (db, .error e)
      | none =>
        match t.2.PathParts[1]? with
        | none => (db, .panic "index out of range")
        | some _ =>
          match ingestDays env t.2 t.1 days db with
          | (db', some e) => (db', .error e)
          | (db', none) => (db', .ok)

/-- The loop over the tenants (line 77). -/
def ingestTenants (env : PollEnv) (days : List Int) :
    List (Int × BulkPieceSource) → PieceStore → PieceStore × Outcome
  | [], db => (db, .ok)
  | t :: rest, db =>
    match ingestTenant env days t db with
    | (db', .ok) => ingestTenants env days rest db'
    | (db', out) => (db', out)

/-- The action of `bulk-piece-poll` up to its return (lines 59-219). -/
def pollBody (env : PollEnv) (skipEntriesAgedDays : Nat) (db : PieceStore) :
    PieceStore × Outcome :=
  match env.tenants with
  | .error e => (db, .error e)
  | .ok bps => ingestTenants env (dayOffsets skipEntriesAgedDays) bps db

/-- The result of a run of `bulk-piece-poll`: the store, how the action ended, and
whether the materialized views were refreshed. -/
structure PollResult where
  store : PieceStore
  outcome : Outcome
  refreshed : Bool

/-- The action of `bulk-piece-poll` with its deferred function (lines 47-57): the refresh
runs when `defErr` is nil as the body ends, and its error becomes the error of the
action. -/
def bulkPiecePoll (env : PollEnv) (skipEntriesAgedDays : Nat) (db : PieceStore) : PollResult :=
  match pollBody env skipEntriesAgedDays db with
  | (db', .error e) => { store := db', outcome := .error e, refreshed := false }
  | (db', .ok) =>
    match env.refreshMatviews with
    | none => { store := db', outcome := .ok, refreshed := true }
    | some e => { store := db', outcome := .error e, refreshed := false }
  | (db', .panic e) =>
    { store := db', outcome := .panic e, refreshed := env.refreshMatviews.isNone }

/-! ## The listing of eligible pieces -/

/-- The table `app.TEMPPolicies`. -/
def TEMPPolicies : List (Int × String) :=
  [(13, "bafkreihuqkipjv2sgc3ypr5lcervqitht2m5f6iyr4g432mpqwzmfm7jtq"),
   (17, "bafkreigmfds7lnlt5jq7mu3fr3upkcsbtjhd7ot6hocjmtjtu54zz3ajlu"),
   (21, "bafkreiem4o6joymaemcgwzgpdabtqzyw7ir6ytabv7xth2tc4yzbnovlr4")]

/-- The type `apitypes.Piece`. -/
structure ApiPiece where
  PieceCid : String
  PaddedPieceSize : Nat
  ClaimingTenant : Int
  TenantPolicyCid : String
  SampleReserveCmd : String
deriving DecidableEq, Repr

/-- A row scanned from the eligibility query (lines 48-53). -/
structure EligibleRow where
  PieceID : Int
  PieceLog2Size : Nat
  Tenants : List Int
  PieceCid : String
deriving DecidableEq, Repr

/-- The query parameters of a request to `/sp/eligible_pieces`, each as the handler reads
it: a present `limit` or `tenant` through `parseUIntQueryParam` with its bounds, a present
`internal-nolateral` and `include-sourceless` through `truthyBoolQueryParam`. -/
structure EligibleRequest where
  limit : Option (Except String Nat)
  tenant : Option (Except String Nat)
  internalNolateral : Option Bool
  includeSourceless : Bool

/-- What the handler takes from outside the request: the constant
`listEligibleDefaultSize`, the authenticated actor, the path of the request,
`curlAuthedForSP`, and the answer of the store to
`SELECT * FROM spd.f( $1, $2, $3, $4, $5 )` for a function name `f`, actor, row limit,
tenant and sourceless flag. -/
structure EligibleApi where
  listEligibleDefaultSize : Nat
  authedActorID : Nat
  urlPath : String
  curlAuthedForSP : Nat → String → List (String × String) → String
  select : String → Nat → Nat → Int → Bool → Except String (List EligibleRow)

/-- The conversion `int16(tid)`. -/
def int16OfUint64 (u : Nat) : Int := ((u : Int) + 2 ^ 15) % 2 ^ 16 - 2 ^ 15

/-- The value of `lim` after lines 19-26. -/
def requestedLimit (api : EligibleApi) (req : EligibleRequest) : Except String Nat :=
  match req.limit with
  | none => .ok api.listEligibleDefaultSize
  | some r => r

/-- The value of `tenantID` after lines 28-35. -/
def requestedTenant (req : EligibleRequest) : Except String Int :=
  match req.tenant with
  | none => .ok 0
  | some (.error e) => .error e
  | some (.ok tid) => .ok (int16OfUint64 tid)

/-- The value of `useQueryFunc` after lines 38-46. -/
def useQueryFunc (api : EligibleApi) (req : EligibleRequest) (lim : Nat) : String :=
  match req.internalNolateral with
  | some truthy => if truthy then "pieces_eligible_full" else "pieces_eligible_head"
  | none =>
    if lim > api.listEligibleDefaultSize then "pieces_eligible_full"
    else "pieces_eligible_head"

/-- The lines of `info` before a truncation note (lines 69-76). -/
def baseInfo (api : EligibleApi) : List String :=
  ["List of qualifying Piece CIDs.",
   "",
   "Once you have selected a Piece CID - reserve it in the system by invoking the API as",
   "shown in the corresponding \x60sample_reserve_cmd\x60. Within 5 minutes the reservation",
   "will activate and you will be able to see it and potential unlocked sources at:",
   " " ++ api.curlAuthedForSP api.authedActorID "/sp/pending_proposals" []]

/-- The lines of the truncation note (lines 82-93). -/
def truncationNote (api : EligibleApi) (lim : Nat) : List String :=
  ["NOTE: The complete list of entries has been TRUNCATED to the top " ++ toString lim ++ ".",
   "Use the \x27limit\x27 param in your API call to request more of the (possibly very large) list:",
   " " ++ api.curlAuthedForSP api.authedActorID
     (api.urlPath ++ "?limit=" ++
       toString (2 * (if lim < api.listEligibleDefaultSize then api.listEligibleDefaultSize
         else lim) % 2 ^ 64 / 100 * 100)) [],
   ""]

/-- The body of the loop of lines 99-109 for one row; `none` is the panic of
`p.Tenants[0]` on a row without tenants. -/
def renderPiece (api : EligibleApi) (p : EligibleRow) : Option ApiPiece :=
  match p.Tenants[0]? with
  | none => none
  | some t =>
    some { PieceCid := p.PieceCid,
           PaddedPieceSize := 2 ^ p.PieceLog2Size % 2 ^ 64,
           ClaimingTenant := t,
           TenantPolicyCid := (mapGet TEMPPolicies t).getD "",
           SampleReserveCmd := api.curlAuthedForSP api.authedActorID "/sp/invoke"
             [("call", "reserve_piece"), ("piece_cid", p.PieceCid),
              ("tenant_policy", (mapGet TEMPPolicies t).getD "")] }

/-- The loop of lines 98-109: the rendered rows, or `none` when a row panics. -/
def renderPieces (api : EligibleApi) : List EligibleRow → Option (List ApiPiece)
  | [] => some []
  | p :: rest =>
    match renderPiece api p with
    | none => none
    | some q =>
      match renderPieces api rest with
      | none => none
      | some qs => some (q :: qs)

/-- How the handler ends: a failure reply, an error, a panic, or a payload with its
annotation. -/
inductive ApiResult where
  | fail (msg : String)
  | error (e : String)
  | panic
  | payload (pieces : List ApiPiece) (info : String)
deriving DecidableEq, Repr

/-- The rows kept by lines 79-80. -/
def keptRows (lim : Nat) (orderedPieces : List EligibleRow) : List EligibleRow :=
  if orderedPieces.length > lim then orderedPieces.take lim else orderedPieces

/-- The lines of `info` after lines 79-96. -/
def infoLines (api : EligibleApi) (lim : Nat) (orderedPieces : List EligibleRow) : List String :=
  if orderedPieces.length > lim then truncationNote api lim ++ baseInfo api else baseInfo api

/-- The handler `apiSpListEligible`. -/
def apiSpListEligible (api : EligibleApi) (req : EligibleRequest) : ApiResult :=
  match requestedLimit api req with
  | .error e => .fail e
  | .ok lim =>
    match requestedTenant req with
    | .error e => .fail e
    | .ok tenantID =>
      match api.select (useQueryFunc api req lim) api.authedActorID ((lim + 1) % 2 ^ 64)
          tenantID req.includeSourceless with
      | .error e => .error e
      | .ok orderedPieces =>
        match renderPieces api (keptRows lim orderedPieces) with
        | none => .panic
        | some ret => .payload ret (String.intercalate "\n" (infoLines api lim orderedPieces))

/-! ## The run of `track-deals` statement by statement -/

/-- The handle a statement is issued on: the connection pool `db`, where a statement
commits on its own, or the open transaction `tx`. -/
inductive Conn where
  | pool
  | tx
deriving DecidableEq, Repr

/-- The store as a run sees it: the committed tables, the tables as seen inside the open
transaction, and the count of statements issued so far. -/
structure Session where
  committed : Store
  working : Store
  issued : Nat

/-- One statement: it fails when `faults` holds an error for its position in the run, and
else applies its effect, to the committed tables on the pool and to the working tables
in the transaction. -/
def Session.exec (faults : Nat → Option String) (via : Conn) (effect : Store → Store)
    (s : Session) : Session × Option String :=
  match faults s.issued with
  | some e => ({ s with issued := s.issued + 1 }, some e)
  | none =>
    match via with
    | .pool => ({ s with committed := effect s.committed, issued := s.issued + 1 }, none)
    | .tx => ({ s with working := effect s.working, issued := s.issued + 1 }, none)

/-- The sequencing `if err != nil { return err }`. -/
def andThen (r : Session × Option String) (next : Session → Session × Option String) :
    Session × Option String :=
  match r with
  | (s, some e) => (s, some e)
  | (s, none) => next s

/-- A loop issuing one statement per effect, returning at the first error. -/
def execAll (faults : Nat → Option String) (via : Conn) :
    List (Store → Store) → Session → Session × Option String
  | [], s => (s, none)
  | f :: rest, s => andThen (s.exec faults via f) (execAll faults via rest)

/-- The function `db.BeginTxFunc`: the body runs on the tables as committed at `BEGIN`;
when it returns an error the transaction is rolled back, else `COMMIT` makes its tables
the committed ones. `BEGIN` and `COMMIT` are statements that can fail as well. -/
def beginTxFunc (faults : Nat → Option String) (body : Session → Session × Option String)
    (s : Session) : Session × Option String :=
  match faults s.issued with
  | some e => ({ s with issued := s.issued + 1 }, some e)
  | none =>
    match body { s with working := s.committed, issued := s.issued + 1 } with
    | (s1, some e) => ({ s1 with working := s1.committed }, some e)
    | (s1, none) =>
      match faults s1.issued with
      | some e => ({ s1 with working := s1.committed, issued := s1.issued + 1 }, some e)
      | none => ({ s1 with committed := s1.working, issued := s1.issued + 1 }, none)

/-- The loop over `toUpsert` inside the transaction (lines 311-368): the upsert with its
scanned `piece_id`, then the activation link for a deal that is newly "active". -/
def upsertAll (faults : Nat → Option String) (pieceIdOf : String → Int) :
    List deal → Session → Session × Option String
  | [], s => (s, none)
  | d :: rest, s =>
    let scanned : deal := { d with pieceID := (upsertDeal pieceIdOf d s.working.published_deals).2 }
    andThen (s.exec faults .tx (fun st =>
        { st with published_deals := (upsertDeal pieceIdOf d st.published_deals).1 }))
      (fun s1 =>
        andThen
          (if becameActive d then
            s1.exec faults .tx (fun st => { st with proposals := st.proposals.map (linkRow scanned) })
          else (s1, none))
          (upsertAll faults pieceIdOf rest))

/-- The statements of `app.RefreshMatviews`: a refresh and an analyze for each of the
twelve views, none of which touches a table. -/
def refreshMatviewStmts : List (Store → Store) := List.replicate 24 (fun st => st)

/-- The closure passed to `db.BeginTxFunc` (lines 305-522). -/
def txBody (faults : Nat → Option String) (pieceIdOf : String → Int) (stamps : Stamps)
    (height : Int) (upserts : List deal) (failIds : List Int)
    (datacap : List (Address × Option Int)) (s : Session) : Session × Option String :=
  andThen (s.exec faults .tx (fun st => st)) fun s =>
  andThen (upsertAll faults pieceIdOf upserts s) fun s =>
  andThen (if failIds.length > 0 then
      s.exec faults .tx (fun st =>
        { st with published_deals := st.published_deals.map (failDealRow failIds) })
    else (s, none)) fun s =>
  andThen (execAll faults .tx
    (datacap.map (fun e => fun st => { st with clients := writeDatacap st.clients e.1 e.2 })) s)
    fun s =>
  andThen (s.exec faults .tx (fun st =>
    { st with pieces := markProven st.published_deals st.pieces })) fun s =>
  andThen (s.exec faults .tx (fun st =>
    { st with proposals := failMissedStart stamps.missed height st.proposals })) fun s =>
  andThen (s.exec faults .tx (fun st =>
    { st with proposals := failTerminated stamps.terminated st.published_deals st.proposals }))
    fun s =>
  andThen (s.exec faults .tx (fun st =>
    { st with proposals := failInvalidated stamps.invalid st.invalidated_deals st.proposals }))
    fun s =>
  andThen (s.exec faults .tx (fun st => { st with market_state := some height })) fun s =>
  execAll faults .tx refreshMatviewStmts s

/-- The outcome of a run: the committed store, the error returned, and the count of
statements issued. -/
structure RunResult where
  store : Store
  err : Option String
  issued : Nat

/-- The result of a run that ends in session `r.1` with error `r.2`. -/
def RunResult.of (r : Session × Option String) : RunResult :=
  { store := r.1.committed, err := r.2, issued := r.1.issued }

/-- The action of `track-deals` statement by statement: the two reads on the pool (lines
87-94 and 116-143), the queries to the chain node, the walk and the blanks, then the
transaction. -/
def trackDealsRun (chain : ChainView) (pieceIdOf : String → Int) (stamps : Stamps)
    (faults : Nat → Option String) (db : Store) : RunResult :=
  RunResult.of
    (andThen (Session.exec faults .pool (fun st => st)
        { committed := db, working := db, issued := 0 }) fun s =>
      match queryDatacap chain.verifiedClientStatus (tenantClients s.committed.clients) [] with
      | .error e => (s, some e)
      | .ok datacap =>
        andThen (s.exec faults .pool (fun st => st)) fun s =>
          match walk chain.height chain.dealStates
              { initialDbDeals := loadDbDeals s.committed.published_deals [],
                tenantClientDatacap := datacap, toUpsert := [] } chain.dealProposals with
          | .error e => (s, some e)
          | .ok w =>
            match fillAllBlanks w.toUpsert with
            | .error e => (s, some e)
            | .ok upserts =>
              beginTxFunc faults
                (txBody faults pieceIdOf stamps chain.height upserts
                  (toFail w.initialDbDeals) w.tenantClientDatacap) s)

/-- A stretch of a run from session `s` to the result `r` stays inside the transaction:
the committed tables are untouched; when it returns no error, the working tables are
`target` and no statement of the stretch failed; when it returns an error, that error is
the one of the last statement issued, the first of the stretch to fail. -/
def Runs (faults : Nat → Option String) (target : Store) (s : Session)
    (r : Session × Option String) : Prop :=
  r.1.committed = s.committed ∧ s.issued ≤ r.1.issued ∧
  (r.2 = none →
    r.1.working = target ∧ ∀ n, s.issued ≤ n → n < r.1.issued → faults n = none) ∧
  (∀ e, r.2 = some e →
    s.issued < r.1.issued ∧ faults (r.1.issued - 1) = some e ∧
      ∀ n, s.issued ≤ n → n < r.1.issued - 1 → faults n = none)

/-- A stretch of a run from session `s` to the result `r` is all or nothing: when it
returns no error, the committed tables are `target` and no statement of the stretch
failed; when it returns an error, the committed tables are untouched and that error is
the one of the last statement issued, the first of the stretch to fail. -/
def Commits (faults : Nat → Option String) (target : Store) (s : Session)
    (r : Session × Option String) : Prop :=
  (r.2 = none →
    r.1.committed = target ∧ ∀ n, s.issued ≤ n → n < r.1.issued → faults n = none) ∧
  (∀ e, r.2 = some e →
    r.1.committed = s.committed ∧ s.issued < r.1.issued ∧ faults (r.1.issued - 1) = some e ∧
      ∀ n, s.issued ≤ n → n < r.1.issued - 1 → faults n = none)

/-! ## The error codes of the web API -/

/-- The type `apitypes.APIErrorCode`. -/
abbrev APIErrorCode := Int

/-- The constant `apitypes.ErrInvalidRequest`. -/
def ErrInvalidRequest : APIErrorCode := 4400
/-- The constant `apitypes.ErrUnauthorizedAccess`. -/
def ErrUnauthorizedAccess : APIErrorCode := 4401
/-- The constant `apitypes.ErrSystemTemporarilyDisabled`. -/
def ErrSystemTemporarilyDisabled : APIErrorCode := 4503
/-- The constant `apitypes.ErrOversizedPiece`. -/
def ErrOversizedPiece : APIErrorCode := 4011
/-- The constant `apitypes.ErrStorageProviderSuspended`. -/
def ErrStorageProviderSuspended : APIErrorCode := 4012
/-- The constant `apitypes.ErrStorageProviderIneligibleToMine`. -/
def ErrStorageProviderIneligibleToMine : APIErrorCode := 4013
/-- The constant `apitypes.ErrStorageProviderInfoTooOld`. -/
def ErrStorageProviderInfoTooOld : APIErrorCode := 4041
/-- The constant `apitypes.ErrStorageProviderUndialable`. -/
def ErrStorageProviderUndialable : APIErrorCode := 4042
/-- The constant `apitypes.ErrStorageProviderUnsupported`. -/
def ErrStorageProviderUnsupported : APIErrorCode := 4043
/-- The constant `apitypes.ErrUnclaimedPieceCID`. -/
def ErrUnclaimedPieceCID : APIErrorCode := 4020
/-- The constant `apitypes.ErrProviderHasReplica`. -/
def ErrProviderHasReplica : APIErrorCode := 4021
/-- The constant `apitypes.ErrTenantsOutOfDatacap`. -/
def ErrTenantsOutOfDatacap : APIErrorCode := 4022
/-- The constant `apitypes.ErrTooManyReplicas`. -/
def ErrTooManyReplicas : APIErrorCode := 4023
/-- The constant `apitypes.ErrProviderAboveMaxInFlight`. -/
def ErrProviderAboveMaxInFlight : APIErrorCode := 4024
/-- The constant `apitypes.ErrReplicationRulesViolation`. -/
def ErrReplicationRulesViolation : APIErrorCode := 4029
/-- The constant `apitypes.ErrExternalReservationRefused`. -/
def ErrExternalReservationRefused : APIErrorCode := 4030

/-- The constants of `apierrors.go` by name (the identifier without `Err`), in the order
of the file. -/
def apiErrorCodes : List (String × APIErrorCode) :=
  [("InvalidRequest", ErrInvalidRequest),
   ("UnauthorizedAccess", ErrUnauthorizedAccess),
   ("SystemTemporarilyDisabled", ErrSystemTemporarilyDisabled),
   ("OversizedPiece", ErrOversizedPiece),
   ("StorageProviderSuspended", ErrStorageProviderSuspended),
   ("StorageProviderIneligibleToMine", ErrStorageProviderIneligibleToMine),
   ("StorageProviderInfoTooOld", ErrStorageProviderInfoTooOld),
   ("StorageProviderUndialable", ErrStorageProviderUndialable),
   ("StorageProviderUnsupported", ErrStorageProviderUnsupported),
   ("UnclaimedPieceCID", ErrUnclaimedPieceCID),
   ("ProviderHasReplica", ErrProviderHasReplica),
   ("TenantsOutOfDatacap", ErrTenantsOutOfDatacap),
   ("TooManyReplicas", ErrTooManyReplicas),
   ("ProviderAboveMaxInFlight", ErrProviderAboveMaxInFlight),
   ("ReplicationRulesViolation", ErrReplicationRulesViolation),
   ("ExternalReservationRefused", ErrExternalReservationRefused)]

/-- The format string of the failure of `apiSpStatus`. -/
def spStatusFormat : String :=
  "\n                                            !!! WE NEVER IMPLEMENTED THIS !!!\n\n" ++
  "This area will contain various information regarding the system and the current state " ++
  "of Storage Provider %s\n    "

/-- The handler `apiSpStatus`: it calls `retFail` with the code, the format and the
authenticated actor; `retFail` is taken as it is given. -/
def apiSpStatus {ρ : Type} (retFail : APIErrorCode → String → List String → ρ)
    (authedActorID : String) : ρ :=
  retFail ErrSystemTemporarilyDisabled spStatusFormat [authedActorID]

/-- The loop `for d := ...; d >= 0; d--` of line 93 from the value `d` on, with the
values of `d` of its iterations in order; `none` when the rounds given do not suffice to
reach the end of the loop. -/
def dayLoop : Nat → Int → Option (List Int)
  | 0, _ => none
  | rounds + 1, d =>
    if d ≥ 0 then (dayLoop rounds (subInt64 d 1)).map (fun rest => d :: rest) else some []

/-- The duration `-24 * time.Hour * d` of line 95, in nanoseconds: the product of two
values of type `time.Duration`, a signed 64-bit integer. -/
def dayShift (d : Int) : Int := wrapInt64 (-86400000000000 * d)

/-- The local clock of the process as the package `time` presents it: the offset of the
local zone, in seconds east of UTC, in force at an instant given in Unix seconds, and
the text that the layout `time.DateOnly` prints for a calendar day, the days being
counted from 1970-01-01. -/
structure LocalClock where
  zoneOffset : Int → Int
  dateText : Int → String

/-- The calendar day, in the local zone, of an instant given in nanoseconds since the
Unix epoch. -/
def LocalClock.localDay (c : LocalClock) (t : Int) : Int :=
  (t / 1000000000 + c.zoneOffset (t / 1000000000)) / 86400

/-- The text `t.Format(time.DateOnly)` of a time `t` of the local zone. -/
def LocalClock.dateOnly (c : LocalClock) (t : Int) : String := c.dateText (c.localDay t)

/-- The value `pref` of line 95, `time.Now().Add(-24 * time.Hour * d).Format(time.DateOnly)`,
with `now` the reading of the clock, in nanoseconds since the Unix epoch. -/
def pref (c : LocalClock) (now : Int) (d : Int) : String := c.dateOnly (now + dayShift d)

/-- The loop of line 93 from the value `d` on, with the value of `pref` of each of its
iterations in order; the iteration number `i` of the loop reads the clock as `now i`.
The result is `none` when the rounds given do not suffice to reach the end of the loop. -/
def dayLoopPrefs (c : LocalClock) (now : Nat → Int) : Nat → Nat → Int → Option (List String)
  | 0, _, _ => none
  | rounds + 1, i, d =>
    if d ≥ 0 then
      (dayLoopPrefs c now rounds (i + 1) (subInt64 d 1)).map (fun rest => pref c (now i) d :: rest)
    else some []

/-- Modelled from the spec: the helper `parseUIntQueryParam`, which is not among the
sources, on a parameter already read as an unsigned integer: the value when it lies
within the bounds, both included (`limit` ranges over `1..listEligibleMaxSize`), and an
error otherwise. -/
def parseUIntQueryParam (value min max : Nat) : Except String Nat :=
  if value < min ∨ value > max then .error "value is out of bounds" else .ok value

/-- The `tenant` parameter as the handler reads it (lines 29-30): absent, or parsed with
the bounds 1 and `1<<15`. -/
def tenantParam (raw : Option Nat) : Option (Except String Nat) :=
  raw.map (fun v => parseUIntQueryParam v 1 (2 ^ 15))

/-- The type `WrCommP`: a wrapper of `fil.CommP`. -/
abbrev WrCommP := CommP

/-- How a call of `UnmarshalJSON` ends. -/
inductive UnmarshalResult where
  | ok (p : WrCommP)
  | error (e : String)
  | panic (e : String)
deriving DecidableEq, Repr

/-- The method `WrCommP.UnmarshalJSON` (lines 227-238) on the bytes `b` of a JSON value:
the slice expression `b[1 : len(b)-1]` panics unless `1 <= len(b)-1`; `cid.Decode` and
`fil.CommPFromPCidV2` are taken as they are given. -/
def WrCommP.UnmarshalJSON (cidDecode : List Char → Except String String)
    (commPFromPCidV2 : String → Except String WrCommP) (b : List Char) : UnmarshalResult :=
  if (1 : Int) ≤ (b.length : Int) - 1 then
    match cidDecode ((b.take (b.length - 1)).drop 1) with
    | .error e => .error e
    | .ok c =>
      match commPFromPCidV2 c with
      | .error e => .error e
      | .ok p => .ok p
  else .panic "slice bounds out of range"

/-! ## The reservation of a piece -/

/-- The type `apitypes.TenantReplicationState`: the caps of a tenant and the counts that
a provider meets them with. -/
structure TenantReplicationState where
  TenantID : Int
  TenantClient : Option String
  MaxInFlightBytes : Int
  SpInFlightBytes : Int
  MaxTotal : Int
  MaxOrg : Int
  MaxCity : Int
  MaxCountry : Int
  MaxContinent : Int
  Total : Int
  InOrg : Int
  InCity : Int
  InCountry : Int
  InContinent : Int
  DealAlreadyExists : Bool
deriving DecidableEq, Repr

/-- Modelled from the spec: the geodata of a provider (section 3). -/
structure GeoData where
  org : String
  metro : String
  country : String
  continent : String
deriving DecidableEq, Repr

/-- Modelled from the spec: the replication caps of a tenant (section 3). -/
structure TenantCaps where
  max_total : Nat
  max_per_org : Nat
  max_per_metro : Nat
  max_per_country : Nat
  max_per_continent : Nat
deriving DecidableEq, Repr

/-- Modelled from the spec: a geographic bucket: everywhere, or one org, metro, country
or continent. -/
inductive Bucket where
  | total
  | org (name : String)
  | metro (name : String)
  | country (name : String)
  | continent (name : String)
deriving DecidableEq, Repr

/-- Modelled from the spec: an active or pending proposal, as far as the caps see it. -/
structure Reservation where
  tenant : Int
  piece : Int
  provider : Nat
deriving DecidableEq, Repr

/-- Modelled from the spec: a request to reserve a piece for a tenant: the provider asking,
and whether the transaction gets through, that is the other conditions of admissibility
hold and the commit succeeds within the bounded retries. -/
structure ReserveRequest where
  provider : Nat
  tenant : Int
  piece : Int
  passes : Bool
deriving DecidableEq, Repr

/-- Modelled from the spec: the cap of a tenant for a bucket. -/
def capFor (caps : TenantCaps) : Bucket → Nat
  | .total => caps.max_total
  | .org _ => caps.max_per_org
  | .metro _ => caps.max_per_metro
  | .country _ => caps.max_per_country
  | .continent _ => caps.max_per_continent

/-- Modelled from the spec: whether a provider with the given geodata lies in a bucket. -/
def inBucket (geo : GeoData) : Bucket → Bool
  | .total => true
  | .org name => decide (geo.org = name)
  | .metro name => decide (geo.metro = name)
  | .country name => decide (geo.country = name)
  | .continent name => decide (geo.continent = name)

/-- Modelled from the spec: the count of active and pending proposals of a tenant in a
bucket. -/
def countIn (geoOf : Nat → GeoData) (props : List Reservation) (tenant : Int) (g : Bucket) :
    Nat :=
  (props.filter (fun p => decide (p.tenant = tenant) && inBucket (geoOf p.provider) g)).length

/-- Modelled from the spec: the five buckets a provider lies in, one for each tier. -/
def bucketsOf (geo : GeoData) : List Bucket :=
  [.total, .org geo.org, .metro geo.metro, .country geo.country, .continent geo.continent]

/-- Modelled from the spec: the replication-state vector of a tenant for a provider,
which `apiSpInvoke`, not among the sources, computes: the caps of the tenant and its
counts of active and pending proposals in the buckets of the provider. -/
def replicationState (capsOf : Int → TenantCaps) (geoOf : Nat → GeoData)
    (props : List Reservation) (tenant : Int) (sp : Nat) : TenantReplicationState :=
  { TenantID := tenant, TenantClient := none, MaxInFlightBytes := 0, SpInFlightBytes := 0,
    MaxTotal := (capsOf tenant).max_total,
    MaxOrg := (capsOf tenant).max_per_org,
    MaxCity := (capsOf tenant).max_per_metro,
    MaxCountry := (capsOf tenant).max_per_country,
    MaxContinent := (capsOf tenant).max_per_continent,
    Total := countIn geoOf props tenant .total,
    InOrg := countIn geoOf props tenant (.org (geoOf sp).org),
    InCity := countIn geoOf props tenant (.metro (geoOf sp).metro),
    InCountry := countIn geoOf props tenant (.country (geoOf sp).country),
    InContinent := countIn geoOf props tenant (.continent (geoOf sp).continent),
    DealAlreadyExists := false }

/-- Modelled from the spec: condition 3 of admissibility, checked by the reservation
engine, which is not among the sources: the counts at every geographic tier are
strictly below the corresponding cap of the tenant. -/
def belowCaps (s : TenantReplicationState) : Bool :=
  decide (s.Total < s.MaxTotal) && decide (s.InOrg < s.MaxOrg) &&
    decide (s.InCity < s.MaxCity) && decide (s.InCountry < s.MaxCountry) &&
    decide (s.InContinent < s.MaxContinent)

/-- Modelled from the spec: one reservation by the engine of `/sp/invoke` (`apiSpInvoke`,
which is not among the sources): inside a serializable transaction the admissibility is
checked again and the proposal row inserted; a request that is not admissible, or whose
commit does not get through, leaves the proposals as they are. -/
def reservePiece (capsOf : Int → TenantCaps) (geoOf : Nat → GeoData)
    (props : List Reservation) (req : ReserveRequest) : List Reservation :=
  if req.passes && belowCaps (replicationState capsOf geoOf props req.tenant req.provider) then
    props ++ [{ tenant := req.tenant, piece := req.piece, provider := req.provider }]
  else props

/-- Modelled from the spec: the reservations of several providers; the transactions
being serializable, they take effect one after the other in some order, the order of
the list. -/
def reserveAll (capsOf : Int → TenantCaps) (geoOf : Nat → GeoData)
    (reqs : List ReserveRequest) (props : List Reservation) : List Reservation :=
  reqs.foldl (reservePiece capsOf geoOf) props

/-- Modelled from the spec: the cap invariant of section 8: for every tenant and bucket the
count of active and pending proposals is at most the cap of the tenant for the bucket. -/
def CapsHold (capsOf : Int → TenantCaps) (geoOf : Nat → GeoData) (props : List Reservation) :
    Prop :=
  ∀ (tenant : Int) (g : Bucket), countIn geoOf props tenant g ≤ capFor (capsOf tenant) g

/-! ### Reference classification, following the wording of the specification -/

/-- The four outcomes of the classification as the specification lists them. -/
inductive ChainStatus where
  | slashed
  | active (sectorStart : Int)
  | missedSealing
  | published
deriving DecidableEq, Repr

/-- The classification in the priority order of the specification, with the sum
`StartEpoch + EpochsInDay` of the specification taken over the integers; a deal without
a state entry has the empty deal state, which is neither slashed nor started. -/
def specClassify (currentEpoch : Int) (entry : Option DealState) (startEpoch : Int) :
    ChainStatus :=
  match entry with
  | none => if startEpoch + EpochsInDay < currentEpoch then .missedSealing else .published
  | some st =>
    if st.SlashEpoch ≠ -1 then .slashed
    else if st.SectorStartEpoch > 0 then .active st.SectorStartEpoch
    else if startEpoch + EpochsInDay < currentEpoch then .missedSealing
    else .published

/-- The status string of an outcome. -/
def ChainStatus.status : ChainStatus → String
  | .slashed => "terminated"
  | .active _ => "active"
  | .missedSealing => "terminated"
  | .published => "published"

/-- The termination reason of an outcome (empty when not terminated). -/
def ChainStatus.reason : ChainStatus → String
  | .slashed => "entered on-chain final-slashed state"
  | .active _ => ""
  | .missedSealing => "containing sector missed expected sealing epoch"
  | .published => ""

/-- The recorded sector-start epoch of an outcome. -/
def ChainStatus.sectorStart : ChainStatus → Option Int
  | .active e => some e
  | _ => none

/-! ### Reference datacap projection, following the wording of the specification -/

/-- The state entry the chain holds for a deal id, if any. -/
def stateEntry (dealStates : Nat → Except String (Option DealState)) (id : Nat) :
    Option DealState :=
  match dealStates id with
  | .ok found => found
  | .error _ => none

/-- The sum of `PieceSize` over the chain deals whose client is `c`, that are verified and
whose computed status (`chainStatus`) is "published". -/
def publishedVerifiedSize (height : Int) (dealStates : Nat → Except String (Option DealState))
    (c : Address) : List (Nat × DealProposal) → Int
  | [] => 0
  | (id, prop) :: rest =>
    (if prop.Client = c ∧ prop.VerifiedDeal = true ∧
        chainStatus height (stateEntry dealStates id) prop = "published"
      then (prop.PieceSize : Int) else 0)
      + publishedVerifiedSize height dealStates c rest

/-- The amount the walk adds to the entry of client `c`: `int64(PieceSize)` of every chain
deal of `c` that is verified and still "published". -/
def walkCredit (height : Int) (dealStates : Nat → Except String (Option DealState))
    (c : Address) : List (Nat × DealProposal) → Int
  | [] => 0
  | (id, prop) :: rest =>
    (if prop.Client = c ∧ prop.VerifiedDeal = true ∧
        chainStatus height (stateEntry dealStates id) prop = "published"
      then int64OfUint64 prop.PieceSize else 0)
      + walkCredit height dealStates c rest

/-! ### Reference conditions of the activation link, following the wording of the specification -/

/-- The new status is "active" and the previous local status, if there is a previous
local record, was not. -/
def NewlyActive (d : deal) : Prop :=
  d.status = "active" ∧ ∀ prev, d.prevState = some prev → prev.status ≠ "active"

/-- A live, delivered, not yet activated proposal for the piece, provider and client of
the deal. -/
def Linkable (d : deal) (piece : Int) (p : Proposal) : Prop :=
  p.proposal_failstamp = 0 ∧ p.proposal_delivered ≠ none ∧ p.activated_deal_id = none ∧
    p.piece_id = piece ∧ p.provider_id = d.providerID ∧ p.client_id = d.clientID

/-- The deal ids of the chain deals, as the walk records them. -/
def walkedIds (deals : List (Nat × DealProposal)) : List Int :=
  deals.map (fun e => int64OfUint64 e.1)

/-! ### Reference table of error codes, following the wording of the specification -/

/-- The APIErrorCode table as the specification lists it. -/
def specErrorTable : List (String × Int) :=
  [("InvalidRequest", 4400), ("UnauthorizedAccess", 4401), ("SystemTemporarilyDisabled", 4503),
   ("OversizedPiece", 4011), ("StorageProviderSuspended", 4012),
   ("StorageProviderIneligibleToMine", 4013), ("StorageProviderInfoTooOld", 4041),
   ("StorageProviderUndialable", 4042), ("StorageProviderUnsupported", 4043),
   ("UnclaimedPieceCID", 4020), ("ProviderHasReplica", 4021), ("TenantsOutOfDatacap", 4022),
   ("TooManyReplicas", 4023), ("ProviderAboveMaxInFlight", 4024),
   ("ReplicationRulesViolation", 4029), ("ExternalReservationRefused", 4030)]

/-! ### Reference date prefixes, following the wording of the specification -/

/-- The date of `d` days ago for a reading `now` of the clock: the calendar day `d` days
before the local day of `now`. -/
def dateDaysAgo (c : LocalClock) (now : Int) (d : Int) : String :=
  c.dateText (c.localDay now - d)

/-! ## The proposal life cycle -/

/-- Modelled from the spec: the Reservation Engine, which creates the proposal rows, is
not part of the sources; a new row is in the initial state "reserved": not signed, not
delivered, live and not activated. -/
def isReserved (p : Proposal) : Bool :=
  p.signature_obtained.isNone && p.proposal_delivered.isNone &&
    decide (p.proposal_failstamp = 0) && p.activated_deal_id.isNone

/-- The stores reachable through the writes of the sign stage (`sign`), of the deliver
stage (`undialable`, `attempt`) and of a completed reconcile run (`reconcile`); the clock
function `spd.big_now()` is positive. The starting point (`init`) and the arrival of new
rows (`reserve`) follow the specification: proposals are created reserved, under a
unique id. -/
inductive Reachable : Store → Prop where
  | init (db : Store) (hres : ∀ p ∈ db.proposals, isReserved p = true)
      (huniq : (db.proposals.map (fun p => p.proposal_uuid)).Nodup) : Reachable db
  | reserve (db : Store) (p : Proposal) (h : Reachable db) (hres : isReserved p = true)
      (hfresh : p.proposal_uuid ∉ db.proposals.map (fun p => p.proposal_uuid)) :
      Reachable { db with proposals := db.proposals ++ [p] }
  | sign (db : Store) (p : Proposal) (nowTs : Int) (sig : Json) (cid : String)
      (h : Reachable db) (hp : p ∈ db.proposals) (hsel : awaitsSignature p = true) :
      Reachable { db with proposals := recordSignature nowTs sig cid p.proposal_uuid db.proposals }
  | undialable (db : Store) (p : Proposal) (now : Int)
      (h : Reachable db) (hp : p ∈ db.proposals) (hsel : awaitsDelivery p = true)
      (hnow : 0 < now) :
      Reachable { db with proposals := failUndialable now p.proposal_uuid db.proposals }
  | attempt (db : Store) (p : Proposal) (now nowTs : Int) (res : RpcResult)
      (h : Reachable db) (hp : p ∈ db.proposals) (hsel : awaitsDelivery p = true)
      (hnow : 0 < now) :
      Reachable { db with proposals := recordAttempt now nowTs res p.proposal_uuid db.proposals }
  | reconcile (db db' : Store) (chain : ChainView) (pieceIdOf : String → Int) (stamps : Stamps)
      (h : Reachable db)
      (hstamps : 0 < stamps.missed ∧ 0 < stamps.terminated ∧ 0 < stamps.invalid)
      (hrun : trackDeals chain pieceIdOf stamps db = .ok db') : Reachable db'

/-! ### The four conditions of the specification on a proposal row -/

/-- Condition (1): `proposal_failstamp > 0`. -/
def condFailed (p : Proposal) : Bool := decide (p.proposal_failstamp > 0)

/-- Condition (2): `activated_deal_id` is not NULL and the matching deal has status "active". -/
def condActivated (deals : List PublishedDeal) (p : Proposal) : Bool :=
  match p.activated_deal_id with
  | some id => deals.any (fun r => decide (r.deal_id = id) && decide (r.status = "active"))
  | none => false

/-- Condition (3): `proposal_delivered` is not NULL and `activated_deal_id` is NULL. -/
def condPendingActivation (p : Proposal) : Bool :=
  p.proposal_delivered.isSome && p.activated_deal_id.isNone

/-- Condition (4): `signature_obtained` is NULL or `proposal_delivered` is NULL. -/
def condUndelivered (p : Proposal) : Bool :=
  p.signature_obtained.isNone || p.proposal_delivered.isNone

/-- Condition (2) with "active" weakened to "not terminated": `activated_deal_id` is not
NULL, the deal it names is recorded, and no record of it is "terminated". -/
def condLinked (deals : List PublishedDeal) (p : Proposal) : Bool :=
  match p.activated_deal_id with
  | some id => deals.any (fun r => decide (r.deal_id = id)) && !isTerminatedDeal deals id
  | none => false

/-- How many of the listed conditions hold. -/
def countTrue (conds : List Bool) : Nat := (conds.filter (fun b => b)).length

/-- The invariants of a proposal row: a delivered row is signed, an activated row is
delivered. -/
def RowOk (p : Proposal) : Prop :=
  (p.signature_obtained = none → p.proposal_delivered = none) ∧
    (p.proposal_delivered = none → p.activated_deal_id = none)

/-- Every `activated_deal_id` names a recorded deal. -/
def LinksRecorded (db : Store) : Prop :=
  ∀ p ∈ db.proposals, ∀ id, p.activated_deal_id = some id →
    id ∈ db.published_deals.map (fun r => r.deal_id)

/-- No `activated_deal_id` names a "terminated" deal. -/
def LinksAlive (db : Store) : Prop :=
  ∀ p ∈ db.proposals, ∀ id, p.activated_deal_id = some id →
    isTerminatedDeal db.published_deals id = false

/-- The invariant of the store kept by all three stages. -/
def StoreOk (db : Store) : Prop :=
  (db.proposals.map (fun p => p.proposal_uuid)).Nodup ∧ (∀ p ∈ db.proposals, RowOk p) ∧
    LinksRecorded db ∧ LinksAlive db

/-- The part of the invariant that holds throughout the upsert loop. -/
def LoopOk (db : Store) : Prop :=
  (db.proposals.map (fun p => p.proposal_uuid)).Nodup ∧ (∀ p ∈ db.proposals, RowOk p) ∧
    LinksRecorded db

/-! ### Sample data -/

/-- A verified deal of client `f01000` with the given piece size, starting at epoch 5000. -/
def sampleDeal (size : Nat) : DealProposal :=
  { PieceCID := "baga-sample", PieceSize := size, VerifiedDeal := true,
    Client := .id 1000, Provider := .id 2000, StartEpoch := 5000, EndEpoch := 900000 }

/-- A chain on which no deal has a state entry. -/
def noStates : Nat → Except String (Option DealState) := fun _ => .ok none

/-- A walk state tracking client `f01000` with the given datacap and no local deals. -/
def sampleWalkState (dcap : Int) : WalkState :=
  { initialDbDeals := [], tenantClientDatacap := [(.id 1000, some dcap)], toUpsert := [] }

/-- A store with the single tracked client `f01000` and nothing else. -/
def sampleStore : Store :=
  { proposals := [], published_deals := [], invalidated_deals := [],
    clients := [{ client_id := 1000, tenant_id := some 1, client_meta := [] }],
    pieces := [], market_state := none }

/-- A chain at height 6000 without deals on which every client has datacap `2 ^ 63`. -/
def hugeDatacapChain : ChainView :=
  { height := 6000, dealProposals := [], dealStates := noStates,
    verifiedClientStatus := fun _ => .ok (some (2 ^ 63)) }

/-- The clock values used in the samples. -/
def sampleStamps : Stamps := { missed := 11, terminated := 12, invalid := 13 }

/-- The value stored under `activatable_datacap` in each client row. -/
def activatableDatacap (db : Store) : List (Option Json) :=
  db.clients.map (fun c => mapGet c.client_meta "activatable_datacap")

/-- A signed, delivered, live proposal linked to deal 7. -/
def linkedProposal : Proposal :=
  { proposal_uuid := "1b4e28ba", piece_id := 1, provider_id := 2000, client_id := 1000,
    start_epoch := 5000, entry_created := 1, signature_obtained := some 2,
    proposal_delivered := some 3, proposal_failstamp := 0, activated_deal_id := some 7,
    proposal_meta := [] }

/-- The local record of deal 7 with the given status. -/
def localDeal7 (status : String) : PublishedDeal :=
  { deal_id := 7, client_id := 1000, provider_id := 2000, piece_id := 1,
    piece_cid := "baga-sample", claimed_log2_size := 35, is_filplus := true, status := status,
    published_deal_meta := [], start_epoch := 5000, end_epoch := 900000,
    sector_start_epoch := some 5100 }

/-- A store in which the linked proposal points at deal 7, which is locally "terminated"
and also listed as invalidated. -/
def deadLinkStore : Store :=
  { proposals := [linkedProposal], published_deals := [localDeal7 "terminated"],
    invalidated_deals := [7], clients := [], pieces := [], market_state := none }

/-- A chain at height 6000 without any deal or datacap. -/
def quietChain : ChainView :=
  { height := 6000, dealProposals := [], dealStates := noStates,
    verifiedClientStatus := fun _ => .ok none }

/-- The failure message recorded in the meta of a proposal. -/
def failureOf (p : Proposal) : Option Json := mapGet p.proposal_meta "failure"

/-- A signed proposal awaiting delivery. -/
def signedProposal : Proposal :=
  { proposal_uuid := "1b4e28ba", piece_id := 1, provider_id := 2000, client_id := 1000,
    start_epoch := 5000, entry_created := 1, signature_obtained := some 2,
    proposal_delivered := none, proposal_failstamp := 0, activated_deal_id := none,
    proposal_meta := [] }

/-- The queue entry of the signed proposal. -/
def signedPending : proposalPending :=
  { ProposalUUID := "1b4e28ba", Provider := .id 2000, PeerID := some "12D3KooW",
    Multiaddrs := ["/ip4/10.0.0.1/tcp/1234"] }

/-- An RPC that ran into its deadline. -/
def timedOutRpc : RpcResult :=
  { took := [("dial_took_msecs", .num 90000)],
    err := some { text := "context deadline exceeded", isDeadlineExceeded := true },
    resp := { Accepted := false, Message := "" } }

/-- Rounds that all start at once, are never cancelled and all time out. -/
def timedOutRounds : Nat → Round :=
  fun _ => { elapsed := 0, cancelled := false, rpc := timedOutRpc, now := 17, nowTs := 18 }

/-- A store in which the linked proposal points at deal 7, locally "active". -/
def activeLinkStore : Store :=
  { proposals := [linkedProposal], published_deals := [localDeal7 "active"],
    invalidated_deals := [], clients := [], pieces := [], market_state := none }

/-- The signed proposal after an attempt that timed out. -/
def timedOutProposal : Proposal :=
  { signedProposal with
    proposal_failstamp := 17,
    proposal_meta := [("dial_took_msecs", .num 90000),
                      ("failure", .str "context deadline exceeded")] }

/-- The store a run leaves: the new store on success, the old one on error. -/
def storeAfter (run : Except String Store) (db : Store) : Store :=
  match run with
  | .ok db' => db'
  | .error _ => db

/-- The four conditions of the specification, in order, for every proposal row. -/
def fourConditions (db : Store) : List (List Bool) :=
  db.proposals.map (fun p =>
    [condFailed p, condActivated db.published_deals p, condPendingActivation p, condUndelivered p])

/-- A freshly reserved proposal starting at epoch 5000. -/
def reservedProposal : Proposal :=
  { signedProposal with signature_obtained := none }

/-- A store holding the reserved proposal only. -/
def reservedStore : Store :=
  { proposals := [reservedProposal], published_deals := [], invalidated_deals := [],
    clients := [], pieces := [], market_state := none }

/-- A chain at height 10000 without any deal. -/
def lateChain : ChainView :=
  { height := 10000, dealProposals := [], dealStates := noStates,
    verifiedClientStatus := fun _ => .ok none }

/-- The reserved store after a reconcile run at height 10000. -/
def lateStore : Store :=
  storeAfter (trackDeals lateChain (fun _ => 1) sampleStamps reservedStore) reservedStore

/-- An RPC answered with `Accepted = true`. -/
def acceptedRpc : RpcResult :=
  { took := [("dial_took_msecs", .num 120)], err := none,
    resp := { Accepted := true, Message := "" } }

/-- The reserved store after signing. -/
def signedStore : Store :=
  { reservedStore with
    proposals := recordSignature 2 (.str "c2ln") "bafy-signed" "1b4e28ba" reservedStore.proposals }

/-- The signed store after an accepted delivery. -/
def deliveredStore : Store :=
  { signedStore with
    proposals := recordAttempt 17 3 acceptedRpc "1b4e28ba" signedStore.proposals }

/-- A chain at height 6000 with deal 7 (a 32 GiB piece for provider `f02000`, client
`f01000`) and the given state entry for it. -/
def chainWithDeal7 (entry : Option DealState) : ChainView :=
  { height := 6000, dealProposals := [(7, sampleDeal 34359738368)],
    dealStates := fun _ => .ok entry, verifiedClientStatus := fun _ => .ok none }

/-- The delivered store after a reconcile run that sees deal 7 with a sector start. -/
def activatedStore : Store :=
  storeAfter (trackDeals
    (chainWithDeal7 (some { SectorStartEpoch := 5100, LastUpdatedEpoch := 5100, SlashEpoch := -1 }))
    (fun _ => 1) sampleStamps deliveredStore) deliveredStore

/-- The activated store after a reconcile run that sees deal 7 without a state entry. -/
def regressedStore : Store :=
  storeAfter (trackDeals (chainWithDeal7 none) (fun _ => 1) sampleStamps activatedStore)
    activatedStore

/-- The linked proposal after its deal was found "terminated". -/
def terminatedLinkProposal : Proposal :=
  { linkedProposal with
    activated_deal_id := none,
    proposal_failstamp := 12,
    proposal_meta := [("failure", .str "sector containing deal was terminated")] }

/-- The store with the active link in which deal 7 has been listed as invalidated. -/
def invalidatedLinkStore : Store :=
  { activeLinkStore with invalidated_deals := [7] }

/-- Rounds that start 271 seconds into the session, are never cancelled and are all
accepted. -/
def lateRounds : Nat → Round :=
  fun _ => { elapsed := 271000000000, cancelled := false, rpc := acceptedRpc, now := 17, nowTs := 18 }

/-- Rounds of which the first starts at once and the later ones read 272 seconds since the
start of the session; none is cancelled and all are accepted. -/
def tightRounds : Nat → Round :=
  fun i => { elapsed := if i = 0 then 0 else 272000000000, cancelled := false,
             rpc := acceptedRpc, now := 17, nowTs := 18 }

/-- Surroundings of `sign-pending` in which every address resolves and every key is found,
but `wallet.WalletSign` fails. -/
def failingSigner : SignEnv :=
  { stateAccountKey := fun _ => .ok (.robust "f1abjxfbp274xpdqcpuaykwkfb43omjotacm2p3za"),
    readKey := fun _ => .ok "7b2254797065223a22736563703235366b31227d",
    dump := fun _ => .ok "8bd82a5828000181e203922020",
    walletSign := fun _ _ => .error "unknown key type",
    signedCid := fun _ _ => .ok "bafy-signed",
    nowTs := fun _ => 5 }

/-- Two reserved proposals awaiting their signature. -/
def twoReserved : List Proposal :=
  [reservedProposal, { reservedProposal with proposal_uuid := "9c5b94b1" }]

/-- The pending list of `sign-pending` for the two reserved proposals. -/
def twoPending : List signaturePending :=
  [{ ProposalUUID := "1b4e28ba", Client := .id 1000 },
   { ProposalUUID := "9c5b94b1", Client := .id 1000 }]

/-- A bulk source of type `s3` flagged as FRC58. -/
def pollSource : BulkPieceSource :=
  { SourceType := "s3", Config := "default", PathParts := ["us-east-1", "aggregates"],
    Flags := some [("is_frc58", true)], URLTemplate := "" }

/-- A descriptor whose supplied v1 CID is the one that `pollEnv` recomputes. -/
def goodAggregate : Aggregate :=
  { AggCommP := { pcidV1 := "baga-agg-1", pcidV2 := "bafk-agg-1", log2Size := 35 },
    PieceList := [{ pcidV1 := "baga-seg-a", pcidV2 := "bafk-seg-a", log2Size := 30 }],
    Collection := "c" }

/-- A descriptor whose supplied v1 CID differs from the recomputed one. -/
def badAggregate : Aggregate :=
  { AggCommP := { pcidV1 := "baga-agg-2", pcidV2 := "bafk-agg-2", log2Size := 35 },
    PieceList := [{ pcidV1 := "baga-seg-b", pcidV2 := "bafk-seg-b", log2Size := 30 }],
    Collection := "c" }

/-- An aggregation that yields `baga-agg-1` for every piece list. -/
def sampleAggregation : Nat → List PieceInfo → Except String String :=
  fun _ _ => .ok "baga-agg-1"

/-- One tenant whose listing for today holds `goodAggregate`, then `badAggregate`. -/
def pollEnv : PollEnv :=
  { tenants := .ok [(7, pollSource)],
    loadConfig := fun _ => none,
    listing := fun _ d => if d = 0 then [.ok [.ok goodAggregate, .ok badAggregate]] else [.ok []],
    aggregate := sampleAggregation,
    refreshMatviews := none }

/-- A store without pieces, with one dataset of tenant 7. -/
def emptyPieceStore : PieceStore :=
  { pieces := [], piece_segments := [], tenants_pieces := [], datasets := [(1, 7)] }

/-- The store after `goodAggregate` has been ingested for tenant 7 into the empty one. -/
def afterGoodAggregate : PieceStore :=
  (ingestObjects sampleAggregation pollSource 7 [.ok goodAggregate] emptyPieceStore).1

/-- Three eligible rows, in the order of the query. -/
def threeRows : List EligibleRow :=
  [{ PieceID := 1, PieceLog2Size := 35, Tenants := [13], PieceCid := "baga-1" },
   { PieceID := 2, PieceLog2Size := 35, Tenants := [17, 13], PieceCid := "baga-2" },
   { PieceID := 3, PieceLog2Size := 36, Tenants := [21], PieceCid := "baga-3" }]

/-- A handler with default size 2 whose store answers every query with `threeRows`. -/
def sampleApi : EligibleApi :=
  { listEligibleDefaultSize := 2,
    authedActorID := 2000,
    urlPath := "/sp/eligible_pieces",
    curlAuthedForSP := fun _ path _ => "curl " ++ path,
    select := fun _ _ _ _ _ => .ok threeRows }

/-- A request without parameters. -/
def plainRequest : EligibleRequest :=
  { limit := none, tenant := none, internalNolateral := none, includeSourceless := false }

/-- A request for 500 rows with `internal-nolateral` present and not truthy. -/
def lateralRequest : EligibleRequest :=
  { limit := some (.ok 500), tenant := none, internalNolateral := some false,
    includeSourceless := false }

/-- Statement faults of a run in which only the statement at position `k` fails. -/
def deadlockAt (k : Nat) : Nat → Option String :=
  fun n => if n = k then some "deadlock detected" else none

/-- A chain at height 6000 on which deal 7 has a sector start. -/
def activeChain : ChainView :=
  chainWithDeal7 (some { SectorStartEpoch := 5100, LastUpdatedEpoch := 5100, SlashEpoch := -1 })

/-- A piece of log2 size 34 already marked `size_proven_correct`. -/
def provenPiece : Piece :=
  { piece_id := 1, piece_cid := "baga-sample", piece_log2_size := 34,
    piece_meta := [("size_proven_correct", .bool true)] }

/-- The delivered store holding the proven piece. -/
def provenStore : Store := { deliveredStore with pieces := [provenPiece] }

/-- A chain at height 6000 without deals on which every client has datacap 100. -/
def datacap100Chain : ChainView :=
  { height := 6000, dealProposals := [], dealStates := noStates,
    verifiedClientStatus := fun _ => .ok (some 100) }

/-- A store whose only tracked client is `f01151139`. -/
def zeroedStore : Store :=
  { sampleStore with clients := [{ client_id := 1151139, tenant_id := some 1, client_meta := [] }] }

/-- The record of deal 7 as the walk of `activeChain` selects it for upsert. -/
def upsertOfDeal7 : deal :=
  walkDeal 6000 [] (some { SectorStartEpoch := 5100, LastUpdatedEpoch := 5100, SlashEpoch := -1 })
    7 (sampleDeal 34359738368)

/-- The record of deal 7 with its blanks filled. -/
def filledDeal7 : deal :=
  { upsertOfDeal7 with clientID := 1000, providerID := 2000, pieceLog2Size := 35 }

/-- A signed, delivered, live proposal not yet linked to a deal. -/
def pendingProposal : Proposal := { linkedProposal with activated_deal_id := none }

/-- The filled record of deal 7 with the piece id scanned from its upsert. -/
def scannedDeal7 : deal := { filledDeal7 with pieceID := 1 }

/-- A handler whose store refuses a negative tenant id and else has no rows. -/
def strictApi : EligibleApi :=
  { sampleApi with
    select := fun _ _ _ tenant _ => if tenant < 0 then .error "negative tenant" else .ok [] }

/-- A request with `tenant=32768`. -/
def tenant32768Request : EligibleRequest :=
  { plainRequest with tenant := tenantParam (some 32768) }

/-- Two providers of one org in one metro. -/
def sampleGeo : Nat → GeoData :=
  fun _ => { org := "org-a", metro := "PDX", country := "US", continent := "NA" }

/-- A tenant allowed two replicas in total and one per org. -/
def sampleCaps : Int → TenantCaps :=
  fun _ => { max_total := 2, max_per_org := 1, max_per_metro := 2, max_per_country := 2,
             max_per_continent := 2 }

/-- Two providers asking for the same piece of tenant 13 at once. -/
def twoRequests : List ReserveRequest :=
  [{ provider := 2000, tenant := 13, piece := 1, passes := true },
   { provider := 2001, tenant := 13, piece := 1, passes := true }]

/-- The decimal digit of a number below ten. -/
def digitChar : Nat → Char
  | 0 => '0' | 1 => '1' | 2 => '2' | 3 => '3' | 4 => '4'
  | 5 => '5' | 6 => '6' | 7 => '7' | 8 => '8' | _ => '9'

/-- The decimal digits of a number of at most as many digits as the first argument. -/
def decimalDigits : Nat → Nat → List Char
  | 0, _ => []
  | k + 1, n =>
    if n < 10 then [digitChar n] else decimalDigits k (n / 10) ++ [digitChar (n % 10)]

/-- An integer in decimal, filled with zeros in front up to the width given, after the
sign if it is negative. -/
def paddedInt (x : Int) (width : Nat) : List Char :=
  let ds := decimalDigits 20 x.natAbs
  (if x < 0 then ['-'] else []) ++ List.replicate (width - ds.length) '0' ++ ds

/-- Year, month and day of the Gregorian calendar for a count of days since 1970-01-01. -/
def civilFromDays (days : Int) : Int × Int × Int :=
  let z := days + 719468
  let era := z / 146097
  let doe := z - era * 146097
  let yoe := (doe - doe / 1460 + doe / 36524 - doe / 146096) / 365
  let doy := doe - (365 * yoe + yoe / 4 - yoe / 100)
  let mp := (5 * doy + 2) / 153
  let day := doy - (153 * mp + 2) / 5 + 1
  let month := if mp < 10 then mp + 3 else mp - 9
  (if month ≤ 2 then yoe + era * 400 + 1 else yoe + era * 400, month, day)

/-- The text `YYYY-MM-DD` of a count of days since 1970-01-01. -/
def isoDate (days : Int) : String :=
  let ymd := civilFromDays days
  String.mk (paddedInt ymd.1 4 ++ ['-'] ++ paddedInt ymd.2.1 2 ++ ['-'] ++ paddedInt ymd.2.2 2)

/-- A process whose local zone is UTC. -/
def utcClock : LocalClock := { zoneOffset := fun _ => 0, dateText := isoDate }

/-- A process whose local zone is that of New York, with its offsets of the year 2025:
daylight time, four hours west of UTC, from 2025-03-09T07:00:00Z until
2025-11-02T06:00:00Z, and standard time, five hours west, before and after. -/
def newYorkClock : LocalClock :=
  { zoneOffset := fun sec => if 1741503600 ≤ sec ∧ sec < 1762063200 then -14400 else -18000,
    dateText := isoDate }

/-- The instant 2025-11-03T04:30:00Z, which is 23:30 of 2 November 2025 in New York, in
nanoseconds since the Unix epoch. -/
def autumnNight : Int := 1762144200000000000

/-- A chain deal whose start epoch is the largest signed 64-bit value. -/
def lateStartDeal : DealProposal := { sampleDeal 1024 with StartEpoch := 2 ^ 63 - 1 }

/-! ## Theorems -/

theorem wrapInt64_of_inRange (x : Int) (h1 : -(2 ^ 63) ≤ x) (h2 : x < 2 ^ 63) :
    wrapInt64 x = x := by
  unfold wrapInt64
  rw [Int.emod_eq_of_lt (by omega) (by omega)]
  omega

/-- C1 (as amended): for every chain deal walked whose `StartEpoch`, a signed 64-bit
epoch, is such that `StartEpoch + EpochsInDay` still fits a signed 64-bit integer, the
status, termination reason and recorded sector-start epoch that the walk closure
computes are those of the reference classification (slashed, then active, then missed
sealing, else published), a missing state entry being read as the empty deal state. -/
theorem setStatus_eq_specClassify (height : Int) (initialDbDeals : List (Int × filDeal))
    (entry : Option DealState) (id : Nat) (prop : DealProposal)
    (hepoch : -(2 ^ 63) ≤ prop.StartEpoch)
    (hsum : prop.StartEpoch + EpochsInDay < 2 ^ 63) :
    let d := walkDeal height initialDbDeals entry id prop
    let r := specClassify height entry prop.StartEpoch
    d.status = r.status ∧ d.terminationReason = r.reason ∧ d.sectorStart = r.sectorStart := by
  have hw : wrapInt64 (prop.StartEpoch + EpochsInDay) = prop.StartEpoch + EpochsInDay :=
    wrapInt64_of_inRange _ (by unfold EpochsInDay; omega) hsum
  cases entry with
  | none =>
    by_cases h : prop.StartEpoch + EpochsInDay < height <;>
      simp [walkDeal, stateOrEmpty, EmptyDealState, setStatus, specClassify, newDeal,
        addInt64, hw, ChainStatus.status, ChainStatus.reason, ChainStatus.sectorStart, h]
  | some st =>
    by_cases h1 : st.SlashEpoch = -1 <;> by_cases h2 : st.SectorStartEpoch > 0 <;>
      by_cases h : prop.StartEpoch + EpochsInDay < height <;>
      simp [walkDeal, stateOrEmpty, setStatus, specClassify, newDeal, addInt64, hw,
        ChainStatus.status, ChainStatus.reason, ChainStatus.sectorStart, h, h1, h2]

/-- C1, counterexample: a chain deal without a state entry whose `StartEpoch` is the
largest signed 64-bit value, walked at height 6000. The sum `StartEpoch + EpochsInDay`
is far above the height, so the reference classification gives "published"; in the
walk the sum wraps to a negative epoch and the deal is "terminated" for a missed
sealing epoch. -/
theorem start_epoch_sum_wraps :
    lateStartDeal.StartEpoch = 2 ^ 63 - 1 ∧
    ¬ (lateStartDeal.StartEpoch + EpochsInDay < 6000) ∧
    (specClassify 6000 none lateStartDeal.StartEpoch).status = "published" ∧
    (walkDeal 6000 [] none 1 lateStartDeal).status = "terminated" ∧
    (walkDeal 6000 [] none 1 lateStartDeal).terminationReason =
      "containing sector missed expected sealing epoch" ∧
    addInt64 lateStartDeal.StartEpoch EpochsInDay = -(2 ^ 63) + 2879 := by
  refine ⟨by decide, by decide, by decide, by decide, by decide, by decide⟩

theorem mem_beforeAfter_map (f : Proposal → Proposal) (l : List Proposal)
    (pr : Proposal × Proposal) (h : pr ∈ beforeAfter l (l.map f)) : pr.2 = f pr.1 := by
  induction l with
  | nil => simp [beforeAfter] at h
  | cons x xs ih =>
    simp only [beforeAfter, List.map_cons, List.zip_cons_cons, List.mem_cons] at h
    rcases h with h | h
    · subst h; rfl
    · exact ih h

theorem mem_beforeAfter_left (l l' : List Proposal) (pr : Proposal × Proposal)
    (h : pr ∈ beforeAfter l l') : pr.1 ∈ l := by
  obtain ⟨a, b⟩ := pr
  exact (List.of_mem_zip h).1

theorem mapGet_mapSet_self {κ ν : Type} [DecidableEq κ] (m : List (κ × ν)) (k : κ) (v : ν) :
    mapGet (mapSet m k v) k = some v := by
  induction m with
  | nil => simp [mapSet, mapGet]
  | cons e rest ih =>
    obtain ⟨k', v'⟩ := e
    by_cases h : k' = k
    · simp [mapSet, mapGet, h]
    · simp [mapSet, mapGet, h, ih]

theorem mapGet_mapSet_ne {κ ν : Type} [DecidableEq κ] (m : List (κ × ν)) (k k2 : κ) (v : ν)
    (hne : k ≠ k2) : mapGet (mapSet m k v) k2 = mapGet m k2 := by
  induction m with
  | nil => simp [mapSet, mapGet, hne]
  | cons e rest ih =>
    obtain ⟨k', v'⟩ := e
    by_cases h : k' = k
    · subst h; simp [mapSet, mapGet, hne]
    · by_cases h2 : k' = k2
      · subst h2; simp [mapSet, mapGet, h]
      · simp [mapSet, mapGet, h, h2, ih]

theorem subInt64_of_inRange (a b : Int) (h1 : -(2 ^ 63) ≤ a - b) (h2 : a - b < 2 ^ 63) :
    subInt64 a b = a - b := wrapInt64_of_inRange _ h1 h2

/-- C2: in the start-missed update of the reconcile step, at a pinned height `H` (an
`int64` from which a day of epochs can be subtracted without wrap-around), a live
proposal is failed with "proposal DealStartEpoch missed without activation" exactly
when `start_epoch < H - EpochsInDay`, whatever its delivery state: it is failed at
`H - EpochsInDay - 1` and left as it was at `H - EpochsInDay + 1`. -/
theorem failMissedStart_iff (now H : Int) (proposals : List Proposal)
    (hnow : now ≠ 0) (hlo : -(2 ^ 63) + 2880 ≤ H) (hhi : H < 2 ^ 63)
    (pr : Proposal × Proposal)
    (hmem : pr ∈ beforeAfter proposals (failMissedStart now H proposals))
    (hlive : pr.1.proposal_failstamp = 0) (hact : pr.1.activated_deal_id = none) :
    (pr.2.proposal_failstamp ≠ 0 ↔ pr.1.start_epoch < H - EpochsInDay) ∧
    (pr.1.start_epoch < H - EpochsInDay →
      pr.2.proposal_failstamp = now ∧
      mapGet pr.2.proposal_meta "failure" =
        some (.str "proposal DealStartEpoch missed without activation") ∧
      pr.2.proposal_delivered = pr.1.proposal_delivered) ∧
    (¬ pr.1.start_epoch < H - EpochsInDay → pr.2 = pr.1) ∧
    (pr.1.start_epoch = H - EpochsInDay - 1 → pr.2.proposal_failstamp = now) ∧
    (pr.1.start_epoch = H - EpochsInDay + 1 → pr.2 = pr.1) := by
  have hr := mem_beforeAfter_map _ _ _ hmem
  have hsub : subInt64 H EpochsInDay = H - EpochsInDay :=
    subInt64_of_inRange _ _ (by simp only [EpochsInDay]; omega) (by simp only [EpochsInDay]; omega)
  have hyes : pr.1.start_epoch < H - EpochsInDay →
      pr.2 = { pr.1 with proposal_failstamp := now,
                         proposal_meta := jsonbSet pr.1.proposal_meta "failure"
                           (.str "proposal DealStartEpoch missed without activation") } := by
    intro h
    rw [hr]
    simp [failMissedStartRow, hlive, hact, hsub, h]
  have hno : ¬ pr.1.start_epoch < H - EpochsInDay → pr.2 = pr.1 := by
    intro h
    rw [hr]
    simp [failMissedStartRow, hsub, h]
  refine ⟨?_, ?_, hno, ?_, ?_⟩
  · constructor
    · intro h
      by_contra hc
      rw [hno hc] at h
      exact h hlive
    · intro h
      rw [hyes h]
      exact hnow
  · intro h
    rw [hyes h]
    exact ⟨rfl, mapGet_mapSet_self _ _ _, rfl⟩
  · intro h
    rw [hyes (by omega)]
  · intro h
    exact hno (by omega)

theorem int64OfUint64_of_lt (n : Nat) (h : n < 2 ^ 63) : int64OfUint64 n = (n : Int) := by
  unfold int64OfUint64
  have h1 : n % 2 ^ 64 = n := Nat.mod_eq_of_lt (by omega)
  rw [h1]
  exact wrapInt64_of_inRange _ (by omega) (by omega)

theorem setStatus_status (height : Int) (found : Option DealState) (d : deal)
    (hd : d.status = "published") :
    (setStatus height (stateOrEmpty found) d).status =
      chainStatus height found d.proposal := by
  by_cases h1 : (stateOrEmpty found).SlashEpoch = -1 <;>
    by_cases h2 : (stateOrEmpty found).SectorStartEpoch > 0 <;>
    by_cases h : addInt64 d.proposal.StartEpoch EpochsInDay < height <;>
    simp [chainStatus, setStatus, newDeal, h, h1, h2, hd]

theorem walkDeal_status (height : Int) (m : List (Int × filDeal)) (found : Option DealState)
    (id : Nat) (prop : DealProposal) :
    (walkDeal height m found id prop).status = chainStatus height found prop ∧
    (walkDeal height m found id prop).proposal = prop := by
  refine ⟨setStatus_status height found _ rfl, ?_⟩
  simp only [walkDeal, setStatus, newDeal]
  split
  · rfl
  · split
    · rfl
    · split <;> rfl

theorem creditDatacap_get (m m' : List (Address × Option Int)) (d : deal) (c : Address)
    (v : Int) (hok : creditDatacap m d = .ok m') (hc : mapGet m c = some (some v)) :
    mapGet m' c = some (some (v +
      (if d.proposal.Client = c ∧ d.proposal.VerifiedDeal = true ∧ d.status = "published"
        then int64OfUint64 d.proposal.PieceSize else 0))) := by
  unfold creditDatacap at hok
  by_cases hcl : d.proposal.Client = c
  · rw [hcl, hc] at hok
    by_cases hv : d.proposal.VerifiedDeal = true ∧ d.status = "published"
    · simp only [if_pos hv] at hok
      injection hok with hok
      subst hok
      simp [hcl, hv, mapGet_mapSet_self]
    · simp only [if_neg hv] at hok
      injection hok with hok
      subst hok
      have : ¬ (d.proposal.Client = c ∧ d.proposal.VerifiedDeal = true ∧ d.status = "published") :=
        fun h => hv h.2
      simp [this, hc]
  · simp only [hcl, false_and, if_false, add_zero]
    cases hk : mapGet m d.proposal.Client with
    | none =>
      rw [hk] at hok
      injection hok with hok
      subst hok
      exact hc
    | some dcap =>
      rw [hk] at hok
      by_cases hv : d.proposal.VerifiedDeal = true ∧ d.status = "published"
      · simp only [if_pos hv] at hok
        cases dcap with
        | none => cases hok
        | some w =>
          injection hok with hok
          subst hok
          rw [mapGet_mapSet_ne _ _ _ _ hcl]
          exact hc
      · simp only [if_neg hv] at hok
        injection hok with hok
        subst hok
        exact hc

theorem walkStep_datacap_get (height : Int) (dealStates : Nat → Except String (Option DealState))
    (st st' : WalkState) (id : Nat) (prop : DealProposal) (c : Address) (v : Int)
    (hok : walkStep height dealStates st id prop = .ok st')
    (hc : mapGet st.tenantClientDatacap c = some (some v)) :
    mapGet st'.tenantClientDatacap c = some (some (v +
      (if prop.Client = c ∧ prop.VerifiedDeal = true ∧
          chainStatus height (stateEntry dealStates id) prop = "published"
        then int64OfUint64 prop.PieceSize else 0))) := by
  unfold walkStep at hok
  cases hds : dealStates id with
  | error e => rw [hds] at hok; cases hok
  | ok found =>
    rw [hds] at hok
    simp only at hok
    cases hcr : creditDatacap st.tenantClientDatacap (walkDeal height st.initialDbDeals found id prop) with
    | error e => rw [hcr] at hok; cases hok
    | ok dcaps =>
      rw [hcr] at hok
      injection hok with hok
      subst hok
      have h := creditDatacap_get _ _ _ c v hcr hc
      have hw := walkDeal_status height st.initialDbDeals found id prop
      rw [hw.1, hw.2] at h
      simp only [stateEntry, hds]
      exact h

theorem walk_datacap_get (height : Int) (dealStates : Nat → Except String (Option DealState))
    (deals : List (Nat × DealProposal)) :
    ∀ (st st' : WalkState) (c : Address) (v : Int),
      walk height dealStates st deals = .ok st' →
      mapGet st.tenantClientDatacap c = some (some v) →
      mapGet st'.tenantClientDatacap c =
        some (some (v + walkCredit height dealStates c deals)) := by
  induction deals with
  | nil =>
    intro st st' c v hok hc
    simp only [walk] at hok
    injection hok with hok
    subst hok
    simp [walkCredit, hc]
  | cons e rest ih =>
    intro st st' c v hok hc
    obtain ⟨id, prop⟩ := e
    simp only [walk] at hok
    cases hs : walkStep height dealStates st id prop with
    | error e => rw [hs] at hok; cases hok
    | ok st1 =>
      rw [hs] at hok
      have h1 := walkStep_datacap_get height dealStates st st1 id prop c v hs hc
      have h2 := ih st1 st' c _ hok h1
      rw [h2]
      simp only [walkCredit, add_assoc]

theorem walkCredit_eq_publishedVerifiedSize (height : Int)
    (dealStates : Nat → Except String (Option DealState)) (c : Address)
    (deals : List (Nat × DealProposal))
    (hsize : ∀ e ∈ deals, e.2.Client = c → e.2.PieceSize < 2 ^ 63) :
    walkCredit height dealStates c deals = publishedVerifiedSize height dealStates c deals := by
  induction deals with
  | nil => rfl
  | cons e rest ih =>
    obtain ⟨id, prop⟩ := e
    have h2 := ih (fun e he => hsize e (List.mem_cons_of_mem _ he))
    simp only [walkCredit, publishedVerifiedSize, h2]
    by_cases hc : prop.Client = c
    · have h1 : prop.PieceSize < 2 ^ 63 := hsize (id, prop) (List.mem_cons_self _ _) hc
      rw [int64OfUint64_of_lt _ h1]
    · simp [hc]

theorem queryDatacap_sound (f : Address → Except String (Option Int)) (cs : List Nat) :
    ∀ (m m' : List (Address × Option Int)), queryDatacap f cs m = .ok m' →
      (∀ a x, mapGet m a = some x → f a = .ok x) →
      ∀ a x, mapGet m' a = some x → f a = .ok x := by
  induction cs with
  | nil =>
    intro m m' hq hm
    simp only [queryDatacap] at hq
    injection hq with hq
    subst hq
    exact hm
  | cons c rest ih =>
    intro m m' hq hm
    simp only [queryDatacap] at hq
    cases hf : f (asFilAddr c) with
    | error e => rw [hf] at hq; cases hq
    | ok dcap =>
      rw [hf] at hq
      refine ih _ _ hq ?_
      intro a x ha
      by_cases hac : asFilAddr c = a
      · subst hac
        rw [mapGet_mapSet_self] at ha
        injection ha with ha
        subst ha
        exact hf
      · rw [mapGet_mapSet_ne _ _ _ _ hac] at ha
        exact hm a x ha

theorem queryDatacap_keeps (f : Address → Except String (Option Int)) (cs : List Nat) :
    ∀ (m m' : List (Address × Option Int)), queryDatacap f cs m = .ok m' →
      ∀ a, (mapGet m a).isSome = true → (mapGet m' a).isSome = true := by
  induction cs with
  | nil =>
    intro m m' hq a ha
    simp only [queryDatacap] at hq
    injection hq with hq
    subst hq
    exact ha
  | cons c rest ih =>
    intro m m' hq a ha
    simp only [queryDatacap] at hq
    cases hf : f (asFilAddr c) with
    | error e => rw [hf] at hq; cases hq
    | ok dcap =>
      rw [hf] at hq
      refine ih _ _ hq a ?_
      by_cases hac : asFilAddr c = a
      · subst hac
        rw [mapGet_mapSet_self]
        rfl
      · rw [mapGet_mapSet_ne _ _ _ _ hac]
        exact ha

theorem queryDatacap_covers (f : Address → Except String (Option Int)) (cs : List Nat) :
    ∀ (m m' : List (Address × Option Int)), queryDatacap f cs m = .ok m' →
      ∀ c ∈ cs, (mapGet m' (asFilAddr c)).isSome = true := by
  induction cs with
  | nil => intro m m' _ c hc; cases hc
  | cons c0 rest ih =>
    intro m m' hq c hc
    simp only [queryDatacap] at hq
    cases hf : f (asFilAddr c0) with
    | error e => rw [hf] at hq; cases hq
    | ok dcap =>
      rw [hf] at hq
      rcases List.mem_cons.1 hc with h | h
      · subst h
        exact queryDatacap_keeps f rest _ _ hq _ (by rw [mapGet_mapSet_self]; rfl)
      · exact ih _ _ hq c h

theorem queryDatacap_get (f : Address → Except String (Option Int)) (cs : List Nat)
    (m : List (Address × Option Int)) (hq : queryDatacap f cs [] = .ok m)
    (c : Nat) (hc : c ∈ cs) (x : Option Int) (hx : f (asFilAddr c) = .ok x) :
    mapGet m (asFilAddr c) = some x := by
  have h1 := queryDatacap_covers f cs [] m hq c hc
  cases hg : mapGet m (asFilAddr c) with
  | none => rw [hg] at h1; cases h1
  | some y =>
    have h2 := queryDatacap_sound f cs [] m hq (fun a x ha => by simp [mapGet] at ha) _ _ hg
    rw [hx] at h2
    injection h2 with h2
    rw [h2]

/-- C3 (as amended): after the market-state walk, for every tracked tenant client whose
chain datacap is known, the projected datacap is the chain-returned datacap plus the sum
of `PieceSize` over exactly the chain deals of that client that are verified and
"published", provided the piece size of every chain deal of that client is below
`2 ^ 63`. -/
theorem walk_projects_datacap (verifiedClientStatus : Address → Except String (Option Int))
    (clients : List Nat) (datacap : List (Address × Option Int))
    (hq : queryDatacap verifiedClientStatus clients [] = .ok datacap)
    (height : Int) (dealStates : Nat → Except String (Option DealState))
    (initial : List (Int × filDeal)) (deals : List (Nat × DealProposal)) (st : WalkState)
    (hwalk : walk height dealStates
      { initialDbDeals := initial, tenantClientDatacap := datacap, toUpsert := [] } deals = .ok st)
    (c : Nat) (hc : c ∈ clients) (v : Int) (hv : verifiedClientStatus (asFilAddr c) = .ok (some v))
    (hsize : ∀ e ∈ deals, e.2.Client = asFilAddr c → e.2.PieceSize < 2 ^ 63) :
    mapGet st.tenantClientDatacap (asFilAddr c) =
      some (some (v + publishedVerifiedSize height dealStates (asFilAddr c) deals)) := by
  have h0 := queryDatacap_get verifiedClientStatus clients datacap hq c hc _ hv
  have h1 := walk_datacap_get height dealStates deals _ st (asFilAddr c) v hwalk h0
  rw [h1, walkCredit_eq_publishedVerifiedSize height dealStates _ deals hsize]

/-- C3, counterexample: a tracked client with datacap 100 and one verified published deal
of piece size `2 ^ 63`; the walk leaves `100 - 2 ^ 63` in the projection while the
chain datacap plus the sum of piece sizes is `100 + 2 ^ 63`. -/
theorem walk_projects_datacap_huge_piece :
    ∃ st, walk 6000 noStates (sampleWalkState 100) [(1, sampleDeal (2 ^ 63))] = .ok st ∧
      mapGet st.tenantClientDatacap (.id 1000) = some (some (100 - 2 ^ 63)) ∧
      100 + publishedVerifiedSize 6000 noStates (.id 1000) [(1, sampleDeal (2 ^ 63))]
        = 100 + 2 ^ 63 := by
  refine ⟨_, rfl, ?_, ?_⟩
  · decide
  · decide

theorem mapGet_isSome_iff {κ ν : Type} [DecidableEq κ] (m : List (κ × ν)) (k : κ) :
    (mapGet m k).isSome = true ↔ k ∈ m.map Prod.fst := by
  induction m with
  | nil => simp [mapGet]
  | cons e rest ih =>
    obtain ⟨k', v'⟩ := e
    by_cases h : k' = k
    · simp [mapGet, h]
    · have h' : ¬ k = k' := fun hh => h hh.symm
      simp [mapGet, h, h', ih]

theorem mapSet_keys {κ ν : Type} [DecidableEq κ] (m : List (κ × ν)) (k : κ) (v : ν) :
    (mapSet m k v).map Prod.fst =
      if k ∈ m.map Prod.fst then m.map Prod.fst else m.map Prod.fst ++ [k] := by
  induction m with
  | nil => simp [mapSet]
  | cons e rest ih =>
    obtain ⟨k', v'⟩ := e
    by_cases h : k' = k
    · simp [mapSet, h]
    · have h' : ¬ k = k' := fun hh => h hh.symm
      simp only [mapSet, h, if_false, List.map_cons, ih, List.mem_cons, h', false_or]
      split <;> simp

theorem mapSet_keys_nodup {κ ν : Type} [DecidableEq κ] (m : List (κ × ν)) (k : κ) (v : ν)
    (h : (m.map Prod.fst).Nodup) : ((mapSet m k v).map Prod.fst).Nodup := by
  rw [mapSet_keys]
  split
  · exact h
  · rename_i hk
    rw [List.nodup_append]
    refine ⟨h, List.nodup_singleton _, ?_⟩
    intro a ha hb
    simp only [List.mem_singleton] at hb
    subst hb
    exact hk ha

theorem mapGet_of_mem_nodup {κ ν : Type} [DecidableEq κ] (m : List (κ × ν))
    (h : (m.map Prod.fst).Nodup) (k : κ) (v : ν) (hmem : (k, v) ∈ m) : mapGet m k = some v := by
  induction m with
  | nil => cases hmem
  | cons e rest ih =>
    obtain ⟨k', v'⟩ := e
    simp only [List.map_cons, List.nodup_cons] at h
    rcases List.mem_cons.1 hmem with heq | hin
    · injection heq with h1 h2
      subst h1; subst h2
      simp [mapGet]
    · have hne : k' ≠ k := by
        intro hh
        subst hh
        exact h.1 (List.mem_map.2 ⟨(k', v), hin, rfl⟩)
      simp only [mapGet, hne, if_false]
      exact ih h.2 hin

theorem mapSet_keys_of_mem {κ ν : Type} [DecidableEq κ] (m : List (κ × ν)) (k : κ) (v : ν)
    (h : (mapGet m k).isSome = true) : (mapSet m k v).map Prod.fst = m.map Prod.fst := by
  rw [mapSet_keys, if_pos ((mapGet_isSome_iff m k).1 h)]

theorem queryDatacap_keys (f : Address → Except String (Option Int)) (cs : List Nat) :
    ∀ (m m' : List (Address × Option Int)), queryDatacap f cs m = .ok m' →
      (m.map Prod.fst).Nodup →
      (m'.map Prod.fst).Nodup ∧
        ∀ a ∈ m'.map Prod.fst, a ∈ m.map Prod.fst ∨ ∃ c ∈ cs, a = asFilAddr c := by
  induction cs with
  | nil =>
    intro m m' hq hm
    simp only [queryDatacap] at hq
    injection hq with hq
    subst hq
    exact ⟨hm, fun a ha => Or.inl ha⟩
  | cons c rest ih =>
    intro m m' hq hm
    simp only [queryDatacap] at hq
    cases hf : f (asFilAddr c) with
    | error e => rw [hf] at hq; cases hq
    | ok dcap =>
      rw [hf] at hq
      obtain ⟨h1, h2⟩ := ih _ _ hq (mapSet_keys_nodup m _ dcap hm)
      refine ⟨h1, ?_⟩
      intro a ha
      rcases h2 a ha with h | ⟨c', hc', hac⟩
      · rw [mapSet_keys] at h
        split at h
        · exact Or.inl h
        · rcases List.mem_append.1 h with h | h
          · exact Or.inl h
          · simp only [List.mem_singleton] at h
            exact Or.inr ⟨c, List.mem_cons_self _ _, h⟩
      · exact Or.inr ⟨c', List.mem_cons_of_mem _ hc', hac⟩

theorem creditDatacap_keys (m m' : List (Address × Option Int)) (d : deal)
    (hok : creditDatacap m d = .ok m') : m'.map Prod.fst = m.map Prod.fst := by
  unfold creditDatacap at hok
  cases hk : mapGet m d.proposal.Client with
  | none =>
    rw [hk] at hok
    injection hok with hok
    subst hok
    rfl
  | some dcap =>
    rw [hk] at hok
    by_cases hv : d.proposal.VerifiedDeal = true ∧ d.status = "published"
    · simp only [if_pos hv] at hok
      cases dcap with
      | none => cases hok
      | some w =>
        injection hok with hok
        subst hok
        exact mapSet_keys_of_mem m _ _ (by rw [hk]; rfl)
    · simp only [if_neg hv] at hok
      injection hok with hok
      subst hok
      rfl

theorem creditDatacap_get_none (m m' : List (Address × Option Int)) (d : deal) (c : Address)
    (hok : creditDatacap m d = .ok m') (hc : mapGet m c = some none) :
    mapGet m' c = some none := by
  unfold creditDatacap at hok
  by_cases hcl : d.proposal.Client = c
  · rw [hcl, hc] at hok
    by_cases hv : d.proposal.VerifiedDeal = true ∧ d.status = "published"
    · simp only [if_pos hv] at hok
      cases hok
    · simp only [if_neg hv] at hok
      injection hok with hok
      subst hok
      exact hc
  · cases hk : mapGet m d.proposal.Client with
    | none =>
      rw [hk] at hok
      injection hok with hok
      subst hok
      exact hc
    | some dcap =>
      rw [hk] at hok
      by_cases hv : d.proposal.VerifiedDeal = true ∧ d.status = "published"
      · simp only [if_pos hv] at hok
        cases dcap with
        | none => cases hok
        | some w =>
          injection hok with hok
          subst hok
          rw [mapGet_mapSet_ne _ _ _ _ hcl]
          exact hc
      · simp only [if_neg hv] at hok
        injection hok with hok
        subst hok
        exact hc

theorem walk_datacap_keys (height : Int) (dealStates : Nat → Except String (Option DealState))
    (deals : List (Nat × DealProposal)) :
    ∀ (st st' : WalkState), walk height dealStates st deals = .ok st' →
      st'.tenantClientDatacap.map Prod.fst = st.tenantClientDatacap.map Prod.fst ∧
      ∀ c, mapGet st.tenantClientDatacap c = some none →
        mapGet st'.tenantClientDatacap c = some none := by
  induction deals with
  | nil =>
    intro st st' hok
    simp only [walk] at hok
    injection hok with hok
    subst hok
    exact ⟨rfl, fun c hc => hc⟩
  | cons e rest ih =>
    intro st st' hok
    obtain ⟨id, prop⟩ := e
    simp only [walk] at hok
    cases hs : walkStep height dealStates st id prop with
    | error e => rw [hs] at hok; cases hok
    | ok st1 =>
      rw [hs] at hok
      obtain ⟨h1, h2⟩ := ih st1 st' hok
      unfold walkStep at hs
      cases hds : dealStates id with
      | error e => rw [hds] at hs; cases hs
      | ok found =>
        rw [hds] at hs
        simp only at hs
        cases hcr : creditDatacap st.tenantClientDatacap
            (walkDeal height st.initialDbDeals found id prop) with
        | error e => rw [hcr] at hs; cases hs
        | ok dcaps =>
          rw [hcr] at hs
          injection hs with hs
          subst hs
          refine ⟨?_, ?_⟩
          · rw [h1]
            exact creditDatacap_keys _ _ _ hcr
          · intro c hc
            exact h2 c (creditDatacap_get_none _ _ _ c hcr hc)

theorem bigInt64_of_inRange (v : Int) (h0 : 0 ≤ v) (h1 : v < 2 ^ 63) : bigInt64 v = v := by
  unfold bigInt64
  have hn : ((v.natAbs % 2 ^ 64 : Nat) : Int) = v := by omega
  simp only [hn]
  rw [if_neg (by omega)]
  exact wrapInt64_of_inRange _ (by omega) h1

theorem publishedVerifiedSize_nonneg (height : Int)
    (dealStates : Nat → Except String (Option DealState)) (c : Address)
    (deals : List (Nat × DealProposal)) :
    0 ≤ publishedVerifiedSize height dealStates c deals := by
  induction deals with
  | nil => simp [publishedVerifiedSize]
  | cons e rest ih =>
    obtain ⟨id, prop⟩ := e
    simp only [publishedVerifiedSize]
    split
    · have : (0 : Int) ≤ (prop.PieceSize : Int) := Int.ofNat_nonneg _
      omega
    · omega

/-- C4 (as amended): every value the datacap loop writes is non-negative when each
chain-returned datacap is non-negative, each piece size is below `2 ^ 63` and each
client's projected datacap (chain datacap plus published verified piece sizes) is
below `2 ^ 63`, so that it fits the signed 64-bit integer written to the store. -/
theorem written_datacap_nonneg (verifiedClientStatus : Address → Except String (Option Int))
    (clients : List Nat) (datacap : List (Address × Option Int))
    (hq : queryDatacap verifiedClientStatus clients [] = .ok datacap)
    (height : Int) (dealStates : Nat → Except String (Option DealState))
    (initial : List (Int × filDeal)) (deals : List (Nat × DealProposal)) (st : WalkState)
    (hwalk : walk height dealStates
      { initialDbDeals := initial, tenantClientDatacap := datacap, toUpsert := [] } deals = .ok st)
    (hchain : ∀ c ∈ clients, ∀ v, verifiedClientStatus (asFilAddr c) = .ok (some v) →
      0 ≤ v ∧ v + publishedVerifiedSize height dealStates (asFilAddr c) deals < 2 ^ 63)
    (hsize : ∀ e ∈ deals, e.2.PieceSize < 2 ^ 63) :
    ∀ e ∈ st.tenantClientDatacap, 0 ≤ datacapToWrite e.1 e.2 := by
  intro e he
  obtain ⟨a, d⟩ := e
  obtain ⟨hnd, hsub⟩ := queryDatacap_keys verifiedClientStatus clients [] datacap hq List.nodup_nil
  obtain ⟨hkeys, hnone⟩ := walk_datacap_keys height dealStates deals _ st hwalk
  simp only at hkeys hnone
  have hget : mapGet st.tenantClientDatacap a = some d :=
    mapGet_of_mem_nodup _ (by rw [hkeys]; exact hnd) a d he
  have hak : a ∈ datacap.map Prod.fst := by
    rw [← hkeys]
    exact List.mem_map.2 ⟨(a, d), he, rfl⟩
  obtain ⟨c, hc, hac⟩ : ∃ c ∈ clients, a = asFilAddr c := by
    rcases hsub a hak with h | h
    · simp at h
    · exact h
  have hsome := (mapGet_isSome_iff datacap a).2 hak
  cases hx : mapGet datacap a with
  | none => rw [hx] at hsome; cases hsome
  | some x =>
    have hvx := queryDatacap_sound verifiedClientStatus clients [] datacap hq
      (fun a x ha => by simp [mapGet] at ha) a x hx
    cases x with
    | none =>
      have := hnone a hx
      rw [hget] at this
      injection this with this
      subst this
      simp only [datacapToWrite]
      split <;> omega
    | some v =>
      have h1 := walk_datacap_get height dealStates deals _ st a v hwalk hx
      rw [walkCredit_eq_publishedVerifiedSize height dealStates _ deals
        (fun e he _ => hsize e he), hget] at h1
      injection h1 with h1
      subst h1
      rw [hac] at hvx
      obtain ⟨h0, hfit⟩ := hchain c hc v hvx
      have hp := publishedVerifiedSize_nonneg height dealStates a deals
      rw [hac] at hp
      simp only [datacapToWrite]
      rw [hac, bigInt64_of_inRange _ (by omega) hfit]
      split <;> omega

/-- C4, counterexample: a tracked client whose chain-returned datacap is `2 ^ 63` and no
chain deal at all; the run writes `-(2 ^ 63)` as its `activatable_datacap`. -/
theorem written_datacap_negative :
    ∃ db, trackDeals hugeDatacapChain (fun _ => 1) sampleStamps sampleStore = .ok db ∧
      activatableDatacap db = [some (.num (-(2 ^ 63)))] ∧ ¬ (0 : Int) ≤ -(2 ^ 63) := by
  refine ⟨_, rfl, ?_, by decide⟩
  rfl

theorem mem_beforeAfter_self (l : List Proposal) (pr : Proposal × Proposal)
    (h : pr ∈ beforeAfter l l) : pr.2 = pr.1 := by
  have := mem_beforeAfter_map id l pr (by simpa using h)
  simpa using this

theorem becameActive_iff (d : deal) : becameActive d = true ↔ NewlyActive d := by
  unfold becameActive NewlyActive
  cases hp : d.prevState with
  | none => simp
  | some prev => simp

theorem linkMatches_iff (d : deal) (p : Proposal) :
    linkMatches d p = true ↔ Linkable d d.pieceID p := by
  unfold linkMatches Linkable
  simp only [Bool.and_eq_true, decide_eq_true_eq, Option.isSome_iff_ne_none,
    Option.isNone_iff_eq_none, and_assoc]

theorem upsertDeal_row (pieceIdOf : String → Int) (d : deal) (deals : List PublishedDeal) :
    ∃ row ∈ (upsertDeal pieceIdOf d deals).1,
      row.deal_id = d.dealID ∧ row.status = d.status ∧
        row.piece_id = (upsertDeal pieceIdOf d deals).2 := by
  induction deals with
  | nil => exact ⟨_, List.mem_singleton.2 rfl, rfl, rfl, rfl⟩
  | cons r rest ih =>
    by_cases h : r.deal_id = d.dealID
    · rw [upsertDeal, if_pos h]
      exact ⟨_, List.mem_cons_self _ _, h, rfl, rfl⟩
    · obtain ⟨row, hrow, h1, h2, h3⟩ := ih
      rw [upsertDeal, if_neg h]
      exact ⟨row, List.mem_cons_of_mem _ hrow, h1, h2, h3⟩

/-- C5: in one round of the upsert loop the deal's row is stored with its new status, and
`activated_deal_id` is set to the deal's id on exactly the proposals that are live,
delivered, not yet activated and have the piece, provider and client of the deal,
provided the deal is newly "active"; every other proposal, and every proposal when the
deal is not newly "active", is left as it was. -/
theorem upsertStep_links (pieceIdOf : String → Int) (db : Store) (d : deal) :
    ∃ row ∈ (upsertStep pieceIdOf db d).published_deals,
      row.deal_id = d.dealID ∧ row.status = d.status ∧
      ∀ pr ∈ beforeAfter db.proposals (upsertStep pieceIdOf db d).proposals,
        (NewlyActive d ∧ Linkable d row.piece_id pr.1 →
          pr.2 = { pr.1 with activated_deal_id := some d.dealID }) ∧
        (¬ (NewlyActive d ∧ Linkable d row.piece_id pr.1) → pr.2 = pr.1) := by
  obtain ⟨row, hrow, h1, h2, h3⟩ := upsertDeal_row pieceIdOf d db.published_deals
  refine ⟨row, hrow, h1, h2, ?_⟩
  intro pr hpr
  simp only [upsertStep, linkProposals] at hpr
  have hba : (becameActive { d with pieceID := (upsertDeal pieceIdOf d db.published_deals).2 }
      = true) ↔ NewlyActive d := becameActive_iff _
  have hlm := linkMatches_iff
    { d with pieceID := (upsertDeal pieceIdOf d db.published_deals).2 } pr.1
  simp only [← h3] at hlm hba hpr
  by_cases hact : NewlyActive d
  · rw [if_pos (hba.2 hact)] at hpr
    have hr := mem_beforeAfter_map _ _ _ hpr
    by_cases hl : Linkable d row.piece_id pr.1
    · refine ⟨fun _ => ?_, fun hn => absurd ⟨hact, hl⟩ hn⟩
      rw [hr, linkRow, if_pos (hlm.2 hl)]
    · refine ⟨fun hh => absurd hh.2 hl, fun _ => ?_⟩
      have : ¬ linkMatches { d with pieceID := row.piece_id } pr.1 = true := fun hh => hl (hlm.1 hh)
      rw [hr, linkRow, if_neg this]
  · have : ¬ becameActive { d with pieceID := row.piece_id } = true := fun hh => hact (hba.1 hh)
    rw [if_neg this] at hpr
    exact ⟨fun hh => absurd hh.1 hact, fun _ => mem_beforeAfter_self _ _ hpr⟩

theorem mapDelete_of_get_none {κ ν : Type} [DecidableEq κ] (m : List (κ × ν)) (k : κ)
    (h : mapGet m k = none) : mapDelete m k = m := by
  induction m with
  | nil => rfl
  | cons e rest ih =>
    obtain ⟨k', v'⟩ := e
    by_cases hk : k' = k
    · simp [mapGet, hk] at h
    · simp only [mapGet, hk, if_false] at h
      have := ih h
      simp only [mapDelete] at this ⊢
      rw [List.filter_cons_of_pos (by simpa using hk), this]

theorem walkDeal_prev (height : Int) (m : List (Int × filDeal)) (found : Option DealState)
    (id : Nat) (prop : DealProposal) :
    (walkDeal height m found id prop).prevState = mapGet m (int64OfUint64 id) ∧
    (walkDeal height m found id prop).dealID = int64OfUint64 id := by
  simp only [walkDeal, setStatus, newDeal]
  split
  · exact ⟨rfl, rfl⟩
  · split
    · exact ⟨rfl, rfl⟩
    · split <;> exact ⟨rfl, rfl⟩

theorem walkStep_shape (height : Int) (dealStates : Nat → Except String (Option DealState))
    (st st' : WalkState) (id : Nat) (prop : DealProposal)
    (hok : walkStep height dealStates st id prop = .ok st') :
    st'.initialDbDeals = mapDelete st.initialDbDeals (int64OfUint64 id) ∧
    (∀ d ∈ st'.toUpsert, d ∈ st.toUpsert ∨ d.dealID = int64OfUint64 id) := by
  unfold walkStep at hok
  cases hds : dealStates id with
  | error e => rw [hds] at hok; cases hok
  | ok found =>
    rw [hds] at hok
    simp only at hok
    cases hcr : creditDatacap st.tenantClientDatacap
        (walkDeal height st.initialDbDeals found id prop) with
    | error e => rw [hcr] at hok; cases hok
    | ok dcaps =>
      rw [hcr] at hok
      injection hok with hok
      subst hok
      obtain ⟨hp, hid⟩ := walkDeal_prev height st.initialDbDeals found id prop
      refine ⟨?_, ?_⟩
      · simp only [hp, hid]
        cases hg : mapGet st.initialDbDeals (int64OfUint64 id) with
        | none => exact (mapDelete_of_get_none _ _ hg).symm
        | some kd => rfl
      · intro d hd
        simp only at hd
        split at hd
        · rcases List.mem_append.1 hd with h | h
          · exact Or.inl h
          · simp only [List.mem_singleton] at h
            exact Or.inr (by rw [h, hid])
        · exact Or.inl hd

theorem walk_shape (height : Int) (dealStates : Nat → Except String (Option DealState))
    (deals : List (Nat × DealProposal)) :
    ∀ (st st' : WalkState), walk height dealStates st deals = .ok st' →
      st'.initialDbDeals =
        st.initialDbDeals.filter (fun e => decide (e.1 ∉ walkedIds deals)) ∧
      (∀ d ∈ st'.toUpsert, d ∈ st.toUpsert ∨ d.dealID ∈ walkedIds deals) := by
  induction deals with
  | nil =>
    intro st st' hok
    simp only [walk] at hok
    injection hok with hok
    subst hok
    simp [walkedIds]
  | cons e rest ih =>
    intro st st' hok
    obtain ⟨id, prop⟩ := e
    simp only [walk] at hok
    cases hs : walkStep height dealStates st id prop with
    | error e => rw [hs] at hok; cases hok
    | ok st1 =>
      rw [hs] at hok
      obtain ⟨h1, h2⟩ := ih st1 st' hok
      obtain ⟨g1, g2⟩ := walkStep_shape height dealStates st st1 id prop hs
      refine ⟨?_, ?_⟩
      · rw [h1, g1, mapDelete, List.filter_filter]
        congr 1
        funext x
        simp only [walkedIds, List.map_cons, List.mem_cons, not_or, Bool.decide_and]
        rw [Bool.and_comm]
      · intro d hd
        rcases h2 d hd with h | h
        · rcases g2 d h with h | h
          · exact Or.inl h
          · exact Or.inr (by simp [walkedIds, h])
        · exact Or.inr (by
            simp only [walkedIds, List.map_cons, List.mem_cons]
            exact Or.inr h)

theorem fillAllBlanks_ids (l : List deal) :
    ∀ l', fillAllBlanks l = .ok l' → l'.map (fun d => d.dealID) = l.map (fun d => d.dealID) := by
  induction l with
  | nil =>
    intro l' h
    simp only [fillAllBlanks] at h
    injection h with h
    subst h
    rfl
  | cons d rest ih =>
    intro l' h
    simp only [fillAllBlanks] at h
    cases hf : fillBlanks d with
    | error e => rw [hf] at h; cases h
    | ok d' =>
      rw [hf] at h
      cases hr : fillAllBlanks rest with
      | error e => rw [hr] at h; cases h
      | ok rest' =>
        rw [hr] at h
        injection h with h
        subst h
        have hd : d'.dealID = d.dealID := by
          unfold fillBlanks at hf
          cases h1 : d.proposal.Client.parseActor with
          | error e => rw [h1] at hf; cases hf
          | ok c =>
            rw [h1] at hf
            cases h2 : d.proposal.Provider.parseActor with
            | error e => rw [h2] at hf; cases hf
            | ok q =>
              rw [h2] at hf
              simp only at hf
              split at hf
              · cases hf
              · injection hf with hf
                subst hf
                rfl
        simp [hd, ih rest' hr]

theorem mapGet_some_mem {κ ν : Type} [DecidableEq κ] (m : List (κ × ν)) (k : κ) (v : ν)
    (h : mapGet m k = some v) : (k, v) ∈ m := by
  induction m with
  | nil => simp [mapGet] at h
  | cons e rest ih =>
    obtain ⟨k', v'⟩ := e
    by_cases hk : k' = k
    · simp only [mapGet, hk, if_true] at h
      injection h with h
      subst h; subst hk
      exact List.mem_cons_self _ _
    · simp only [mapGet, hk, if_false] at h
      exact List.mem_cons_of_mem _ (ih h)

theorem loadDbDeals_get_of_not_mem (deals : List PublishedDeal) :
    ∀ (m : List (Int × filDeal)) (id : Int), id ∉ deals.map (fun r => r.deal_id) →
      mapGet (loadDbDeals deals m) id = mapGet m id := by
  induction deals with
  | nil => intro m id _; rfl
  | cons r rest ih =>
    intro m id hid
    simp only [List.map_cons, List.mem_cons, not_or] at hid
    rw [loadDbDeals, ih _ id hid.2, mapGet_mapSet_ne _ _ _ _ (fun h => hid.1 h.symm)]

theorem loadDbDeals_get (deals : List PublishedDeal) :
    ∀ (m : List (Int × filDeal)), (deals.map (fun r => r.deal_id)).Nodup →
      ∀ r ∈ deals, mapGet (loadDbDeals deals m) r.deal_id =
        some { pieceID := r.piece_id, pieceCid := r.piece_cid, status := r.status } := by
  induction deals with
  | nil => intro m _ r hr; cases hr
  | cons r0 rest ih =>
    intro m hnd r hr
    simp only [List.map_cons, List.nodup_cons] at hnd
    rw [loadDbDeals]
    rcases List.mem_cons.1 hr with h | h
    · subst h
      rw [loadDbDeals_get_of_not_mem rest _ _ hnd.1, mapGet_mapSet_self]
    · exact ih _ hnd.2 r h

theorem failDeals_eq_map (ids : List Int) (deals : List PublishedDeal) :
    failDeals ids deals = deals.map (failDealRow ids) := by
  unfold failDeals
  split
  · rfl
  · rename_i h
    have hnil : ids = [] := by
      cases ids with
      | nil => rfl
      | cons a l => simp at h
    subst hnil
    have : failDealRow [] = id := by
      funext r
      simp [failDealRow]
    rw [this, List.map_id]

theorem upsertDeal_stable (pieceIdOf : String → Int) (d : deal) (deals : List PublishedDeal) :
    ∀ (i : Nat) (r : PublishedDeal), deals[i]? = some r →
      ∃ r', (upsertDeal pieceIdOf d deals).1[i]? = some r' ∧ r'.deal_id = r.deal_id ∧
        (r.deal_id ≠ d.dealID → r' = r) := by
  induction deals with
  | nil => intro i r h; simp at h
  | cons r0 rest ih =>
    intro i r h
    by_cases hid : r0.deal_id = d.dealID
    · rw [upsertDeal, if_pos hid]
      cases i with
      | zero =>
        simp only [List.getElem?_cons_zero, Option.some.injEq] at h
        subst h
        exact ⟨_, List.getElem?_cons_zero, rfl, fun hne => absurd hid hne⟩
      | succ j =>
        simp only [List.getElem?_cons_succ] at h
        exact ⟨r, by simpa using h, rfl, fun _ => rfl⟩
    · rw [upsertDeal, if_neg hid]
      cases i with
      | zero =>
        simp only [List.getElem?_cons_zero, Option.some.injEq] at h
        subst h
        exact ⟨_, List.getElem?_cons_zero, rfl, fun _ => rfl⟩
      | succ j =>
        simp only [List.getElem?_cons_succ] at h
        obtain ⟨r', h1, h2, h3⟩ := ih j r h
        exact ⟨r', by simpa using h1, h2, h3⟩

theorem upsertLoop_stable (pieceIdOf : String → Int) (ups : List deal) :
    ∀ (db : Store) (i : Nat) (r : PublishedDeal), db.published_deals[i]? = some r →
      ∃ r', (ups.foldl (upsertStep pieceIdOf) db).published_deals[i]? = some r' ∧
        r'.deal_id = r.deal_id ∧ (r.deal_id ∉ ups.map (fun d => d.dealID) → r' = r) := by
  induction ups with
  | nil => intro db i r h; exact ⟨r, h, rfl, fun _ => rfl⟩
  | cons d rest ih =>
    intro db i r h
    obtain ⟨r1, h1, h2, h3⟩ := upsertDeal_stable pieceIdOf d db.published_deals i r h
    obtain ⟨r2, g1, g2, g3⟩ := ih (upsertStep pieceIdOf db d) i r1 (by simpa [upsertStep] using h1)
    refine ⟨r2, by simpa using g1, by rw [g2, h2], ?_⟩
    intro hn
    simp only [List.map_cons, List.mem_cons, not_or] at hn
    rw [g3 (by rw [h2]; exact hn.2), h3 hn.1]

theorem trackDeals_ok (chain : ChainView) (pieceIdOf : String → Int) (stamps : Stamps)
    (db db' : Store) (hrun : trackDeals chain pieceIdOf stamps db = .ok db') :
    ∃ datacap w ups,
      queryDatacap chain.verifiedClientStatus (tenantClients db.clients) [] = .ok datacap ∧
      walk chain.height chain.dealStates
        { initialDbDeals := loadDbDeals db.published_deals [],
          tenantClientDatacap := datacap, toUpsert := [] } chain.dealProposals = .ok w ∧
      fillAllBlanks w.toUpsert = .ok ups ∧
      db' = reconcileTx pieceIdOf stamps chain.height ups (toFail w.initialDbDeals)
              w.tenantClientDatacap db := by
  unfold trackDeals at hrun
  cases hq : queryDatacap chain.verifiedClientStatus (tenantClients db.clients) [] with
  | error e => rw [hq] at hrun; cases hrun
  | ok datacap =>
    rw [hq] at hrun
    simp only at hrun
    cases hw : walk chain.height chain.dealStates
        { initialDbDeals := loadDbDeals db.published_deals [],
          tenantClientDatacap := datacap, toUpsert := [] } chain.dealProposals with
    | error e => rw [hw] at hrun; cases hrun
    | ok w =>
      rw [hw] at hrun
      simp only at hrun
      cases hf : fillAllBlanks w.toUpsert with
      | error e => rw [hf] at hrun; cases hrun
      | ok ups =>
        rw [hf] at hrun
        injection hrun with hrun
        exact ⟨datacap, w, ups, rfl, hw, hf, hrun.symm⟩

theorem mem_toFail (rem : List (Int × filDeal)) (id : Int) :
    id ∈ toFail rem ↔ ∃ fd, (id, fd) ∈ rem ∧ fd.status ≠ "terminated" := by
  unfold toFail
  simp only [List.mem_map, List.mem_filter, decide_eq_true_eq]
  constructor
  · rintro ⟨e, ⟨he, hs⟩, rfl⟩
    exact ⟨e.2, he, hs⟩
  · rintro ⟨fd, he, hs⟩
    exact ⟨(id, fd), ⟨he, hs⟩, rfl⟩

theorem upserts_walked (chain : ChainView) (datacap : List (Address × Option Int))
    (initial : List (Int × filDeal)) (w : WalkState) (ups : List deal)
    (hw : walk chain.height chain.dealStates
      { initialDbDeals := initial, tenantClientDatacap := datacap, toUpsert := [] }
      chain.dealProposals = .ok w)
    (hf : fillAllBlanks w.toUpsert = .ok ups) :
    ∀ id ∈ ups.map (fun d => d.dealID), id ∈ walkedIds chain.dealProposals := by
  intro id hid
  rw [fillAllBlanks_ids _ _ hf] at hid
  obtain ⟨d, hd, rfl⟩ := List.mem_map.1 hid
  rcases (walk_shape _ _ _ _ _ hw).2 d hd with h | h
  · cases h
  · exact h

/-- C6: in a run of `track-deals` on a store whose deal ids are unique, no deal id seen in
the walk is put on the terminate list, and a local deal absent from the walk is, at the
end of the run, "terminated" with reason "deal no longer part of market-actor state"
if it was not yet "terminated", and exactly as it was if it already was. -/
theorem absent_deals_terminated (chain : ChainView) (pieceIdOf : String → Int)
    (stamps : Stamps) (db db' : Store)
    (hnodup : (db.published_deals.map (fun r => r.deal_id)).Nodup)
    (hrun : trackDeals chain pieceIdOf stamps db = .ok db') :
    ∃ datacap w,
      walk chain.height chain.dealStates
        { initialDbDeals := loadDbDeals db.published_deals [],
          tenantClientDatacap := datacap, toUpsert := [] } chain.dealProposals = .ok w ∧
      (∀ id ∈ walkedIds chain.dealProposals, id ∉ toFail w.initialDbDeals) ∧
      ∀ (i : Nat) (r : PublishedDeal), db.published_deals[i]? = some r →
        r.deal_id ∉ walkedIds chain.dealProposals →
        (r.status ≠ "terminated" →
          r.deal_id ∈ toFail w.initialDbDeals ∧
          ∃ r', db'.published_deals[i]? = some r' ∧
            r' = { r with status := "terminated",
                          published_deal_meta := jsonbConcat r.published_deal_meta
                            [("termination_reason",
                              .str "deal no longer part of market-actor state")] } ∧
            mapGet r'.published_deal_meta "termination_reason" =
              some (.str "deal no longer part of market-actor state")) ∧
        (r.status = "terminated" → db'.published_deals[i]? = some r) := by
  obtain ⟨datacap, w, ups, _, hw, hf, hdb⟩ := trackDeals_ok chain pieceIdOf stamps db db' hrun
  obtain ⟨hinit, _⟩ := walk_shape _ _ _ _ _ hw
  simp only at hinit
  refine ⟨datacap, w, hw, ?_, ?_⟩
  · intro id hid hmem
    obtain ⟨fd, hfd, _⟩ := (mem_toFail _ _).1 hmem
    rw [hinit, List.mem_filter] at hfd
    simp only [decide_eq_true_eq] at hfd
    exact hfd.2 hid
  · intro i r hi habs
    have hnot : r.deal_id ∉ ups.map (fun d => d.dealID) :=
      fun h => habs (upserts_walked chain datacap _ w ups hw hf _ h)
    obtain ⟨r1, h1, _, h3⟩ := upsertLoop_stable pieceIdOf ups db i r hi
    rw [h3 hnot] at h1
    have hrow : db'.published_deals[i]? = some (failDealRow (toFail w.initialDbDeals) r) := by
      rw [hdb]
      simp only [reconcileTx, failDeals_eq_map, List.getElem?_map, h1, Option.map_some']
    have hrmem : r ∈ db.published_deals := List.getElem?_mem hi
    refine ⟨?_, ?_⟩
    · intro hst
      have hin : r.deal_id ∈ toFail w.initialDbDeals := by
        refine (mem_toFail _ _).2 ⟨(⟨r.piece_id, r.piece_cid, r.status⟩ : filDeal), ?_, hst⟩
        rw [hinit, List.mem_filter]
        refine ⟨mapGet_some_mem _ _ _ (loadDbDeals_get _ [] hnodup r hrmem), ?_⟩
        simpa using habs
      refine ⟨hin, _, hrow, ?_, ?_⟩
      · simp [failDealRow, hin, hst]
      · simp only [failDealRow, hin, hst, ne_eq, not_false_eq_true, decide_True, Bool.and_self,
          if_true, jsonbConcat]
        exact mapGet_mapSet_self _ _ _
    · intro hst
      rw [hrow]
      simp [failDealRow, hst]

theorem failProposals_eq_map (stamps : Stamps) (height : Int) (deals : List PublishedDeal)
    (invalidated : List Int) (proposals : List Proposal) :
    failProposals stamps height deals invalidated proposals =
      proposals.map (fun p => failInvalidatedRow stamps.invalid invalidated
        (failTerminatedRow stamps.terminated deals (failMissedStartRow stamps.missed height p))) := by
  simp [failProposals, failInvalidated, failTerminated, failMissedStart, List.map_map]

theorem failRows_of_activated (stamps : Stamps) (height : Int) (deals : List PublishedDeal)
    (invalidated : List Int) (p : Proposal) (id : Int) (hid : p.activated_deal_id = some id) :
    (isTerminatedDeal deals id = true →
      failInvalidatedRow stamps.invalid invalidated
        (failTerminatedRow stamps.terminated deals (failMissedStartRow stamps.missed height p)) =
      { p with activated_deal_id := none, proposal_failstamp := stamps.terminated,
               proposal_meta := jsonbSet p.proposal_meta "failure"
                 (.str "sector containing deal was terminated") }) ∧
    (isTerminatedDeal deals id = false → p.proposal_failstamp = 0 → id ∈ invalidated →
      failInvalidatedRow stamps.invalid invalidated
        (failTerminatedRow stamps.terminated deals (failMissedStartRow stamps.missed height p)) =
      { p with proposal_failstamp := stamps.invalid,
               proposal_meta := jsonbSet p.proposal_meta "failure" (.str "deal declared invalid") }) ∧
    (isTerminatedDeal deals id = false → ¬ (p.proposal_failstamp = 0 ∧ id ∈ invalidated) →
      failInvalidatedRow stamps.invalid invalidated
        (failTerminatedRow stamps.terminated deals (failMissedStartRow stamps.missed height p)) = p) := by
  have hm : failMissedStartRow stamps.missed height p = p := by
    simp [failMissedStartRow, hid]
  rw [hm]
  refine ⟨?_, ?_, ?_⟩
  · intro ht
    simp [failTerminatedRow, failInvalidatedRow, hid, ht]
  · intro ht hl hin
    simp [failTerminatedRow, failInvalidatedRow, hid, ht, hl, hin]
  · intro ht hn
    have ht' : failTerminatedRow stamps.terminated deals p = p := by
      simp [failTerminatedRow, hid, ht]
    rw [ht']
    simp only [failInvalidatedRow, hid]
    rw [if_neg hn]

theorem failRows_of_not_activated (stamps : Stamps) (height : Int) (deals : List PublishedDeal)
    (invalidated : List Int) (p : Proposal) (hid : p.activated_deal_id = none) :
    (failInvalidatedRow stamps.invalid invalidated
        (failTerminatedRow stamps.terminated deals
          (failMissedStartRow stamps.missed height p))).activated_deal_id = none := by
  have hm : (failMissedStartRow stamps.missed height p).activated_deal_id = none := by
    simp only [failMissedStartRow]
    split <;> exact hid
  simp [failTerminatedRow, failInvalidatedRow, hm]

theorem upsertLoop_frame (pieceIdOf : String → Int) (ups : List deal) :
    ∀ (db : Store), (ups.foldl (upsertStep pieceIdOf) db).invalidated_deals = db.invalidated_deals ∧
      (ups.foldl (upsertStep pieceIdOf) db).clients = db.clients ∧
      (ups.foldl (upsertStep pieceIdOf) db).pieces = db.pieces := by
  induction ups with
  | nil => intro db; exact ⟨rfl, rfl, rfl⟩
  | cons d rest ih =>
    intro db
    obtain ⟨h1, h2, h3⟩ := ih (upsertStep pieceIdOf db d)
    exact ⟨h1, h2, h3⟩

/-- C7 (as amended): in the reconcile transaction, with the proposals as they stand after
the upsert loop, a proposal whose `activated_deal_id` points at a "terminated" deal is
failed with reason "sector containing deal was terminated"; a live proposal whose
`activated_deal_id` points at an invalidated deal that is not "terminated" is failed
with reason "deal declared invalid"; and at the end no live proposal references a
terminated or invalidated deal. -/
theorem reconcile_fails_dead_links (pieceIdOf : String → Int) (stamps : Stamps)
    (height : Int) (ups : List deal) (failIds : List Int)
    (datacap : List (Address × Option Int)) (db : Store)
    (ht : stamps.terminated ≠ 0) (hi : stamps.invalid ≠ 0) :
    (∀ pr ∈ beforeAfter (ups.foldl (upsertStep pieceIdOf) db).proposals
        (reconcileTx pieceIdOf stamps height ups failIds datacap db).proposals,
      ∀ id, pr.1.activated_deal_id = some id →
        (isTerminatedDeal
            (reconcileTx pieceIdOf stamps height ups failIds datacap db).published_deals id = true →
          pr.2.proposal_failstamp ≠ 0 ∧
          failureOf pr.2 = some (.str "sector containing deal was terminated")) ∧
        (pr.1.proposal_failstamp = 0 →
          id ∈ (reconcileTx pieceIdOf stamps height ups failIds datacap db).invalidated_deals →
          isTerminatedDeal
            (reconcileTx pieceIdOf stamps height ups failIds datacap db).published_deals id = false →
          pr.2.proposal_failstamp ≠ 0 ∧ failureOf pr.2 = some (.str "deal declared invalid"))) ∧
    (∀ q ∈ (reconcileTx pieceIdOf stamps height ups failIds datacap db).proposals,
      q.proposal_failstamp = 0 → ∀ id, q.activated_deal_id = some id →
        isTerminatedDeal
            (reconcileTx pieceIdOf stamps height ups failIds datacap db).published_deals id = false ∧
        id ∉ (reconcileTx pieceIdOf stamps height ups failIds datacap db).invalidated_deals) := by
  simp only [reconcileTx, failProposals_eq_map]
  refine ⟨?_, ?_⟩
  · intro pr hpr id hid
    have hr := mem_beforeAfter_map _ _ _ hpr
    obtain ⟨h1, h2, _⟩ := failRows_of_activated stamps height
      (failDeals failIds (ups.foldl (upsertStep pieceIdOf) db).published_deals)
      (ups.foldl (upsertStep pieceIdOf) db).invalidated_deals pr.1 id hid
    refine ⟨?_, ?_⟩
    · intro hterm
      rw [hr, h1 hterm]
      exact ⟨ht, mapGet_mapSet_self _ _ _⟩
    · intro hl hin hterm
      rw [hr, h2 hterm hl hin]
      exact ⟨hi, mapGet_mapSet_self _ _ _⟩
  · intro q hq hl id hid
    obtain ⟨p, _, rfl⟩ := List.mem_map.1 hq
    cases hp : p.activated_deal_id with
    | none =>
      rw [failRows_of_not_activated stamps height _ _ p hp] at hid
      cases hid
    | some id0 =>
      obtain ⟨h1, h2, h3⟩ := failRows_of_activated stamps height
        (failDeals failIds (ups.foldl (upsertStep pieceIdOf) db).published_deals)
        (ups.foldl (upsertStep pieceIdOf) db).invalidated_deals p id0 hp
      cases hterm : isTerminatedDeal
          (failDeals failIds (ups.foldl (upsertStep pieceIdOf) db).published_deals) id0 with
      | true =>
        rw [h1 hterm] at hid
        cases hid
      | false =>
        by_cases hc : p.proposal_failstamp = 0 ∧
            id0 ∈ (ups.foldl (upsertStep pieceIdOf) db).invalidated_deals
        · rw [h2 hterm hc.1 hc.2] at hl
          exact absurd hl hi
        · rw [h3 hterm hc] at hid hl
          rw [hp] at hid
          injection hid with hid
          subst hid
          exact ⟨hterm, fun hin => hc ⟨hl, hin⟩⟩

/-- C7, counterexample: a live proposal linked to deal 7, which is listed as invalidated
and is gone from the market state, hence terminated by this run; after the run the
failure reason of the proposal is "sector containing deal was terminated", not "deal
declared invalid". -/
theorem invalidated_and_terminated_reason :
    invalidatedLinkStore.proposals.map
        (fun p => (p.proposal_failstamp, p.activated_deal_id)) = [(0, some 7)] ∧
    ∃ db, trackDeals quietChain (fun _ => 1) sampleStamps invalidatedLinkStore = .ok db ∧
      db.published_deals.map (fun r => (r.deal_id, r.status)) = [(7, "terminated")] ∧
      db.proposals.map (fun p => (p.proposal_failstamp, failureOf p)) =
        [(12, some (.str "sector containing deal was terminated"))] ∧
      db.proposals.map failureOf ≠ [some (.str "deal declared invalid")] := by
  refine ⟨by decide, _, rfl, by decide, rfl, ?_⟩
  intro h
  have h2 : (Json.str "sector containing deal was terminated") = .str "deal declared invalid" := by
    have h3 := List.head_eq_of_cons_eq h
    injection h3
  injection h2 with h2
  revert h2
  decide

theorem stripNulls_str (msg : String) : (Json.str msg).stripNulls = .str msg := by
  simp [Json.stripNulls]

theorem mapGet_stripNullFields (m : JsonObj) (k : String) (v : Json)
    (hget : mapGet m k = some v) (hv : v.isNull = false) :
    mapGet (stripNullFields m) k = some v.stripNulls := by
  induction m with
  | nil => simp [mapGet] at hget
  | cons e rest ih =>
    obtain ⟨k', v'⟩ := e
    by_cases hk : k' = k
    · simp only [mapGet, hk, if_true] at hget
      injection hget with hget
      subst hget
      simp [stripNullFields, hv, mapGet, hk]
    · simp only [mapGet, hk, if_false] at hget
      cases hn : v'.isNull with
      | true => simp [stripNullFields, hn, ih hget]
      | false => simp [stripNullFields, hn, mapGet, hk, ih hget]

theorem failure_after_markFailed (m : JsonObj) (msg : String) :
    mapGet (stripNullFields (jsonbSet m "failure" (.str msg))) "failure" = some (.str msg) := by
  have h := mapGet_stripNullFields (jsonbSet m "failure" (.str msg)) "failure" (.str msg)
    (mapGet_mapSet_self _ _ _) rfl
  rw [h, stripNulls_str]

theorem recordAttempt_eq_map (now nowTs : Int) (res : RpcResult) (uuid : String)
    (proposals : List Proposal) :
    recordAttempt now nowTs res uuid proposals =
      proposals.map (fun p =>
        if p.proposal_uuid = uuid then
          match proposalErr res with
          | none => { p with proposal_meta := jsonbConcat p.proposal_meta res.took,
                             proposal_delivered := some nowTs }
          | some e => { p with proposal_failstamp := now,
                               proposal_meta := stripNullFields
                                 (jsonbSet (jsonbConcat p.proposal_meta res.took) "failure"
                                   (.str e.text)) }
        else p) := by
  unfold recordAttempt
  cases proposalErr res with
  | none =>
    simp only [markDelivered, mergeTiming, List.map_map]
    apply List.map_congr_left
    intro p _
    by_cases h : p.proposal_uuid = uuid <;> simp [h]
  | some e =>
    simp only [markFailed, mergeTiming, List.map_map]
    apply List.map_congr_left
    intro p _
    by_cases h : p.proposal_uuid = uuid <;> simp [h]

/-- C9: the store writes of one delivery attempt, on the row of the attempted proposal:
the timing sample is merged into `proposal_meta`; an accepted response sets
`proposal_delivered` and leaves `proposal_failstamp` alone; a response that is not
accepted sets `proposal_failstamp` and records the response message as failure; an RPC
error sets `proposal_failstamp` and records the error text; a failure leaves
`proposal_delivered` as it was, which is NULL for a proposal selected for delivery. Every
other row is left as it was. -/
theorem recordAttempt_spec (now nowTs : Int) (res : RpcResult) (uuid : String)
    (proposals : List Proposal) :
    ∀ pr ∈ beforeAfter proposals (recordAttempt now nowTs res uuid proposals),
      (pr.1.proposal_uuid ≠ uuid → pr.2 = pr.1) ∧
      (pr.1.proposal_uuid = uuid →
        (res.err = none → res.resp.Accepted = true →
          pr.2 = { pr.1 with proposal_meta := jsonbConcat pr.1.proposal_meta res.took,
                             proposal_delivered := some nowTs } ∧
          pr.2.proposal_failstamp = pr.1.proposal_failstamp) ∧
        (res.err = none → res.resp.Accepted = false →
          pr.2 = { pr.1 with proposal_failstamp := now,
                             proposal_meta := stripNullFields
                               (jsonbSet (jsonbConcat pr.1.proposal_meta res.took) "failure"
                                 (.str res.resp.Message)) } ∧
          failureOf pr.2 = some (.str res.resp.Message) ∧
          pr.2.proposal_delivered = pr.1.proposal_delivered ∧
          (awaitsDelivery pr.1 = true → pr.2.proposal_delivered = none)) ∧
        (∀ e, res.err = some e →
          pr.2 = { pr.1 with proposal_failstamp := now,
                             proposal_meta := stripNullFields
                               (jsonbSet (jsonbConcat pr.1.proposal_meta res.took) "failure"
                                 (.str e.text)) } ∧
          failureOf pr.2 = some (.str e.text) ∧
          pr.2.proposal_delivered = pr.1.proposal_delivered ∧
          (awaitsDelivery pr.1 = true → pr.2.proposal_delivered = none))) := by
  intro pr hpr
  rw [recordAttempt_eq_map] at hpr
  have hr := mem_beforeAfter_map _ _ _ hpr
  have hnull : awaitsDelivery pr.1 = true → pr.1.proposal_delivered = none := by
    intro h
    simp only [awaitsDelivery, Bool.and_eq_true, Option.isNone_iff_eq_none] at h
    exact h.1.1
  refine ⟨fun hne => by rw [hr, if_neg hne], fun heq => ⟨?_, ?_, ?_⟩⟩
  · intro herr hacc
    have hpe : proposalErr res = none := by simp [proposalErr, herr, hacc]
    rw [hr, if_pos heq, hpe]
    exact ⟨rfl, rfl⟩
  · intro herr hacc
    have hpe : proposalErr res = some { text := res.resp.Message, isDeadlineExceeded := false } := by
      simp [proposalErr, herr, hacc]
    rw [hr, if_pos heq, hpe]
    exact ⟨rfl, failure_after_markFailed _ _, rfl, hnull⟩
  · intro e herr
    have hpe : proposalErr res = some e := by simp [proposalErr, herr]
    rw [hr, if_pos heq, hpe]
    exact ⟨rfl, failure_after_markFailed _ _, rfl, hnull⟩

/-- C10 (as amended): when a delivery RPC ends with deadline exceeded, `proposal_delivered`
stays as it was (NULL), but the row is touched: the timing sample is merged,
`proposal_failstamp` is set and the error text is recorded as failure, so that the
proposal is failed and no longer selected by the next `propose-pending` run. -/
theorem timeout_fails_proposal (now nowTs : Int) (res : RpcResult) (uuid : String)
    (proposals : List Proposal) (hnow : now ≠ 0) (hto : didTimeout res = true) :
    ∃ e, res.err = some e ∧ e.isDeadlineExceeded = true ∧
      ∀ pr ∈ beforeAfter proposals (recordAttempt now nowTs res uuid proposals),
        pr.1.proposal_uuid = uuid →
          pr.2 = { pr.1 with proposal_failstamp := now,
                             proposal_meta := stripNullFields
                               (jsonbSet (jsonbConcat pr.1.proposal_meta res.took) "failure"
                                 (.str e.text)) } ∧
          pr.2.proposal_delivered = pr.1.proposal_delivered ∧
          pr.2.proposal_failstamp ≠ 0 ∧
          failureOf pr.2 = some (.str e.text) ∧
          awaitsDelivery pr.2 = false := by
  cases herr : res.err with
  | none =>
    simp only [didTimeout, proposalErr, herr] at hto
    split at hto
    · rename_i e he
      split at he
      · injection he with he
        subst he
        cases hto
      · cases he
    · cases hto
  | some e =>
    have hpe : proposalErr res = some e := by simp [proposalErr, herr]
    refine ⟨e, rfl, by simpa [didTimeout, hpe] using hto, ?_⟩
    intro pr hpr heq
    rw [recordAttempt_eq_map] at hpr
    have h1 := mem_beforeAfter_map _ _ _ hpr
    simp only [if_pos heq, hpe] at h1
    refine ⟨h1, by rw [h1], ?_, ?_, ?_⟩
    · rw [h1]; exact hnow
    · rw [h1]; exact failure_after_markFailed _ _
    · rw [h1]
      simp [awaitsDelivery, hnow]

/-- C10, counterexample: a signed proposal whose delivery runs into the deadline; after
`proposeToSp` its `proposal_failstamp` is 17, not 0, the error text is recorded and
the row is no longer selected for delivery. -/
theorem timeout_touches_row :
    (proposeToSp 270 3 true timedOutRounds [signedPending] [signedProposal]).map
        (fun p => (p.proposal_delivered, p.proposal_failstamp, awaitsDelivery p)) =
      [(none, 17, false)] ∧
    (proposeToSp 270 3 true timedOutRounds [signedPending] [signedProposal]).map failureOf =
      [some (.str "context deadline exceeded")] ∧
    [signedProposal].map (fun p => (p.proposal_failstamp, awaitsDelivery p)) = [(0, true)] := by
  refine ⟨?_, ?_, ?_⟩
  · decide
  · rfl
  · decide

/-! ### The life-cycle invariant -/

theorem storeOk_of_rows (db : Store) (f : Proposal → Proposal) (hok : StoreOk db)
    (huuid : ∀ p, (f p).proposal_uuid = p.proposal_uuid)
    (hact : ∀ p, (f p).activated_deal_id = p.activated_deal_id)
    (hrow : ∀ p ∈ db.proposals, RowOk p → RowOk (f p)) :
    StoreOk { db with proposals := db.proposals.map f } := by
  obtain ⟨h0, h1, h2, h3⟩ := hok
  refine ⟨?_, ?_, ?_, ?_⟩
  · have : (db.proposals.map f).map (fun p => p.proposal_uuid) =
        db.proposals.map (fun p => p.proposal_uuid) := by
      rw [List.map_map]
      exact List.map_congr_left (fun p _ => huuid p)
    simpa [this] using h0
  · intro q hq
    obtain ⟨p, hp, rfl⟩ := List.mem_map.1 hq
    exact hrow p hp (h1 p hp)
  · intro q hq id hid
    obtain ⟨p, hp, rfl⟩ := List.mem_map.1 hq
    rw [hact p] at hid
    exact h2 p hp id hid
  · intro q hq id hid
    obtain ⟨p, hp, rfl⟩ := List.mem_map.1 hq
    rw [hact p] at hid
    exact h3 p hp id hid

theorem storeOk_init (db : Store) (hres : ∀ p ∈ db.proposals, isReserved p = true)
    (huniq : (db.proposals.map (fun p => p.proposal_uuid)).Nodup) : StoreOk db := by
  have hall : ∀ p ∈ db.proposals, p.proposal_delivered = none ∧ p.activated_deal_id = none := by
    intro p hp
    have h := hres p hp
    simp only [isReserved, Bool.and_eq_true, Option.isNone_iff_eq_none, decide_eq_true_eq] at h
    exact ⟨h.1.1.2, h.2⟩
  refine ⟨huniq, ?_, ?_, ?_⟩
  · intro p hp
    exact ⟨fun _ => (hall p hp).1, fun _ => (hall p hp).2⟩
  · intro p hp id hid
    rw [(hall p hp).2] at hid
    cases hid
  · intro p hp id hid
    rw [(hall p hp).2] at hid
    cases hid

theorem storeOk_reserve (db : Store) (p : Proposal) (hok : StoreOk db)
    (hres : isReserved p = true)
    (hfresh : p.proposal_uuid ∉ db.proposals.map (fun p => p.proposal_uuid)) :
    StoreOk { db with proposals := db.proposals ++ [p] } := by
  obtain ⟨h0, h1, h2, h3⟩ := hok
  have h := hres
  simp only [isReserved, Bool.and_eq_true, Option.isNone_iff_eq_none, decide_eq_true_eq] at h
  refine ⟨?_, ?_, ?_, ?_⟩
  · simp only [List.map_append, List.map_cons, List.map_nil]
    rw [List.nodup_append]
    refine ⟨h0, List.nodup_singleton _, ?_⟩
    intro a ha hb
    simp only [List.mem_singleton] at hb
    subst hb
    exact hfresh ha
  · intro q hq
    rcases List.mem_append.1 hq with hq | hq
    · exact h1 q hq
    · simp only [List.mem_singleton] at hq
      subst hq
      exact ⟨fun _ => h.1.1.2, fun _ => h.2⟩
  · intro q hq id hid
    rcases List.mem_append.1 hq with hq | hq
    · exact h2 q hq id hid
    · simp only [List.mem_singleton] at hq
      subst hq
      rw [h.2] at hid
      cases hid
  · intro q hq id hid
    rcases List.mem_append.1 hq with hq | hq
    · exact h3 q hq id hid
    · simp only [List.mem_singleton] at hq
      subst hq
      rw [h.2] at hid
      cases hid

theorem storeOk_sign (db : Store) (nowTs : Int) (sig : Json) (cid : String) (uuid : String)
    (hok : StoreOk db) :
    StoreOk { db with proposals := recordSignature nowTs sig cid uuid db.proposals } := by
  refine storeOk_of_rows db _ hok ?_ ?_ ?_
  · intro p
    by_cases h : p.proposal_uuid = uuid <;> simp [h]
  · intro p
    by_cases h : p.proposal_uuid = uuid <;> simp [h]
  · intro p _ hp
    by_cases h : p.proposal_uuid = uuid
    · simp only [h, if_true]
      exact ⟨fun hn => (by cases hn), hp.2⟩
    · simpa [h] using hp

theorem storeOk_undialable (db : Store) (now : Int) (uuid : String) (hok : StoreOk db) :
    StoreOk { db with proposals := failUndialable now uuid db.proposals } := by
  refine storeOk_of_rows db _ hok ?_ ?_ ?_
  · intro p
    by_cases h : p.proposal_uuid = uuid <;> simp [h]
  · intro p
    by_cases h : p.proposal_uuid = uuid <;> simp [h]
  · intro p _ hp
    by_cases h : p.proposal_uuid = uuid
    · simp only [h, if_true]
      exact hp
    · simpa [h] using hp

theorem storeOk_attempt (db : Store) (p : Proposal) (now nowTs : Int) (res : RpcResult)
    (hok : StoreOk db) (hp : p ∈ db.proposals) (hsel : awaitsDelivery p = true) :
    StoreOk { db with proposals := recordAttempt now nowTs res p.proposal_uuid db.proposals } := by
  rw [recordAttempt_eq_map]
  have hsig : p.signature_obtained ≠ none := by
    simp only [awaitsDelivery, Bool.and_eq_true, Option.isSome_iff_ne_none] at hsel
    exact hsel.1.2
  refine storeOk_of_rows db _ hok ?_ ?_ ?_
  · intro q
    by_cases h : q.proposal_uuid = p.proposal_uuid
    · simp only [h, if_true]
      cases proposalErr res <;> rfl
    · simp [h]
  · intro q
    by_cases h : q.proposal_uuid = p.proposal_uuid
    · simp only [h, if_true]
      cases proposalErr res <;> rfl
    · simp [h]
  · intro q hq hrow
    by_cases h : q.proposal_uuid = p.proposal_uuid
    · have hqp : q = p := List.inj_on_of_nodup_map hok.1 hq hp h
      subst hqp
      simp only [if_true]
      cases proposalErr res with
      | none => exact ⟨fun hn => absurd hn hsig, fun hn => by cases hn⟩
      | some e => exact hrow
    · simpa [h] using hrow

theorem failMissedStartRow_fields (now height : Int) (p : Proposal) :
    (failMissedStartRow now height p).proposal_uuid = p.proposal_uuid ∧
    (failMissedStartRow now height p).signature_obtained = p.signature_obtained ∧
    (failMissedStartRow now height p).proposal_delivered = p.proposal_delivered ∧
    (failMissedStartRow now height p).activated_deal_id = p.activated_deal_id := by
  unfold failMissedStartRow
  split <;> exact ⟨rfl, rfl, rfl, rfl⟩

theorem failTerminatedRow_fields (now : Int) (deals : List PublishedDeal) (p : Proposal) :
    (failTerminatedRow now deals p).proposal_uuid = p.proposal_uuid ∧
    (failTerminatedRow now deals p).signature_obtained = p.signature_obtained ∧
    (failTerminatedRow now deals p).proposal_delivered = p.proposal_delivered ∧
    ((failTerminatedRow now deals p).activated_deal_id = none ∨
      ((failTerminatedRow now deals p).activated_deal_id = p.activated_deal_id ∧
        ∀ id, p.activated_deal_id = some id → isTerminatedDeal deals id = false)) := by
  unfold failTerminatedRow
  cases hp : p.activated_deal_id with
  | none => exact ⟨rfl, rfl, rfl, Or.inl hp⟩
  | some id =>
    simp only
    cases ht : isTerminatedDeal deals id with
    | true => exact ⟨rfl, rfl, rfl, Or.inl rfl⟩
    | false =>
      refine ⟨rfl, rfl, rfl, Or.inr ⟨hp, ?_⟩⟩
      intro id' hid'
      injection hid' with hid'
      subst hid'
      exact ht

theorem failInvalidatedRow_fields (now : Int) (invalidated : List Int) (p : Proposal) :
    (failInvalidatedRow now invalidated p).proposal_uuid = p.proposal_uuid ∧
    (failInvalidatedRow now invalidated p).signature_obtained = p.signature_obtained ∧
    (failInvalidatedRow now invalidated p).proposal_delivered = p.proposal_delivered ∧
    (failInvalidatedRow now invalidated p).activated_deal_id = p.activated_deal_id := by
  unfold failInvalidatedRow
  cases hp : p.activated_deal_id with
  | none => exact ⟨rfl, rfl, rfl, hp⟩
  | some id =>
    simp only
    split
    · exact ⟨rfl, rfl, rfl, rfl⟩
    · exact ⟨rfl, rfl, rfl, hp⟩

theorem failRows_fields (stamps : Stamps) (height : Int) (deals : List PublishedDeal)
    (invalidated : List Int) (p : Proposal) :
    (failInvalidatedRow stamps.invalid invalidated
      (failTerminatedRow stamps.terminated deals
        (failMissedStartRow stamps.missed height p))).proposal_uuid = p.proposal_uuid ∧
    (failInvalidatedRow stamps.invalid invalidated
      (failTerminatedRow stamps.terminated deals
        (failMissedStartRow stamps.missed height p))).signature_obtained = p.signature_obtained ∧
    (failInvalidatedRow stamps.invalid invalidated
      (failTerminatedRow stamps.terminated deals
        (failMissedStartRow stamps.missed height p))).proposal_delivered = p.proposal_delivered ∧
    ((failInvalidatedRow stamps.invalid invalidated
      (failTerminatedRow stamps.terminated deals
        (failMissedStartRow stamps.missed height p))).activated_deal_id = none ∨
      ((failInvalidatedRow stamps.invalid invalidated
        (failTerminatedRow stamps.terminated deals
          (failMissedStartRow stamps.missed height p))).activated_deal_id = p.activated_deal_id ∧
        ∀ id, p.activated_deal_id = some id → isTerminatedDeal deals id = false)) := by
  obtain ⟨a1, a2, a3, a4⟩ := failMissedStartRow_fields stamps.missed height p
  obtain ⟨b1, b2, b3, b4⟩ := failTerminatedRow_fields stamps.terminated deals
    (failMissedStartRow stamps.missed height p)
  obtain ⟨c1, c2, c3, c4⟩ := failInvalidatedRow_fields stamps.invalid invalidated
    (failTerminatedRow stamps.terminated deals (failMissedStartRow stamps.missed height p))
  refine ⟨by rw [c1, b1, a1], by rw [c2, b2, a2], by rw [c3, b3, a3], ?_⟩
  rcases b4 with h | ⟨h, hterm⟩
  · exact Or.inl (by rw [c4, h])
  · refine Or.inr ⟨by rw [c4, h, a4], ?_⟩
    intro id hid
    exact hterm id (by rw [a4]; exact hid)

theorem upsertDeal_ids (pieceIdOf : String → Int) (d : deal) (deals : List PublishedDeal)
    (id : Int) (hid : id ∈ deals.map (fun r => r.deal_id)) :
    id ∈ (upsertDeal pieceIdOf d deals).1.map (fun r => r.deal_id) := by
  obtain ⟨r, hr, rfl⟩ := List.mem_map.1 hid
  obtain ⟨i, hi⟩ := List.mem_iff_getElem?.1 hr
  obtain ⟨r', h1, h2, _⟩ := upsertDeal_stable pieceIdOf d deals i r hi
  exact List.mem_map.2 ⟨r', List.getElem?_mem h1, h2⟩

theorem linkRow_fields (d : deal) (p : Proposal) :
    (linkRow d p).proposal_uuid = p.proposal_uuid ∧
    (linkRow d p).signature_obtained = p.signature_obtained ∧
    (linkRow d p).proposal_delivered = p.proposal_delivered ∧
    ((linkRow d p).activated_deal_id = p.activated_deal_id ∨
      ((linkRow d p).activated_deal_id = some d.dealID ∧ p.proposal_delivered ≠ none)) := by
  unfold linkRow
  split
  · rename_i h
    refine ⟨rfl, rfl, rfl, Or.inr ⟨rfl, ?_⟩⟩
    simp only [linkMatches, Bool.and_eq_true, Option.isSome_iff_ne_none] at h
    exact h.1.1.1.1.2
  · exact ⟨rfl, rfl, rfl, Or.inl rfl⟩

theorem upsertStep_loopOk (pieceIdOf : String → Int) (db : Store) (d : deal)
    (hok : LoopOk db) : LoopOk (upsertStep pieceIdOf db d) := by
  obtain ⟨h0, h1, h2⟩ := hok
  obtain ⟨row, hrow, hrid, _, _⟩ := upsertDeal_row pieceIdOf d db.published_deals
  have hnew : d.dealID ∈ (upsertDeal pieceIdOf d db.published_deals).1.map (fun r => r.deal_id) :=
    List.mem_map.2 ⟨row, hrow, hrid⟩
  simp only [upsertStep, linkProposals]
  split
  · refine ⟨?_, ?_, ?_⟩
    · have : (db.proposals.map (linkRow { d with
            pieceID := (upsertDeal pieceIdOf d db.published_deals).2 })).map
            (fun p => p.proposal_uuid) = db.proposals.map (fun p => p.proposal_uuid) := by
        rw [List.map_map]
        exact List.map_congr_left (fun p _ => (linkRow_fields _ p).1)
      simpa [this] using h0
    · intro q hq
      obtain ⟨p, hp, rfl⟩ := List.mem_map.1 hq
      obtain ⟨_, f2, f3, f4⟩ := linkRow_fields
        { d with pieceID := (upsertDeal pieceIdOf d db.published_deals).2 } p
      obtain ⟨r1, r2⟩ := h1 p hp
      refine ⟨fun hn => by rw [f3]; exact r1 (by rw [← f2]; exact hn), fun hn => ?_⟩
      rw [f3] at hn
      rcases f4 with h | h
      · rw [h]; exact r2 hn
      · exact absurd hn h.2
    · intro q hq id hid
      obtain ⟨p, hp, rfl⟩ := List.mem_map.1 hq
      obtain ⟨_, _, _, f4⟩ := linkRow_fields
        { d with pieceID := (upsertDeal pieceIdOf d db.published_deals).2 } p
      rcases f4 with h | h
      · rw [h] at hid
        exact upsertDeal_ids pieceIdOf d _ id (h2 p hp id hid)
      · rw [h.1] at hid
        injection hid with hid
        subst hid
        exact hnew
  · refine ⟨h0, h1, ?_⟩
    intro p hp id hid
    exact upsertDeal_ids pieceIdOf d _ id (h2 p hp id hid)

theorem upsertLoop_loopOk (pieceIdOf : String → Int) (ups : List deal) :
    ∀ (db : Store), LoopOk db → LoopOk (ups.foldl (upsertStep pieceIdOf) db) := by
  induction ups with
  | nil => intro db h; exact h
  | cons d rest ih =>
    intro db h
    exact ih _ (upsertStep_loopOk pieceIdOf db d h)

theorem failDeals_ids (ids : List Int) (deals : List PublishedDeal) :
    (failDeals ids deals).map (fun r => r.deal_id) = deals.map (fun r => r.deal_id) := by
  rw [failDeals_eq_map, List.map_map]
  apply List.map_congr_left
  intro r _
  simp only [Function.comp, failDealRow]
  split <;> rfl

theorem storeOk_reconcileTx (pieceIdOf : String → Int) (stamps : Stamps) (height : Int)
    (ups : List deal) (failIds : List Int) (datacap : List (Address × Option Int))
    (db : Store) (hok : StoreOk db) :
    StoreOk (reconcileTx pieceIdOf stamps height ups failIds datacap db) := by
  obtain ⟨g0, g1, g2⟩ := upsertLoop_loopOk pieceIdOf ups db ⟨hok.1, hok.2.1, hok.2.2.1⟩
  simp only [StoreOk, LinksRecorded, LinksAlive, reconcileTx, failProposals_eq_map]
  refine ⟨?_, ?_, ?_, ?_⟩
  · have : ((ups.foldl (upsertStep pieceIdOf) db).proposals.map (fun p =>
        failInvalidatedRow stamps.invalid (ups.foldl (upsertStep pieceIdOf) db).invalidated_deals
          (failTerminatedRow stamps.terminated
            (failDeals failIds (ups.foldl (upsertStep pieceIdOf) db).published_deals)
            (failMissedStartRow stamps.missed height p)))).map (fun p => p.proposal_uuid) =
        (ups.foldl (upsertStep pieceIdOf) db).proposals.map (fun p => p.proposal_uuid) := by
      rw [List.map_map]
      exact List.map_congr_left (fun p _ => (failRows_fields stamps height _ _ p).1)
    rw [this]
    exact g0
  · intro q hq
    obtain ⟨p, hp, rfl⟩ := List.mem_map.1 hq
    obtain ⟨_, f2, f3, f4⟩ := failRows_fields stamps height
      (failDeals failIds (ups.foldl (upsertStep pieceIdOf) db).published_deals)
      (ups.foldl (upsertStep pieceIdOf) db).invalidated_deals p
    obtain ⟨r1, r2⟩ := g1 p hp
    refine ⟨fun hn => by rw [f3]; exact r1 (by rw [← f2]; exact hn), fun hn => ?_⟩
    rw [f3] at hn
    rcases f4 with h | h
    · exact h
    · rw [h.1]; exact r2 hn
  · intro q hq id hid
    obtain ⟨p, hp, rfl⟩ := List.mem_map.1 hq
    obtain ⟨_, _, _, f4⟩ := failRows_fields stamps height
      (failDeals failIds (ups.foldl (upsertStep pieceIdOf) db).published_deals)
      (ups.foldl (upsertStep pieceIdOf) db).invalidated_deals p
    rcases f4 with h | h
    · rw [h] at hid; cases hid
    · rw [h.1] at hid
      rw [failDeals_ids]
      exact g2 p hp id hid
  · intro q hq id hid
    obtain ⟨p, hp, rfl⟩ := List.mem_map.1 hq
    obtain ⟨_, _, _, f4⟩ := failRows_fields stamps height
      (failDeals failIds (ups.foldl (upsertStep pieceIdOf) db).published_deals)
      (ups.foldl (upsertStep pieceIdOf) db).invalidated_deals p
    rcases f4 with h | h
    · rw [h] at hid; cases hid
    · rw [h.1] at hid
      exact h.2 id hid

theorem reachable_storeOk (db : Store) (h : Reachable db) : StoreOk db := by
  induction h with
  | init db hres huniq => exact storeOk_init db hres huniq
  | reserve db p _ hres hfresh ih => exact storeOk_reserve db p ih hres hfresh
  | sign db p nowTs sig cid _ _ _ ih => exact storeOk_sign db nowTs sig cid _ ih
  | undialable db p now _ _ _ _ ih => exact storeOk_undialable db now _ ih
  | attempt db p now nowTs res _ hp hsel _ ih => exact storeOk_attempt db p now nowTs res ih hp hsel
  | reconcile db db' chain pieceIdOf stamps _ _ hrun ih =>
    obtain ⟨datacap, w, ups, _, _, _, hdb⟩ := trackDeals_ok chain pieceIdOf stamps db db' hrun
    rw [hdb]
    exact storeOk_reconcileTx pieceIdOf stamps chain.height ups _ _ db ih

/-- C8 (as amended): in every store reachable through the sign, deliver and reconcile
writes, every proposal row satisfies exactly one of the three conditions
"`activated_deal_id` is not NULL, naming a recorded deal that is not terminated",
"`proposal_delivered` is not NULL and `activated_deal_id` is NULL" and
"`signature_obtained` is NULL or `proposal_delivered` is NULL"; the condition
`proposal_failstamp > 0` is not exclusive of these. -/
theorem reachable_exactly_one (db : Store) (h : Reachable db) :
    ∀ p ∈ db.proposals,
      countTrue [condLinked db.published_deals p, condPendingActivation p, condUndelivered p] = 1 := by
  intro p hp
  obtain ⟨_, hrow, hrec, halive⟩ := reachable_storeOk db h
  obtain ⟨r1, r2⟩ := hrow p hp
  cases hact : p.activated_deal_id with
  | some id =>
    have hdel : p.proposal_delivered ≠ none := fun hn => by
      rw [r2 hn] at hact
      cases hact
    have hsig : p.signature_obtained ≠ none := fun hn => hdel (r1 hn)
    have hany : (db.published_deals.any (fun r => decide (r.deal_id = id))) = true := by
      obtain ⟨r, hr, hrid⟩ := List.mem_map.1 (hrec p hp id hact)
      exact List.any_eq_true.2 ⟨r, hr, by simpa using hrid⟩
    have h2 : condLinked db.published_deals p = true := by
      simp [condLinked, hact, hany, halive p hp id hact]
    have h3 : condPendingActivation p = false := by
      simp [condPendingActivation, hact]
    have h4 : condUndelivered p = false := by
      cases hs : p.signature_obtained with
      | none => exact absurd hs hsig
      | some a =>
        cases hd : p.proposal_delivered with
        | none => exact absurd hd hdel
        | some b => simp [condUndelivered, hs, hd]
    rw [h2, h3, h4]
    rfl
  | none =>
    have h2 : condLinked db.published_deals p = false := by
      simp [condLinked, hact]
    cases hd : p.proposal_delivered with
    | none =>
      have h3 : condPendingActivation p = false := by
        simp [condPendingActivation, hd]
      have h4 : condUndelivered p = true := by
        simp [condUndelivered, hd]
      rw [h2, h3, h4]
      rfl
    | some b =>
      have hsig : p.signature_obtained ≠ none := fun hn => by
        rw [r1 hn] at hd
        cases hd
      have h3 : condPendingActivation p = true := by
        simp [condPendingActivation, hd, hact]
      have h4 : condUndelivered p = false := by
        cases hs : p.signature_obtained with
        | none => exact absurd hs hsig
        | some a => simp [condUndelivered, hs, hd]
      rw [h2, h3, h4]
      rfl

theorem reachable_reservedStore : Reachable reservedStore :=
  Reachable.init reservedStore (by decide) (by decide)

theorem reachable_deliveredStore : Reachable deliveredStore :=
  Reachable.attempt signedStore
    { reservedProposal with
      signature_obtained := some 2,
      proposal_meta := [("signature", .str "c2ln"), ("signed_proposal_cid", .str "bafy-signed")] }
    17 3 acceptedRpc
    (Reachable.sign reservedStore reservedProposal 2 (.str "c2ln") "bafy-signed"
      reachable_reservedStore (List.Mem.head _) rfl)
    (List.Mem.head _) rfl (by decide)

theorem reachable_activatedStore : Reachable activatedStore :=
  Reachable.reconcile deliveredStore activatedStore
    (chainWithDeal7 (some { SectorStartEpoch := 5100, LastUpdatedEpoch := 5100, SlashEpoch := -1 }))
    (fun _ => 1) sampleStamps reachable_deliveredStore (by decide) rfl

/-- C8, counterexample: after a reconcile run at height 10000 the reserved proposal is
failed and still unsigned, so conditions (1) and (4) both hold; and a delivered
proposal linked to deal 7, whose chain state then loses its sector start, is live and
linked to a "published" deal, so none of the four conditions holds. -/
theorem four_conditions_not_exactly_one :
    (Reachable lateStore ∧ fourConditions lateStore = [[true, false, false, true]]) ∧
    (Reachable regressedStore ∧ fourConditions regressedStore = [[false, false, false, false]]) := by
  refine ⟨⟨?_, by decide⟩, ⟨?_, by decide⟩⟩
  · exact Reachable.reconcile reservedStore lateStore lateChain (fun _ => 1) sampleStamps
      reachable_reservedStore (by decide) rfl
  · exact Reachable.reconcile activatedStore regressedStore (chainWithDeal7 none) (fun _ => 1)
      sampleStamps reachable_activatedStore (by decide) rfl

/-! ### The delivery loop -/

theorem proposeLoop_eq_applyAttempts (budget : Int) (rounds : Nat → Round)
    (props : List proposalPending) :
    ∀ (i : Nat) (tbl : List Proposal),
      proposeLoop budget rounds i props tbl =
        applyAttempts rounds i (proposeTrace budget rounds i props) tbl := by
  induction props with
  | nil => intro i tbl; rfl
  | cons p rest ih =>
    intro i tbl
    rw [proposeLoop, proposeTrace]
    by_cases h1 : (rounds i).elapsed ≥ budget
    · rw [if_pos h1, if_pos h1]; rfl
    · rw [if_neg h1, if_neg h1]
      by_cases h2 : i ≠ 0 ∧ (rounds i).cancelled = true
      · rw [if_pos h2, if_pos h2]; rfl
      · rw [if_neg h2, if_neg h2]
        by_cases h3 : didTimeout (rounds i).rpc = true
        · rw [if_pos h3, if_pos h3]; rfl
        · rw [if_neg h3, if_neg h3, applyAttempts, ih]

theorem proposeToSp_eq_applyAttempts (perSpTimeout spProposalSleep : Int) (addrInfoOk : Bool)
    (rounds : Nat → Round) (props : List proposalPending) (tbl : List Proposal) :
    proposeToSp perSpTimeout spProposalSleep addrInfoOk rounds props tbl =
      applyAttempts rounds 0
        (attemptedBy perSpTimeout spProposalSleep addrInfoOk rounds props) tbl := by
  unfold proposeToSp attemptedBy
  split
  · rfl
  · split
    · rfl
    · exact proposeLoop_eq_applyAttempts _ rounds props 0 tbl

theorem proposeTrace_take (budget : Int) (rounds : Nat → Round)
    (props : List proposalPending) :
    ∀ (i : Nat), proposeTrace budget rounds i props =
      props.take (proposeTrace budget rounds i props).length := by
  induction props with
  | nil => intro i; rfl
  | cons p rest ih =>
    intro i
    rw [proposeTrace]
    by_cases h1 : (rounds i).elapsed ≥ budget
    · rw [if_pos h1]; rfl
    · rw [if_neg h1]
      by_cases h2 : i ≠ 0 ∧ (rounds i).cancelled = true
      · rw [if_pos h2]; rfl
      · rw [if_neg h2]
        by_cases h3 : didTimeout (rounds i).rpc = true
        · rw [if_pos h3]; rfl
        · rw [if_neg h3]
          simp only [List.length_cons, List.take_succ_cons]
          rw [← ih (i + 1)]

theorem proposeTrace_at (budget : Int) (rounds : Nat → Round)
    (props : List proposalPending) :
    ∀ (i k : Nat), k < (proposeTrace budget rounds i props).length →
      (rounds (i + k)).elapsed < budget ∧
      (i + k ≠ 0 → (rounds (i + k)).cancelled = false) ∧
      (didTimeout (rounds (i + k)).rpc = true →
        (proposeTrace budget rounds i props).length = k + 1) ∧
      (didTimeout (rounds (i + k)).rpc = false →
        proposeTrace budget rounds i props =
          props.take (k + 1) ++ proposeTrace budget rounds (i + k + 1) (props.drop (k + 1))) := by
  induction props with
  | nil => intro i k hk; simp [proposeTrace] at hk
  | cons p rest ih =>
    intro i k hk
    rw [proposeTrace] at hk ⊢
    by_cases h1 : (rounds i).elapsed ≥ budget
    · rw [if_pos h1] at hk; simp at hk
    · rw [if_neg h1] at hk ⊢
      by_cases h2 : i ≠ 0 ∧ (rounds i).cancelled = true
      · rw [if_pos h2] at hk; simp at hk
      · rw [if_neg h2] at hk ⊢
        have hc : i ≠ 0 → (rounds i).cancelled = false := by
          intro hi
          cases hcc : (rounds i).cancelled with
          | false => rfl
          | true => exact absurd ⟨hi, hcc⟩ h2
        by_cases h3 : didTimeout (rounds i).rpc = true
        · rw [if_pos h3] at hk ⊢
          have hk0 : k = 0 := by simpa using hk
          subst hk0
          refine ⟨by simpa using h1, hc, fun _ => rfl, fun hf => ?_⟩
          rw [Nat.add_zero] at hf
          rw [h3] at hf
          cases hf
        · rw [if_neg h3] at hk ⊢
          cases k with
          | zero =>
            refine ⟨by simpa using h1, hc, fun ht => absurd ht h3, fun _ => ?_⟩
            simp
          | succ j =>
            have hj : j < (proposeTrace budget rounds (i + 1) rest).length := by
              simpa using hk
            obtain ⟨a1, a2, a3, a4⟩ := ih (i + 1) j hj
            have e : i + 1 + j = i + (j + 1) := by omega
            rw [e] at a1 a2 a3 a4
            refine ⟨a1, a2, fun ht => ?_, fun hf => ?_⟩
            · simp only [List.length_cons, a3 ht]
            · have := a4 hf
              simp only [List.take_succ_cons, List.drop_succ_cons, List.cons_append]
              rw [this]

theorem proposeTrace_budget (budget : Int) (rounds : Nat → Round)
    (props : List proposalPending) (i k : Nat) (h : (rounds (i + k)).elapsed ≥ budget) :
    (proposeTrace budget rounds i props).length ≤ k := by
  by_contra hc
  have hk : k < (proposeTrace budget rounds i props).length := by omega
  have := (proposeTrace_at budget rounds props i k hk).1
  omega

theorem recordAttempt_stable (now nowTs : Int) (res : RpcResult) (uuid : String)
    (tbl : List Proposal) (k : Nat) (r : Proposal) (hk : tbl[k]? = some r) :
    ∃ r', (recordAttempt now nowTs res uuid tbl)[k]? = some r' ∧
      r'.proposal_uuid = r.proposal_uuid ∧ (r.proposal_uuid ≠ uuid → r' = r) := by
  rw [recordAttempt_eq_map, List.getElem?_map, hk]
  refine ⟨_, rfl, ?_, ?_⟩
  · by_cases h : r.proposal_uuid = uuid
    · simp only [h, if_true]
      cases proposalErr res <;> rfl
    · simp [h]
  · intro h
    simp [h]

theorem applyAttempts_stable (rounds : Nat → Round) (l : List proposalPending) :
    ∀ (i : Nat) (tbl : List Proposal) (k : Nat) (r : Proposal), tbl[k]? = some r →
      ∃ r', (applyAttempts rounds i l tbl)[k]? = some r' ∧
        r'.proposal_uuid = r.proposal_uuid ∧
        (r.proposal_uuid ∉ l.map (fun p => p.ProposalUUID) → r' = r) := by
  induction l with
  | nil => intro i tbl k r hk; exact ⟨r, hk, rfl, fun _ => rfl⟩
  | cons p rest ih =>
    intro i tbl k r hk
    obtain ⟨r1, h1, h2, h3⟩ := recordAttempt_stable (rounds i).now (rounds i).nowTs
      (rounds i).rpc p.ProposalUUID tbl k r hk
    obtain ⟨r2, g1, g2, g3⟩ := ih (i + 1) _ k r1 h1
    refine ⟨r2, g1, by rw [g2, h2], ?_⟩
    intro hn
    simp only [List.map_cons, List.mem_cons, not_or] at hn
    rw [g3 (by rw [h2]; exact hn.2), h3 hn.1]

theorem attemptedBy_cases (perSpTimeout spProposalSleep : Int) (addrInfoOk : Bool)
    (rounds : Nat → Round) (props : List proposalPending) :
    attemptedBy perSpTimeout spProposalSleep addrInfoOk rounds props = [] ∨
    attemptedBy perSpTimeout spProposalSleep addrInfoOk rounds props =
      proposeTrace (spBudget perSpTimeout spProposalSleep) rounds 0 props := by
  unfold attemptedBy
  split
  · exact Or.inl rfl
  · split
    · exact Or.inl rfl
    · exact Or.inr rfl

theorem not_mem_take_of_nodup (l : List String) (hnd : l.Nodup) (i j : Nat) (x : String)
    (hij : i ≤ j) (hj : l[j]? = some x) : x ∉ l.take i := by
  intro hx
  obtain ⟨m, hm⟩ := List.mem_iff_getElem?.1 hx
  rw [List.getElem?_take] at hm
  split at hm
  · rename_i hmi
    obtain ⟨hm1, hm2⟩ := List.getElem?_eq_some.1 hm
    obtain ⟨hj1, hj2⟩ := List.getElem?_eq_some.1 hj
    have := (List.Nodup.getElem_inj_iff hnd).1 (hm2.trans hj2.symm)
    omega
  · cases hm

theorem queue_rows_untouched (rounds : Nat → Round) (props : List proposalPending)
    (tbl : List Proposal) (n : Nat)
    (hnd : (props.map (fun p => p.ProposalUUID)).Nodup) (j : Nat) (q : proposalPending)
    (hnj : n ≤ j) (hq : props[j]? = some q) (k : Nat) (r : Proposal) (hk : tbl[k]? = some r)
    (hr : r.proposal_uuid = q.ProposalUUID) :
    (applyAttempts rounds 0 (props.take n) tbl)[k]? = some r := by
  obtain ⟨r', h1, _, h3⟩ := applyAttempts_stable rounds (props.take n) 0 tbl k r hk
  have hnot : r.proposal_uuid ∉ (props.take n).map (fun p => p.ProposalUUID) := by
    rw [List.map_take, hr]
    exact not_mem_take_of_nodup _ hnd n j _ hnj (by simp [List.getElem?_map, hq])
  rw [h1, h3 hnot]

theorem spBudget_of_inRange (perSpTimeout spProposalSleep : Int)
    (h1 : -(2 ^ 63) ≤ (perSpTimeout + spProposalSleep) * 1000000000)
    (h2 : (perSpTimeout + spProposalSleep) * 1000000000 < 2 ^ 63) :
    spBudget perSpTimeout spProposalSleep = (perSpTimeout + spProposalSleep) * 1000000000 := by
  unfold spBudget addInt64
  rw [wrapInt64_of_inRange (perSpTimeout + spProposalSleep) (by omega) (by omega)]
  exact wrapInt64_of_inRange _ h1 h2

/-- C11: when the attempt at position `i` of a provider's queue ends with deadline
exceeded, the attempts of `proposeToSp` are exactly the positions up to `i`, and the
rows of the proposals queued after `i` are left as they were; when it ends otherwise,
the loop goes on with position `i + 1` on the remaining queue. -/
theorem timeout_ends_queue (perSpTimeout spProposalSleep : Int) (addrInfoOk : Bool)
    (rounds : Nat → Round) (props : List proposalPending) (tbl : List Proposal) (i : Nat)
    (hatt : i < (attemptedBy perSpTimeout spProposalSleep addrInfoOk rounds props).length) :
    (didTimeout (rounds i).rpc = true →
      attemptedBy perSpTimeout spProposalSleep addrInfoOk rounds props = props.take (i + 1) ∧
      proposeToSp perSpTimeout spProposalSleep addrInfoOk rounds props tbl =
        applyAttempts rounds 0 (props.take (i + 1)) tbl ∧
      ((props.map (fun p => p.ProposalUUID)).Nodup →
        ∀ (j : Nat) (q : proposalPending), i < j → props[j]? = some q →
          ∀ (k : Nat) (r : Proposal), tbl[k]? = some r → r.proposal_uuid = q.ProposalUUID →
            (proposeToSp perSpTimeout spProposalSleep addrInfoOk rounds props tbl)[k]? = some r)) ∧
    (didTimeout (rounds i).rpc = false →
      attemptedBy perSpTimeout spProposalSleep addrInfoOk rounds props =
        props.take (i + 1) ++
          proposeTrace (spBudget perSpTimeout spProposalSleep) rounds (i + 1)
            (props.drop (i + 1))) := by
  have hto := proposeToSp_eq_applyAttempts perSpTimeout spProposalSleep addrInfoOk rounds props tbl
  rcases attemptedBy_cases perSpTimeout spProposalSleep addrInfoOk rounds props with h | h
  · rw [h] at hatt
    simp at hatt
  · rw [h] at hatt
    obtain ⟨_, _, a3, a4⟩ := proposeTrace_at _ rounds props 0 i hatt
    simp only [Nat.zero_add] at a3 a4
    refine ⟨fun ht => ?_, fun hf => ?_⟩
    · have htake : attemptedBy perSpTimeout spProposalSleep addrInfoOk rounds props =
          props.take (i + 1) := by
        rw [h, proposeTrace_take _ rounds props 0, a3 ht]
      refine ⟨htake, by rw [hto, htake], ?_⟩
      intro hnd j q hij hq k r hk hr
      rw [hto, htake]
      exact queue_rows_untouched rounds props tbl (i + 1) hnd j q hij hq k r hk hr
    · rw [h]
      exact a4 hf

/-- C12 (as amended): `proposeToSp` makes the attempt of a round only if the time elapsed
since the start of the provider's session, as that round reads it in its test at the
top of the loop (before the disconnect and the sleep between two deliveries), is below
the budget; once a round finds the budget reached, neither it nor any later position
is attempted, and the rows of the proposals queued from there on are left as they
were. The budget is `per-sp-timeout + sleep-between-proposals` seconds whenever that
many nanoseconds fit a signed 64-bit integer. -/
theorem budget_defers_queue (perSpTimeout spProposalSleep : Int) (addrInfoOk : Bool)
    (rounds : Nat → Round) (props : List proposalPending) (tbl : List Proposal) :
    (-(2 ^ 63) ≤ (perSpTimeout + spProposalSleep) * 1000000000 →
      (perSpTimeout + spProposalSleep) * 1000000000 < 2 ^ 63 →
      spBudget perSpTimeout spProposalSleep =
        (perSpTimeout + spProposalSleep) * 1000000000) ∧
    (∀ i, i < (attemptedBy perSpTimeout spProposalSleep addrInfoOk rounds props).length →
      (rounds i).elapsed < spBudget perSpTimeout spProposalSleep) ∧
    (∀ i, (rounds i).elapsed ≥ spBudget perSpTimeout spProposalSleep →
      (attemptedBy perSpTimeout spProposalSleep addrInfoOk rounds props).length ≤ i ∧
      ((props.map (fun p => p.ProposalUUID)).Nodup →
        ∀ (j : Nat) (q : proposalPending), i ≤ j → props[j]? = some q →
          ∀ (k : Nat) (r : Proposal), tbl[k]? = some r → r.proposal_uuid = q.ProposalUUID →
            (proposeToSp perSpTimeout spProposalSleep addrInfoOk rounds props tbl)[k]? = some r ∧
            (awaitsDelivery r = true → ∃ r', 
              (proposeToSp perSpTimeout spProposalSleep addrInfoOk rounds props tbl)[k]? = some r' ∧
              awaitsDelivery r' = true))) := by
  have hto := proposeToSp_eq_applyAttempts perSpTimeout spProposalSleep addrInfoOk rounds props tbl
  refine ⟨spBudget_of_inRange perSpTimeout spProposalSleep, ?_, ?_⟩
  · intro i hi
    rcases attemptedBy_cases perSpTimeout spProposalSleep addrInfoOk rounds props with h | h
    · rw [h] at hi
      simp at hi
    · rw [h] at hi
      have := (proposeTrace_at _ rounds props 0 i hi).1
      simpa using this
  · intro i hi
    have hlen : (attemptedBy perSpTimeout spProposalSleep addrInfoOk rounds props).length ≤ i := by
      rcases attemptedBy_cases perSpTimeout spProposalSleep addrInfoOk rounds props with h | h
      · rw [h]; simp
      · rw [h]
        exact proposeTrace_budget _ rounds props 0 i (by simpa using hi)
    refine ⟨hlen, ?_⟩
    intro hnd j q hij hq k r hk hr
    have htake : attemptedBy perSpTimeout spProposalSleep addrInfoOk rounds props =
        props.take (attemptedBy perSpTimeout spProposalSleep addrInfoOk rounds props).length := by
      rcases attemptedBy_cases perSpTimeout spProposalSleep addrInfoOk rounds props with h | h
      · rw [h]; simp
      · rw [h]
        exact proposeTrace_take _ rounds props 0
    have hrow : (proposeToSp perSpTimeout spProposalSleep addrInfoOk rounds props tbl)[k]? =
        some r := by
      rw [hto, htake]
      exact queue_rows_untouched rounds props tbl _ hnd j q (by omega) hq k r hk hr
    exact ⟨hrow, fun ha => ⟨r, hrow, ha⟩⟩

/-- C12, counterexample: with `per-sp-timeout` 270 and `sleep-between-proposals` 3 the
budget is 273 seconds; a round that reads 271 seconds since the start of the session,
more than `per-sp-timeout`, still makes its attempt, and the proposal is delivered.
And a second round that reads 272 seconds passes the test, sleeps its 3 seconds and so
starts its attempt no sooner than 275 seconds into the session, after the budget. -/
theorem attempt_after_per_sp_timeout :
    attemptedBy 270 3 true lateRounds [signedPending] = [signedPending] ∧
    (lateRounds 0).elapsed > 270 * 1000000000 ∧
    spBudget 270 3 = 273 * 1000000000 ∧
    attemptedBy 270 3 true tightRounds [signedPending, signedPending] =
      [signedPending, signedPending] ∧
    (tightRounds 1).elapsed < spBudget 270 3 ∧
    earliestAttempt 3 1 (tightRounds 1) = 275 * 1000000000 ∧
    earliestAttempt 3 1 (tightRounds 1) > spBudget 270 3 ∧
    (proposeToSp 270 3 true lateRounds [signedPending] [signedProposal]).map
      (fun p => p.proposal_delivered) = [some 18] := by
  refine ⟨by decide, by decide, by decide, by decide, by decide, by decide, by decide,
    by decide⟩

/-! ### The provider queues -/

theorem undialable_iff (p : proposalPending) :
    (p.PeerID = none ∨ p.Multiaddrs.length = 0) ↔ Dialable p = false := by
  unfold Dialable
  cases hp : p.PeerID with
  | none => simp
  | some x =>
    simp [Nat.pos_iff_ne_zero]

theorem queue_sum_append (m : List (Address × List proposalPending)) (k : Address)
    (p : proposalPending) :
    ((mapSet m k ((mapGet m k).getD [] ++ [p])).map (fun e => e.2.length)).sum =
      (m.map (fun e => e.2.length)).sum + 1 := by
  induction m with
  | nil => simp [mapSet, mapGet]
  | cons e rest ih =>
    obtain ⟨k', v'⟩ := e
    by_cases h : k' = k
    · simp [mapSet, mapGet, h]
      omega
    · simp only [mapSet, mapGet, h, if_false, List.map_cons, List.sum_cons, ih]
      omega

theorem buildQueues_spec (now : Nat → Int) (pending : List proposalPending) :
    ∀ (i : Nat) (st : QueueState),
      (∀ sp, queueOf (buildQueues now i pending st) sp =
        queueOf st sp ++ pending.filter (fun p => Dialable p && decide (p.Provider = sp))) ∧
      (buildQueues now i pending st).proposals =
        st.proposals + (pending.filter Dialable).length ∧
      (((buildQueues now i pending st).props.map (fun e => e.2.length)).sum =
        (st.props.map (fun e => e.2.length)).sum + (pending.filter Dialable).length) ∧
      ((st.props.map Prod.fst).Nodup →
        ((buildQueues now i pending st).props.map Prod.fst).Nodup) := by
  induction pending with
  | nil => intro i st; simp [buildQueues]
  | cons p rest ih =>
    intro i st
    rw [buildQueues]
    by_cases hu : p.PeerID = none ∨ p.Multiaddrs.length = 0
    · have hd : Dialable p = false := (undialable_iff p).1 hu
      rw [if_pos hu]
      obtain ⟨a1, a2, a3, a4⟩ := ih (i + 1)
        { st with table := failUndialable (now i) p.ProposalUUID st.table }
      refine ⟨?_, ?_, ?_, a4⟩
      · intro sp
        rw [a1 sp]
        simp [List.filter_cons, hd, queueOf]
      · rw [a2]
        simp [List.filter_cons, hd]
      · rw [a3]
        simp [List.filter_cons, hd]
    · have hd : Dialable p = true := by
        cases h : Dialable p with
        | true => rfl
        | false => exact absurd ((undialable_iff p).2 h) hu
      rw [if_neg hu]
      obtain ⟨a1, a2, a3, a4⟩ := ih (i + 1)
        { st with props := mapSet st.props p.Provider
                    ((mapGet st.props p.Provider).getD [] ++ [p]),
                  proposals := st.proposals + 1 }
      refine ⟨?_, ?_, ?_, ?_⟩
      · intro sp
        rw [a1 sp]
        by_cases hsp : p.Provider = sp
        · subst hsp
          simp [List.filter_cons, hd, queueOf, mapGet_mapSet_self]
        · simp [List.filter_cons, hd, hsp, queueOf, mapGet_mapSet_ne _ _ _ _ hsp]
      · rw [a2]
        simp only [List.filter_cons, hd, if_true, List.length_cons]
        omega
      · rw [a3, queue_sum_append]
        simp only [List.filter_cons, hd, if_true, List.length_cons]
        omega
      · intro hnd
        exact a4 (mapSet_keys_nodup _ _ _ hnd)

theorem attemptedBy_prefix (perSpTimeout spProposalSleep : Int) (addrInfoOk : Bool)
    (rounds : Nat → Round) (props : List proposalPending) :
    attemptedBy perSpTimeout spProposalSleep addrInfoOk rounds props <+: props := by
  rcases attemptedBy_cases perSpTimeout spProposalSleep addrInfoOk rounds props with h | h
  · rw [h]
    exact List.nil_prefix
  · rw [h, proposeTrace_take _ rounds props 0]
    exact List.take_prefix _ _

/-- C13: the queue that `propose-pending` builds for a provider is the pending list
filtered to the dialable entries of that provider, in the order of the pending list;
`proposeToSp` attempts a prefix of it; a dialable pending entry is in the queue of its
own provider and in no other; there is one queue per provider, `proposals` is the sum
of the queue lengths and `uniqueProviders` the number of queues. -/
theorem queues_are_filtered_pending (now : Nat → Int) (pending : List proposalPending)
    (tbl : List Proposal) (perSpTimeout spProposalSleep : Int) (addrInfoOk : Bool)
    (rounds : Nat → Round) (sp : Address) :
    queueOf (proposalsPerSP now pending tbl) sp =
      pending.filter (fun p => Dialable p && decide (p.Provider = sp)) ∧
    attemptedBy perSpTimeout spProposalSleep addrInfoOk rounds
      (queueOf (proposalsPerSP now pending tbl) sp) <+:
        queueOf (proposalsPerSP now pending tbl) sp ∧
    (∀ p ∈ pending, Dialable p = true →
      (p ∈ queueOf (proposalsPerSP now pending tbl) sp ↔ sp = p.Provider)) ∧
    ((proposalsPerSP now pending tbl).props.map Prod.fst).Nodup ∧
    (queueTotals (proposalsPerSP now pending tbl)).proposals =
      ((proposalsPerSP now pending tbl).props.map (fun e => e.2.length)).sum ∧
    (queueTotals (proposalsPerSP now pending tbl)).uniqueProviders =
      (proposalsPerSP now pending tbl).props.length := by
  obtain ⟨a1, a2, a3, a4⟩ := buildQueues_spec now pending 0
    { props := [], table := tbl, proposals := 0 }
  have hq : queueOf (proposalsPerSP now pending tbl) sp =
      pending.filter (fun p => Dialable p && decide (p.Provider = sp)) := by
    have := a1 sp
    simpa [proposalsPerSP, queueOf, mapGet] using this
  refine ⟨hq, attemptedBy_prefix _ _ _ _ _, ?_, a4 List.nodup_nil, ?_, rfl⟩
  · intro p hp hd
    rw [hq, List.mem_filter]
    constructor
    · intro h
      simp only [Bool.and_eq_true, decide_eq_true_eq] at h
      exact h.2.2.symm
    · intro h
      exact ⟨hp, by simp [hd, h]⟩
  · simp only [queueTotals, proposalsPerSP]
    rw [a2, a3]
    simp

/-! ### The sign stage -/

theorem recordSignature_stable (nowTs : Int) (sig : Json) (cid : String) (uuid : String)
    (tbl : List Proposal) (k : Nat) (r : Proposal) (hk : tbl[k]? = some r) :
    ∃ r', (recordSignature nowTs sig cid uuid tbl)[k]? = some r' ∧
      r'.proposal_failstamp = r.proposal_failstamp ∧ failureOf r' = failureOf r ∧
      (r.proposal_uuid ≠ uuid → r' = r) := by
  unfold recordSignature
  rw [List.getElem?_map, hk]
  refine ⟨_, rfl, ?_, ?_, ?_⟩
  · by_cases h : r.proposal_uuid = uuid <;> simp [h]
  · by_cases h : r.proposal_uuid = uuid
    · simp only [h, if_true, failureOf, jsonbSet]
      rw [mapGet_mapSet_ne _ _ _ _ (by decide), mapGet_mapSet_ne _ _ _ _ (by decide)]
    · simp [h]
  · intro h
    simp [h]

theorem signLoop_stable (env : SignEnv) (pending : List signaturePending) :
    ∀ (i : Nat) (st : SignState) (k : Nat) (r : Proposal), st.table[k]? = some r →
      ∃ r', (signLoop env i pending st).1.table[k]? = some r' ∧
        r'.proposal_failstamp = r.proposal_failstamp ∧ failureOf r' = failureOf r ∧
        (r.proposal_uuid ∉ pending.map (fun p => p.ProposalUUID) → r' = r) := by
  induction pending with
  | nil => intro i st k r hk; exact ⟨r, hk, rfl, rfl, fun _ => rfl⟩
  | cons p rest ih =>
    intro i st k r hk
    rw [signLoop]
    cases loadWallet env st.knownWallets p.Client with
    | error e => exact ⟨r, hk, rfl, rfl, fun _ => rfl⟩
    | ok kws =>
      simp only
      cases env.dump p with
      | error e => exact ⟨r, hk, rfl, rfl, fun _ => rfl⟩
      | ok raw =>
        simp only
        cases env.walletSign (walletKey kws p.Client) raw with
        | error e => exact ⟨r, hk, rfl, rfl, fun _ => rfl⟩
        | ok sig =>
          simp only
          cases env.signedCid p sig with
          | error e => exact ⟨r, hk, rfl, rfl, fun _ => rfl⟩
          | ok cid =>
            simp only
            obtain ⟨r1, h1, h2, h3, h4⟩ := recordSignature_stable (env.nowTs i) sig cid
              p.ProposalUUID st.table k r hk
            obtain ⟨r2, g1, g2, g3, g4⟩ := ih (i + 1)
              { table := recordSignature (env.nowTs i) sig cid p.ProposalUUID st.table,
                knownWallets := kws,
                totals := { st.totals with signed := st.totals.signed + 1 } } k r1 h1
            refine ⟨r2, g1, by rw [g2, h2], by rw [g3, h3], ?_⟩
            intro hn
            simp only [List.map_cons, List.mem_cons, not_or] at hn
            have e1 : r1 = r := h4 hn.1
            rw [g4 (by rw [e1]; exact hn.2), e1]

/-- C14 (as amended): in the sign stage every error ends the run, the error of a
signature included: when `wallet.WalletSign` fails for a proposal the counter `failed`
is incremented and the error is returned, nothing is written for that proposal nor for
the proposals after it; an address or key that cannot be resolved ends the run as
well. No run of the stage sets `proposal_failstamp` or a failure message on any row. -/
theorem sign_error_aborts_run (env : SignEnv) (i : Nat) (p : signaturePending)
    (rest : List signaturePending) (st : SignState) :
    (∀ e, loadWallet env st.knownWallets p.Client = .error e →
      signLoop env i (p :: rest) st = (st, some e)) ∧
    (∀ kws raw e, loadWallet env st.knownWallets p.Client = .ok kws → env.dump p = .ok raw →
      env.walletSign (walletKey kws p.Client) raw = .error e →
        (signLoop env i (p :: rest) st).2 = some e ∧
        (signLoop env i (p :: rest) st).1.table = st.table ∧
        (signLoop env i (p :: rest) st).1.totals =
          { signed := st.totals.signed, failed := st.totals.failed + 1 }) ∧
    (∀ (k : Nat) (r : Proposal), st.table[k]? = some r →
      ∃ r', (signLoop env i (p :: rest) st).1.table[k]? = some r' ∧
        r'.proposal_failstamp = r.proposal_failstamp ∧ failureOf r' = failureOf r) := by
  refine ⟨?_, ?_, ?_⟩
  · intro e he
    rw [signLoop, he]
  · intro kws raw e hw hd hs
    rw [signLoop, hw]
    dsimp only
    rw [hd]
    dsimp only
    rw [hs]
    exact ⟨rfl, rfl, rfl⟩
  · intro k r hk
    obtain ⟨r', h1, h2, h3, _⟩ := signLoop_stable env (p :: rest) i st k r hk
    exact ⟨r', h1, h2, h3⟩

/-- C14, counterexample: two reserved proposals and a signer that fails; the run returns
the error with `failed` at 1 and `signed` at 0, and both proposals are as before:
live, unsigned, without failure message. -/
theorem sign_error_marks_nothing :
    (signPending failingSigner twoPending twoReserved).2 = some "unknown key type" ∧
    (signPending failingSigner twoPending twoReserved).1.totals = { signed := 0, failed := 1 } ∧
    (signPending failingSigner twoPending twoReserved).1.table.map
      (fun p => (p.proposal_failstamp, p.signature_obtained, awaitsSignature p)) =
        [(0, none, true), (0, none, true)] ∧
    (signPending failingSigner twoPending twoReserved).1.table.map failureOf = [none, none] := by
  refine ⟨by decide, by decide, by decide, rfl⟩

/-! ### The bulk piece ingester -/

theorem ingestObject_mismatch (aggregate : Nat → List PieceInfo → Except String String)
    (src : BulkPieceSource) (tenant : Int) (agg : Aggregate) (db : PieceStore) (c : String)
    (hflag : notFrc58 src = false)
    (hc : aggregate agg.AggCommP.PieceInfo.Size (agg.PieceList.map CommP.PieceInfo) = .ok c)
    (hne : c ≠ agg.AggCommP.pcidV1) :
    ingestObject aggregate src tenant (.ok agg) db
      = .error "supplied list of pieces does not aggregate with the expected PCidV1" := by
  simp only [ingestObject, hflag, hc]
  rw [if_pos hne]
  simp

theorem ingestObject_ok_cid (aggregate : Nat → List PieceInfo → Except String String)
    (src : BulkPieceSource) (tenant : Int) (agg : Aggregate) (db db' : PieceStore)
    (h : ingestObject aggregate src tenant (.ok agg) db = .ok db') :
    aggregate agg.AggCommP.PieceInfo.Size (agg.PieceList.map CommP.PieceInfo)
        = .ok agg.AggCommP.pcidV1
      ∧ ingestAggregate tenant agg db = .ok db' := by
  unfold ingestObject at h
  dsimp only at h
  split at h
  · cases h
  · split at h
    · cases h
    · rename_i c hc
      split at h
      · cases h
      · rename_i hne
        have : c = agg.AggCommP.pcidV1 := by
          by_contra hx
          exact hne hx
        exact ⟨by rw [hc, this], h⟩

theorem ingestObjects_append (aggregate : Nat → List PieceInfo → Except String String)
    (src : BulkPieceSource) (tenant : Int) (pre rest : List (Except String Aggregate))
    (db db1 : PieceStore) (h : ingestObjects aggregate src tenant pre db = (db1, none)) :
    ingestObjects aggregate src tenant (pre ++ rest) db
      = ingestObjects aggregate src tenant rest db1 := by
  induction pre generalizing db with
  | nil =>
    simp only [ingestObjects, Prod.mk.injEq, and_true] at h
    rw [List.nil_append, h]
  | cons o pre ih =>
    rw [List.cons_append, ingestObjects]
    rw [ingestObjects] at h
    cases ho : ingestObject aggregate src tenant o db with
    | error e => rw [ho] at h; simp at h
    | ok db2 =>
      rw [ho] at h
      exact ih db2 h

theorem ingestPages_append (aggregate : Nat → List PieceInfo → Except String String)
    (src : BulkPieceSource) (tenant : Int)
    (pre rest : List (Except String (List (Except String Aggregate))))
    (db db1 : PieceStore) (h : ingestPages aggregate src tenant pre db = (db1, none)) :
    ingestPages aggregate src tenant (pre ++ rest) db
      = ingestPages aggregate src tenant rest db1 := by
  induction pre generalizing db with
  | nil =>
    simp only [ingestPages, Prod.mk.injEq, and_true] at h
    rw [List.nil_append, h]
  | cons pg pre ih =>
    cases pg with
    | error e => simp [ingestPages] at h
    | ok objs =>
      rw [List.cons_append, ingestPages]
      rw [ingestPages] at h
      rcases ho : ingestObjects aggregate src tenant objs db with ⟨db2, _ | e⟩
      · rw [ho] at h
        exact ih db2 h
      · rw [ho] at h; simp at h

theorem ingestDays_append (env : PollEnv) (src : BulkPieceSource) (tenant : Int)
    (pre rest : List Int) (db db1 : PieceStore)
    (h : ingestDays env src tenant pre db = (db1, none)) :
    ingestDays env src tenant (pre ++ rest) db = ingestDays env src tenant rest db1 := by
  induction pre generalizing db with
  | nil =>
    simp only [ingestDays, Prod.mk.injEq, and_true] at h
    rw [List.nil_append, h]
  | cons d pre ih =>
    rw [List.cons_append, ingestDays]
    rw [ingestDays] at h
    rcases ho : ingestPages env.aggregate src tenant (env.listing tenant d) db with ⟨db2, _ | e⟩
    · rw [ho] at h
      exact ih db2 h
    · rw [ho] at h; simp at h

theorem ingestTenants_append (env : PollEnv) (days : List Int)
    (pre rest : List (Int × BulkPieceSource)) (db db1 : PieceStore)
    (h : ingestTenants env days pre db = (db1, .ok)) :
    ingestTenants env days (pre ++ rest) db = ingestTenants env days rest db1 := by
  induction pre generalizing db with
  | nil =>
    simp only [ingestTenants, Prod.mk.injEq, and_true] at h
    rw [List.nil_append, h]
  | cons t pre ih =>
    rw [List.cons_append, ingestTenants]
    rw [ingestTenants] at h
    rcases ho : ingestTenant env days t db with ⟨db2, _ | e | e⟩
    · rw [ho] at h
      exact ih db2 h
    · rw [ho] at h; simp at h
    · rw [ho] at h; simp at h

theorem ingestTenant_mismatch (env : PollEnv) (days preD postD : List Int) (d : Int)
    (tenant : Int) (src : BulkPieceSource)
    (preP postP : List (Except String (List (Except String Aggregate))))
    (preO postO : List (Except String Aggregate)) (agg : Aggregate)
    (db1 db2 db3 db4 : PieceStore) (c : String)
    (htype : src.SourceType = "s3") (hparts : 2 ≤ src.PathParts.length)
    (hcfg : env.loadConfig src = none) (hflag : notFrc58 src = false)
    (hd : days = preD ++ d :: postD)
    (hpreD : ingestDays env src tenant preD db1 = (db2, none))
    (hp : env.listing tenant d = preP ++ .ok (preO ++ .ok agg :: postO) :: postP)
    (hpreP : ingestPages env.aggregate src tenant preP db2 = (db3, none))
    (hpreO : ingestObjects env.aggregate src tenant preO db3 = (db4, none))
    (hc : env.aggregate agg.AggCommP.PieceInfo.Size (agg.PieceList.map CommP.PieceInfo) = .ok c)
    (hne : c ≠ agg.AggCommP.pcidV1) :
    ingestTenant env days (tenant, src) db1
      = (db4, .error "supplied list of pieces does not aggregate with the expected PCidV1") := by
  have hobjs : ingestObjects env.aggregate src tenant (preO ++ .ok agg :: postO) db3
      = (db4, some "supplied list of pieces does not aggregate with the expected PCidV1") := by
    rw [ingestObjects_append _ _ _ _ _ _ _ hpreO, ingestObjects,
      ingestObject_mismatch _ _ _ _ _ c hflag hc hne]
  have hpages : ingestPages env.aggregate src tenant (env.listing tenant d) db2
      = (db4, some "supplied list of pieces does not aggregate with the expected PCidV1") := by
    rw [hp, ingestPages_append _ _ _ _ _ _ _ hpreP, ingestPages, hobjs]
  have hdays : ingestDays env src tenant days db1
      = (db4, some "supplied list of pieces does not aggregate with the expected PCidV1") := by
    rw [hd, ingestDays_append _ _ _ _ _ _ _ hpreD, ingestDays, hpages]
  obtain ⟨a, ha⟩ : ∃ a, src.PathParts[0]? = some a :=
    ⟨src.PathParts[0], List.getElem?_eq_getElem (by omega)⟩
  obtain ⟨b, hb⟩ : ∃ b, src.PathParts[1]? = some b :=
    ⟨src.PathParts[1], List.getElem?_eq_getElem (by omega)⟩
  unfold ingestTenant
  dsimp only
  rw [if_neg (by rw [htype]; simp), ha]
  dsimp only
  rw [hcfg]
  dsimp only
  rw [hb]
  dsimp only
  rw [hdays]

/-- C15: rows of an aggregate are inserted only if the v1 CID recomputed from its piece
list equals the supplied one: an object that is ingested has equal CIDs, and on a
mismatch the handling of the object is an error and the object loop ends with that error
and the store as it was before the object. -/
theorem aggregate_rows_need_matching_cid
    (aggregate : Nat → List PieceInfo → Except String String)
    (src : BulkPieceSource) (tenant : Int) (agg : Aggregate)
    (rest : List (Except String Aggregate)) (db : PieceStore) :
    (∀ db', ingestObject aggregate src tenant (.ok agg) db = .ok db' →
        aggregate agg.AggCommP.PieceInfo.Size (agg.PieceList.map CommP.PieceInfo)
          = .ok agg.AggCommP.pcidV1)
    ∧ (∀ c, aggregate agg.AggCommP.PieceInfo.Size (agg.PieceList.map CommP.PieceInfo) = .ok c →
        c ≠ agg.AggCommP.pcidV1 →
        ∃ e, ingestObject aggregate src tenant (.ok agg) db = .error e
          ∧ ingestObjects aggregate src tenant (.ok agg :: rest) db = (db, some e)) := by
  refine ⟨fun db' h => (ingestObject_ok_cid aggregate src tenant agg db db' h).1, ?_⟩
  intro c hc hne
  cases hflag : notFrc58 src with
  | true =>
    have h : ingestObject aggregate src tenant (.ok agg) db
        = .error "do not know how to handle non-frc58 bulksources yet" := by
      simp [ingestObject, hflag]
    exact ⟨_, h, by rw [ingestObjects, h]⟩
  | false =>
    have h := ingestObject_mismatch aggregate src tenant agg db c hflag hc hne
    exact ⟨_, h, by rw [ingestObjects, h]⟩

/-- C16 (amended): a run that returns nil has refreshed the materialized views and a run
that returns an error has not; and when the run meets an aggregate whose recomputed v1
CID differs from the supplied one, it returns the mismatch error without a refresh, and
the store is the one left by the aggregates committed before it in the run. -/
theorem mismatch_aborts_run (env : PollEnv) (skipEntriesAgedDays : Nat) (db : PieceStore) :
    ((bulkPiecePoll env skipEntriesAgedDays db).outcome = .ok →
        (bulkPiecePoll env skipEntriesAgedDays db).refreshed = true)
    ∧ (∀ e, (bulkPiecePoll env skipEntriesAgedDays db).outcome = .error e →
        (bulkPiecePoll env skipEntriesAgedDays db).refreshed = false)
    ∧ (∀ (preT postT : List (Int × BulkPieceSource)) (tenant : Int) (src : BulkPieceSource)
        (preD postD : List Int) (d : Int)
        (preP postP : List (Except String (List (Except String Aggregate))))
        (preO postO : List (Except String Aggregate)) (agg : Aggregate)
        (db1 db2 db3 db4 : PieceStore) (c : String),
        env.tenants = .ok (preT ++ (tenant, src) :: postT) →
        ingestTenants env (dayOffsets skipEntriesAgedDays) preT db = (db1, .ok) →
        src.SourceType = "s3" → 2 ≤ src.PathParts.length → env.loadConfig src = none →
        notFrc58 src = false →
        dayOffsets skipEntriesAgedDays = preD ++ d :: postD →
        ingestDays env src tenant preD db1 = (db2, none) →
        env.listing tenant d = preP ++ .ok (preO ++ .ok agg :: postO) :: postP →
        ingestPages env.aggregate src tenant preP db2 = (db3, none) →
        ingestObjects env.aggregate src tenant preO db3 = (db4, none) →
        env.aggregate agg.AggCommP.PieceInfo.Size (agg.PieceList.map CommP.PieceInfo) = .ok c →
        c ≠ agg.AggCommP.pcidV1 →
        (bulkPiecePoll env skipEntriesAgedDays db).outcome
            = .error "supplied list of pieces does not aggregate with the expected PCidV1"
          ∧ (bulkPiecePoll env skipEntriesAgedDays db).store = db4
          ∧ (bulkPiecePoll env skipEntriesAgedDays db).refreshed = false) := by
  refine ⟨?_, ?_, ?_⟩
  · intro h
    unfold bulkPiecePoll at h ⊢
    rcases hb : pollBody env skipEntriesAgedDays db with ⟨db', _ | e | e⟩
    · rw [hb] at h
      dsimp only at h ⊢
      cases hr : env.refreshMatviews with
      | none => rfl
      | some e => rw [hr] at h; cases h
    · rw [hb] at h; cases h
    · rw [hb] at h; cases h
  · intro e h
    unfold bulkPiecePoll at h ⊢
    rcases hb : pollBody env skipEntriesAgedDays db with ⟨db', _ | e1 | e1⟩
    · rw [hb] at h
      dsimp only at h ⊢
      cases hr : env.refreshMatviews with
      | none => rw [hr] at h; cases h
      | some e => rfl
    · rfl
    · rw [hb] at h; cases h
  · intro preT postT tenant src preD postD d preP postP preO postO agg db1 db2 db3 db4 c
      ht hpreT htype hparts hcfg hflag hd hpreD hp hpreP hpreO hc hne
    have hbody : pollBody env skipEntriesAgedDays db
        = (db4, .error "supplied list of pieces does not aggregate with the expected PCidV1") := by
      unfold pollBody
      rw [ht]
      dsimp only
      rw [ingestTenants_append _ _ _ _ _ _ hpreT, ingestTenants,
        ingestTenant_mismatch env _ preD postD d tenant src preP postP preO postO agg
          db1 db2 db3 db4 c htype hparts hcfg hflag hd hpreD hp hpreP hpreO hc hne]
    unfold bulkPiecePoll
    rw [hbody]
    exact ⟨rfl, rfl, rfl⟩

/-- C16 (as stated) fails: the run of `pollEnv` ends with the mismatch error and without
a refresh, and the two pieces, the segment row and the tenant claim of the aggregate
handled before the mismatching one are in the store. -/
theorem rows_stay_after_mismatch :
    (bulkPiecePoll pollEnv 2 emptyPieceStore).outcome
        = .error "supplied list of pieces does not aggregate with the expected PCidV1"
      ∧ (bulkPiecePoll pollEnv 2 emptyPieceStore).refreshed = false
      ∧ emptyPieceStore.pieces.length = 0
      ∧ (bulkPiecePoll pollEnv 2 emptyPieceStore).store.pieces.map (fun r => r.piece_cid)
          = ["baga-agg-1", "bafk-seg-a"]
      ∧ (bulkPiecePoll pollEnv 2 emptyPieceStore).store.piece_segments
          = [{ piece_id := 1, segment_id := 2, position := 0 }]
      ∧ (bulkPiecePoll pollEnv 2 emptyPieceStore).store.tenants_pieces
          = [{ piece_id := 1, dataset_id := some 1, tenant_id := 7 }] := by
  refine ⟨?_, ?_, ?_, ?_, ?_, ?_⟩ <;> decide

/-! ### The listing of eligible pieces -/

theorem keptRows_eq_take (lim : Nat) (rows : List EligibleRow) :
    keptRows lim rows = rows.take lim ∧ keptRows lim rows = rows.take (min rows.length lim) := by
  unfold keptRows
  by_cases h : rows.length > lim
  · rw [if_pos h, Nat.min_eq_right (Nat.le_of_lt h)]
    exact ⟨rfl, rfl⟩
  · have hle : rows.length ≤ lim := Nat.le_of_not_lt h
    rw [if_neg h, Nat.min_eq_left hle, List.take_of_length_le hle,
      List.take_of_length_le (Nat.le_refl _)]
    exact ⟨rfl, rfl⟩

theorem renderPieces_spec (api : EligibleApi) (xs : List EligibleRow)
    (ht : ∀ p ∈ xs, p.Tenants ≠ []) :
    ∃ ret, renderPieces api xs = some ret ∧ ret.map some = xs.map (renderPiece api) := by
  induction xs with
  | nil => exact ⟨[], rfl, rfl⟩
  | cons p rest ih =>
    obtain ⟨qs, hqs, hmap⟩ := ih (fun q hq => ht q (List.mem_cons_of_mem _ hq))
    have hp := ht p (List.mem_cons_self _ _)
    obtain ⟨t, ts, hts⟩ : ∃ t ts, p.Tenants = t :: ts := by
      cases hT : p.Tenants with
      | nil => exact absurd hT hp
      | cons t ts => exact ⟨t, ts, rfl⟩
    have hr : ∃ q, renderPiece api p = some q := by
      unfold renderPiece
      rw [hts, List.getElem?_cons_zero]
      exact ⟨_, rfl⟩
    obtain ⟨q, hq⟩ := hr
    refine ⟨q :: qs, ?_, ?_⟩
    · rw [renderPieces, hq]
      dsimp only
      rw [hqs]
    · rw [List.map_cons, List.map_cons, hq, hmap]

/-- C17: when the eligibility query, asked for `lim + 1` rows, returns `n` rows (each kept
row carrying a tenant), the response holds exactly the first `min n lim` rows rendered in
the order of the query, so at most `lim` entries, and its annotation starts with the
truncation note if `n > lim` and is the plain one otherwise. -/
theorem eligible_response_truncates (api : EligibleApi) (req : EligibleRequest)
    (lim : Nat) (tenantID : Int) (rows : List EligibleRow)
    (hlim : requestedLimit api req = .ok lim)
    (htid : requestedTenant req = .ok tenantID)
    (hq : api.select (useQueryFunc api req lim) api.authedActorID ((lim + 1) % 2 ^ 64)
      tenantID req.includeSourceless = .ok rows)
    (ht : ∀ p ∈ rows.take lim, p.Tenants ≠ []) :
    ∃ ret,
      apiSpListEligible api req
        = .payload ret (String.intercalate "\n"
            ((if rows.length > lim then truncationNote api lim else []) ++ baseInfo api))
      ∧ ret.map some = (rows.take (min rows.length lim)).map (renderPiece api)
      ∧ ret.length = min rows.length lim
      ∧ ret.length ≤ lim
      ∧ truncationNote api lim ≠ [] := by
  obtain ⟨hk1, hk2⟩ := keptRows_eq_take lim rows
  obtain ⟨ret, hret, hmap⟩ := renderPieces_spec api (keptRows lim rows) (by rw [hk1]; exact ht)
  have hlen : ret.length = min rows.length lim := by
    have := congrArg List.length hmap
    rw [List.length_map, List.length_map, hk2, List.length_take] at this
    omega
  refine ⟨ret, ?_, by rw [hmap, hk2], hlen, by omega, by simp [truncationNote]⟩
  unfold apiSpListEligible
  rw [hlim]
  dsimp only
  rw [htid]
  dsimp only
  rw [hq]
  dsimp only
  rw [hret]
  dsimp only
  unfold infoLines
  by_cases h : rows.length > lim
  · rw [if_pos h, if_pos h]
  · rw [if_neg h, if_neg h, List.nil_append]

/-- C18 (amended): when `internal-nolateral` is present, the full form is used exactly
when it is truthy, whatever the limit; when it is absent, the full form is used exactly
when the limit exceeds `listEligibleDefaultSize`; in every other case the head form is
used. -/
theorem query_form_choice (api : EligibleApi) (req : EligibleRequest) (lim : Nat) :
    (∀ truthy, req.internalNolateral = some truthy →
      (useQueryFunc api req lim = "pieces_eligible_full" ↔ truthy = true))
    ∧ (req.internalNolateral = none →
      (useQueryFunc api req lim = "pieces_eligible_full" ↔ lim > api.listEligibleDefaultSize))
    ∧ (useQueryFunc api req lim ≠ "pieces_eligible_full" →
      useQueryFunc api req lim = "pieces_eligible_head") := by
  unfold useQueryFunc
  refine ⟨?_, ?_, ?_⟩
  · intro truthy h
    rw [h]
    cases truthy <;> simp
  · intro h
    rw [h]
    dsimp only
    by_cases hl : lim > api.listEligibleDefaultSize
    · simp [hl]
    · simp [hl]
  · intro h
    cases hn : req.internalNolateral with
    | none =>
      rw [hn] at h
      dsimp only at h ⊢
      by_cases hl : lim > api.listEligibleDefaultSize
      · rw [if_pos hl] at h; exact absurd rfl h
      · rw [if_neg hl]
    | some truthy =>
      rw [hn] at h
      cases truthy
      · rfl
      · exact absurd rfl h

/-- C18 (as stated) fails: a request for 500 rows, above the default size of 2, with
`internal-nolateral` present and not truthy is served by the head form. -/
theorem limit_above_default_uses_head :
    requestedLimit sampleApi lateralRequest = .ok 500
      ∧ 500 > sampleApi.listEligibleDefaultSize
      ∧ useQueryFunc sampleApi lateralRequest 500 = "pieces_eligible_head" := by
  refine ⟨rfl, by decide, by decide⟩

/-! ### A second run of the reconciler -/

theorem walkDeal_chainStatus (height : Int) (m : List (Int × filDeal)) (found : Option DealState)
    (id : Nat) (prop : DealProposal) :
    (walkDeal height m found id prop).status = chainStatus height found prop := by
  exact (walkDeal_status height m found id prop).1

theorem creditDatacap_congr (m : List (Address × Option Int)) (d d2 : deal)
    (hp : d.proposal = d2.proposal) (hs : d.status = d2.status) :
    creditDatacap m d = creditDatacap m d2 := by
  unfold creditDatacap
  rw [hp, hs]

theorem mapGet_mapDelete_ne {κ ν : Type} [DecidableEq κ] (m : List (κ × ν)) (k k2 : κ)
    (h : k ≠ k2) : mapGet (mapDelete m k) k2 = mapGet m k2 := by
  induction m with
  | nil => rfl
  | cons e rest ih =>
    obtain ⟨k', v'⟩ := e
    unfold mapDelete at ih ⊢
    by_cases hk : k' = k
    · rw [List.filter_cons_of_neg (by simpa using hk), ih, mapGet,
        if_neg (by rw [hk]; exact h)]
    · rw [List.filter_cons_of_pos (by simpa using hk), mapGet, mapGet, ih]

theorem mem_of_mem_mapDelete {κ ν : Type} [DecidableEq κ] (m : List (κ × ν)) (k : κ)
    (e : κ × ν) (h : e ∈ mapDelete m k) : e ∈ m :=
  (List.mem_filter.1 h).1

theorem walkStep_eq (height : Int) (dealStates : Nat → Except String (Option DealState))
    (st : WalkState) (id : Nat) (prop : DealProposal) (found : Option DealState)
    (dcaps : List (Address × Option Int))
    (hds : dealStates id = .ok found)
    (hcr : creditDatacap st.tenantClientDatacap
      (walkDeal height st.initialDbDeals found id prop) = .ok dcaps) :
    walkStep height dealStates st id prop =
      .ok { initialDbDeals := mapDelete st.initialDbDeals (int64OfUint64 id),
            tenantClientDatacap := dcaps,
            toUpsert :=
              if needsUpsert (walkDeal height st.initialDbDeals found id prop) then
                st.toUpsert ++ [walkDeal height st.initialDbDeals found id prop]
              else st.toUpsert } := by
  unfold walkStep
  rw [hds]
  dsimp only
  rw [hcr]
  dsimp only
  obtain ⟨hp, hid⟩ := walkDeal_prev height st.initialDbDeals found id prop
  rw [hp, hid]
  cases hg : mapGet st.initialDbDeals (int64OfUint64 id) with
  | none => rw [mapDelete_of_get_none _ _ hg]
  | some kd => rfl

theorem walkStep_inv (height : Int) (dealStates : Nat → Except String (Option DealState))
    (st st' : WalkState) (id : Nat) (prop : DealProposal)
    (hok : walkStep height dealStates st id prop = .ok st') :
    ∃ found, dealStates id = .ok found ∧
      creditDatacap st.tenantClientDatacap (walkDeal height st.initialDbDeals found id prop)
        = .ok st'.tenantClientDatacap ∧
      st'.initialDbDeals = mapDelete st.initialDbDeals (int64OfUint64 id) ∧
      st'.toUpsert =
        if needsUpsert (walkDeal height st.initialDbDeals found id prop) then
          st.toUpsert ++ [walkDeal height st.initialDbDeals found id prop]
        else st.toUpsert := by
  cases hds : dealStates id with
  | error e =>
    unfold walkStep at hok
    rw [hds] at hok
    cases hok
  | ok found =>
    cases hcr : creditDatacap st.tenantClientDatacap
        (walkDeal height st.initialDbDeals found id prop) with
    | error e =>
      unfold walkStep at hok
      rw [hds] at hok
      dsimp only at hok
      rw [hcr] at hok
      cases hok
    | ok dcaps =>
      rw [walkStep_eq height dealStates st id prop found dcaps hds hcr] at hok
      injection hok with hok
      subst hok
      exact ⟨found, rfl, hcr, rfl, rfl⟩

theorem needsUpsert_walkDeal (height : Int) (m : List (Int × filDeal))
    (found : Option DealState) (id : Nat) (prop : DealProposal) :
    needsUpsert (walkDeal height m found id prop) =
      match mapGet m (int64OfUint64 id) with
      | none => true
      | some prev => decide (chainStatus height found prop ≠ prev.status) := by
  unfold needsUpsert
  rw [(walkDeal_prev height m found id prop).1, walkDeal_chainStatus]

theorem walk_settled (height : Int) (dealStates : Nat → Except String (Option DealState))
    (deals : List (Nat × DealProposal)) :
    ∀ (st st' st2 : WalkState), walk height dealStates st deals = .ok st' →
      st2.tenantClientDatacap = st.tenantClientDatacap →
      (walkedIds deals).Nodup →
      (∀ e ∈ deals, ∀ found, dealStates e.1 = .ok found →
        ∃ fd, mapGet st2.initialDbDeals (int64OfUint64 e.1) = some fd ∧
          fd.status = chainStatus height found e.2) →
      ∃ st2', walk height dealStates st2 deals = .ok st2' ∧
        st2'.toUpsert = st2.toUpsert ∧
        st2'.tenantClientDatacap = st'.tenantClientDatacap := by
  induction deals with
  | nil =>
    intro st st' st2 hok hdc _ _
    simp only [walk] at hok
    injection hok with hok
    subst hok
    exact ⟨st2, rfl, rfl, hdc⟩
  | cons e rest ih =>
    intro st st' st2 hok hdc hnd hset
    obtain ⟨id, prop⟩ := e
    simp only [walk] at hok
    cases hs : walkStep height dealStates st id prop with
    | error e => rw [hs] at hok; cases hok
    | ok st1 =>
      rw [hs] at hok
      obtain ⟨found, hds, hcr, _, _⟩ := walkStep_inv height dealStates st st1 id prop hs
      obtain ⟨fd, hfd, hst⟩ := hset (id, prop) (List.mem_cons_self _ _) found hds
      have hcr2 : creditDatacap st2.tenantClientDatacap
          (walkDeal height st2.initialDbDeals found id prop) = .ok st1.tenantClientDatacap := by
        rw [hdc, ← hcr]
        apply creditDatacap_congr
        · rw [(walkDeal_status height _ found id prop).2, (walkDeal_status height _ found id prop).2]
        · rw [walkDeal_chainStatus, walkDeal_chainStatus]
      have hstep := walkStep_eq height dealStates st2 id prop found _ hds hcr2
      have hno : needsUpsert (walkDeal height st2.initialDbDeals found id prop) = false := by
        rw [needsUpsert_walkDeal, hfd]
        simp [hst]
      rw [hno] at hstep
      simp only [walkedIds, List.map_cons, List.nodup_cons] at hnd
      obtain ⟨st2', h1, h2, h3⟩ := ih st1 st'
        { initialDbDeals := mapDelete st2.initialDbDeals (int64OfUint64 id),
          tenantClientDatacap := st1.tenantClientDatacap,
          toUpsert := st2.toUpsert } hok rfl hnd.2 (by
            intro e he found' hf
            obtain ⟨fd', hfd', hst'⟩ := hset e (List.mem_cons_of_mem _ he) found' hf
            refine ⟨fd', ?_, hst'⟩
            dsimp only
            rw [mapGet_mapDelete_ne _ _ _ ?_, hfd']
            intro heq
            exact hnd.1 (List.mem_map.2 ⟨e, he, heq.symm⟩))
      refine ⟨st2', ?_, h2, h3⟩
      simp only [walk]
      rw [hstep]
      exact h1

theorem walk_each (height : Int) (dealStates : Nat → Except String (Option DealState))
    (deals : List (Nat × DealProposal)) :
    ∀ (st st' : WalkState), walk height dealStates st deals = .ok st' →
      (∀ d ∈ st.toUpsert, d ∈ st'.toUpsert) ∧
      (∀ d ∈ st'.toUpsert, d ∈ st.toUpsert ∨
        ∃ e ∈ deals, ∃ found, dealStates e.1 = .ok found ∧
          d.dealID = int64OfUint64 e.1 ∧ d.status = chainStatus height found e.2) ∧
      (∀ e ∈ deals, ∃ found, dealStates e.1 = .ok found ∧
        ((∃ d ∈ st'.toUpsert, d.dealID = int64OfUint64 e.1 ∧
            d.status = chainStatus height found e.2) ∨
         (∃ fd, (int64OfUint64 e.1, fd) ∈ st.initialDbDeals ∧
            fd.status = chainStatus height found e.2))) := by
  induction deals with
  | nil =>
    intro st st' hok
    simp only [walk] at hok
    injection hok with hok
    subst hok
    exact ⟨fun d h => h, fun d h => Or.inl h, fun e he => by cases he⟩
  | cons e rest ih =>
    intro st st' hok
    obtain ⟨id, prop⟩ := e
    simp only [walk] at hok
    cases hs : walkStep height dealStates st id prop with
    | error e => rw [hs] at hok; cases hok
    | ok st1 =>
      rw [hs] at hok
      obtain ⟨found, hds, _, hinit, hups⟩ := walkStep_inv height dealStates st st1 id prop hs
      obtain ⟨i1, i2, i3⟩ := ih st1 st' hok
      have hmono : ∀ d ∈ st.toUpsert, d ∈ st1.toUpsert := by
        intro d hd
        rw [hups]
        split
        · exact List.mem_append_left _ hd
        · exact hd
      refine ⟨fun d hd => i1 d (hmono d hd), ?_, ?_⟩
      · intro d hd
        rcases i2 d hd with h | ⟨e, he, fnd, h1, h2, h3⟩
        · rw [hups] at h
          split at h
          · rcases List.mem_append.1 h with h | h
            · exact Or.inl h
            · simp only [List.mem_singleton] at h
              refine Or.inr ⟨(id, prop), List.mem_cons_self _ _, found, hds, ?_, ?_⟩
              · rw [h, (walkDeal_prev height _ found id prop).2]
              · rw [h, walkDeal_chainStatus]
          · exact Or.inl h
        · exact Or.inr ⟨e, List.mem_cons_of_mem _ he, fnd, h1, h2, h3⟩
      · intro e he
        rcases List.mem_cons.1 he with h | h
        · subst h
          refine ⟨found, hds, ?_⟩
          by_cases hn : needsUpsert (walkDeal height st.initialDbDeals found id prop) = true
          · left
            refine ⟨walkDeal height st.initialDbDeals found id prop, i1 _ ?_,
              (walkDeal_prev height _ found id prop).2, walkDeal_chainStatus _ _ _ _ _⟩
            rw [hups, if_pos hn]
            exact List.mem_append_right _ (List.mem_singleton.2 rfl)
          · right
            rw [needsUpsert_walkDeal] at hn
            cases hg : mapGet st.initialDbDeals (int64OfUint64 id) with
            | none => rw [hg] at hn; exact absurd rfl hn
            | some prev =>
              rw [hg] at hn
              refine ⟨prev, mapGet_some_mem _ _ _ hg, ?_⟩
              simp only [ne_eq, decide_not, Bool.not_eq_true', decide_eq_false_iff_not,
                not_not] at hn
              exact hn.symm
        · obtain ⟨fnd, h1, h2⟩ := i3 e h
          refine ⟨fnd, h1, ?_⟩
          rcases h2 with h2 | ⟨fd, hfd, hst⟩
          · exact Or.inl h2
          · rw [hinit] at hfd
            exact Or.inr ⟨fd, mem_of_mem_mapDelete _ _ _ hfd, hst⟩

theorem fillBlanks_keeps (d d' : deal) (hf : fillBlanks d = .ok d') :
    d'.dealID = d.dealID ∧ d'.status = d.status := by
  unfold fillBlanks at hf
  cases h1 : d.proposal.Client.parseActor with
  | error e => rw [h1] at hf; cases hf
  | ok c =>
    rw [h1] at hf
    cases h2 : d.proposal.Provider.parseActor with
    | error e => rw [h2] at hf; cases hf
    | ok q =>
      rw [h2] at hf
      dsimp only at hf
      split at hf
      · cases hf
      · injection hf with hf
        subst hf
        exact ⟨rfl, rfl⟩

theorem fillAllBlanks_keeps (l : List deal) :
    ∀ l', fillAllBlanks l = .ok l' →
      (∀ d' ∈ l', ∃ d ∈ l, d'.dealID = d.dealID ∧ d'.status = d.status) ∧
      (∀ d ∈ l, ∃ d' ∈ l', d'.dealID = d.dealID ∧ d'.status = d.status) := by
  induction l with
  | nil =>
    intro l' h
    simp only [fillAllBlanks] at h
    injection h with h
    subst h
    exact ⟨fun d h => (by cases h), fun d h => (by cases h)⟩
  | cons d rest ih =>
    intro l' h
    simp only [fillAllBlanks] at h
    cases hf : fillBlanks d with
    | error e => rw [hf] at h; cases h
    | ok d1 =>
      rw [hf] at h
      cases hr : fillAllBlanks rest with
      | error e => rw [hr] at h; cases h
      | ok rest' =>
        rw [hr] at h
        injection h with h
        subst h
        obtain ⟨k1, k2⟩ := ih rest' hr
        have hk := fillBlanks_keeps d d1 hf
        refine ⟨?_, ?_⟩
        · intro x hx
          rcases List.mem_cons.1 hx with hx | hx
          · exact ⟨d, List.mem_cons_self _ _, by rw [hx]; exact hk⟩
          · obtain ⟨y, hy, hxy⟩ := k1 x hx
            exact ⟨y, List.mem_cons_of_mem _ hy, hxy⟩
        · intro x hx
          rcases List.mem_cons.1 hx with hx | hx
          · exact ⟨d1, List.mem_cons_self _ _, by rw [hx]; exact hk⟩
          · obtain ⟨y, hy, hxy⟩ := k2 x hx
            exact ⟨y, List.mem_cons_of_mem _ hy, hxy⟩

theorem upsertDeal_mem (pieceIdOf : String → Int) (d : deal) (deals : List PublishedDeal)
    (hnd : (deals.map (fun r => r.deal_id)).Nodup) :
    ∀ r ∈ (upsertDeal pieceIdOf d deals).1,
      (r.deal_id = d.dealID ∧ r.status = d.status) ∨ (r ∈ deals ∧ r.deal_id ≠ d.dealID) := by
  induction deals with
  | nil =>
    intro r hr
    simp only [upsertDeal, List.mem_singleton] at hr
    subst hr
    exact Or.inl ⟨rfl, rfl⟩
  | cons r0 rest ih =>
    intro r hr
    simp only [List.map_cons, List.nodup_cons] at hnd
    by_cases h : r0.deal_id = d.dealID
    · rw [upsertDeal, if_pos h] at hr
      rcases List.mem_cons.1 hr with hr | hr
      · subst hr
        exact Or.inl ⟨h, rfl⟩
      · refine Or.inr ⟨List.mem_cons_of_mem _ hr, ?_⟩
        intro hx
        exact hnd.1 (List.mem_map.2 ⟨r, hr, by rw [hx, h]⟩)
    · rw [upsertDeal, if_neg h] at hr
      rcases List.mem_cons.1 hr with hr | hr
      · subst hr
        exact Or.inr ⟨List.mem_cons_self _ _, h⟩
      · rcases ih hnd.2 r hr with h1 | h1
        · exact Or.inl h1
        · exact Or.inr ⟨List.mem_cons_of_mem _ h1.1, h1.2⟩

theorem upsertDeal_ids_eq (pieceIdOf : String → Int) (d : deal) (deals : List PublishedDeal) :
    (upsertDeal pieceIdOf d deals).1.map (fun r => r.deal_id) =
      if d.dealID ∈ deals.map (fun r => r.deal_id) then deals.map (fun r => r.deal_id)
      else deals.map (fun r => r.deal_id) ++ [d.dealID] := by
  induction deals with
  | nil => simp [upsertDeal]
  | cons r0 rest ih =>
    by_cases h : r0.deal_id = d.dealID
    · rw [upsertDeal, if_pos h, if_pos (by simp [h])]
      rfl
    · rw [upsertDeal, if_neg h]
      simp only [List.map_cons, List.mem_cons]
      rw [ih]
      have hne : ¬ d.dealID = r0.deal_id := fun hx => h hx.symm
      by_cases hm : d.dealID ∈ rest.map (fun r => r.deal_id)
      · rw [if_pos hm, if_pos (Or.inr hm)]
      · rw [if_neg hm, if_neg (by rintro (hx | hx); exact hne hx; exact hm hx)]
        rfl

theorem upsertDeal_nodup (pieceIdOf : String → Int) (d : deal) (deals : List PublishedDeal)
    (hnd : (deals.map (fun r => r.deal_id)).Nodup) :
    ((upsertDeal pieceIdOf d deals).1.map (fun r => r.deal_id)).Nodup := by
  rw [upsertDeal_ids_eq]
  split
  · exact hnd
  · rename_i hm
    rw [List.nodup_append]
    refine ⟨hnd, List.nodup_singleton _, ?_⟩
    intro a ha hb
    simp only [List.mem_singleton] at hb
    subst hb
    exact hm ha

theorem upsertLoop_rows (pieceIdOf : String → Int) (ups : List deal) :
    ∀ (db : Store), (db.published_deals.map (fun r => r.deal_id)).Nodup →
      ((ups.foldl (upsertStep pieceIdOf) db).published_deals.map (fun r => r.deal_id)).Nodup ∧
      (∀ r ∈ (ups.foldl (upsertStep pieceIdOf) db).published_deals,
        (∃ d ∈ ups, d.dealID = r.deal_id ∧ d.status = r.status) ∨
          (r ∈ db.published_deals ∧ r.deal_id ∉ ups.map (fun d => d.dealID))) ∧
      (∀ id ∈ db.published_deals.map (fun r => r.deal_id),
        id ∈ (ups.foldl (upsertStep pieceIdOf) db).published_deals.map (fun r => r.deal_id)) ∧
      (∀ d ∈ ups,
        d.dealID ∈ (ups.foldl (upsertStep pieceIdOf) db).published_deals.map
          (fun r => r.deal_id)) := by
  induction ups with
  | nil =>
    intro db hnd
    exact ⟨hnd, fun r hr => Or.inr ⟨hr, List.not_mem_nil _⟩, fun id h => h,
      fun d hd => by cases hd⟩
  | cons d rest ih =>
    intro db hnd
    have hstep : (upsertStep pieceIdOf db d).published_deals
        = (upsertDeal pieceIdOf d db.published_deals).1 := rfl
    obtain ⟨k1, k2, k3, k4⟩ := ih (upsertStep pieceIdOf db d)
      (by rw [hstep]; exact upsertDeal_nodup pieceIdOf d _ hnd)
    rw [List.foldl_cons]
    refine ⟨k1, ?_, ?_, ?_⟩
    · intro r hr
      rcases k2 r hr with ⟨x, hx, h1⟩ | ⟨h, hn⟩
      · exact Or.inl ⟨x, List.mem_cons_of_mem _ hx, h1⟩
      · rw [hstep] at h
        rcases upsertDeal_mem pieceIdOf d _ hnd r h with ⟨h1, h2⟩ | ⟨h1, h2⟩
        · exact Or.inl ⟨d, List.mem_cons_self _ _, h1.symm, h2.symm⟩
        · refine Or.inr ⟨h1, ?_⟩
          simp only [List.map_cons, List.mem_cons, not_or]
          exact ⟨h2, hn⟩
    · intro id hid
      apply k3
      rw [hstep]
      exact upsertDeal_ids pieceIdOf d _ id hid
    · intro x hx
      rcases List.mem_cons.1 hx with hx | hx
      · subst hx
        apply k3
        rw [hstep]
        obtain ⟨row, hrow, h1, _⟩ := upsertDeal_row pieceIdOf x db.published_deals
        exact List.mem_map.2 ⟨row, hrow, h1⟩
      · exact k4 x hx

theorem mem_mapSet {κ ν : Type} [DecidableEq κ] (m : List (κ × ν)) (k : κ) (v : ν)
    (e : κ × ν) (h : e ∈ mapSet m k v) : e ∈ m ∨ e = (k, v) := by
  induction m with
  | nil =>
    simp only [mapSet, List.mem_singleton] at h
    exact Or.inr h
  | cons e0 rest ih =>
    obtain ⟨k', v'⟩ := e0
    by_cases hk : k' = k
    · rw [mapSet, if_pos hk] at h
      rcases List.mem_cons.1 h with h | h
      · exact Or.inr h
      · exact Or.inl (List.mem_cons_of_mem _ h)
    · rw [mapSet, if_neg hk] at h
      rcases List.mem_cons.1 h with h | h
      · exact Or.inl (by rw [h]; exact List.mem_cons_self _ _)
      · rcases ih h with h | h
        · exact Or.inl (List.mem_cons_of_mem _ h)
        · exact Or.inr h

theorem loadDbDeals_mem (deals : List PublishedDeal) :
    ∀ (m : List (Int × filDeal)) (e : Int × filDeal), e ∈ loadDbDeals deals m →
      e ∈ m ∨ ∃ r ∈ deals, r.deal_id = e.1 ∧ r.status = e.2.status := by
  induction deals with
  | nil => intro m e h; exact Or.inl h
  | cons r0 rest ih =>
    intro m e h
    rw [loadDbDeals] at h
    rcases ih _ e h with h | ⟨r, hr, h1⟩
    · rcases mem_mapSet _ _ _ _ h with h | h
      · exact Or.inl h
      · exact Or.inr ⟨r0, List.mem_cons_self _ _, by rw [h], by rw [h]⟩
    · exact Or.inr ⟨r, List.mem_cons_of_mem _ hr, h1⟩

theorem failDealRow_id (ids : List Int) (r : PublishedDeal) :
    (failDealRow ids r).deal_id = r.deal_id := by
  unfold failDealRow
  split <;> rfl

theorem reconciled_deals (chain : ChainView) (pieceIdOf : String → Int) (db : Store)
    (datacap : List (Address × Option Int)) (w : WalkState) (ups : List deal)
    (hw : walk chain.height chain.dealStates
      { initialDbDeals := loadDbDeals db.published_deals [],
        tenantClientDatacap := datacap, toUpsert := [] } chain.dealProposals = .ok w)
    (hf : fillAllBlanks w.toUpsert = .ok ups)
    (hndc : (walkedIds chain.dealProposals).Nodup)
    (hndd : (db.published_deals.map (fun r => r.deal_id)).Nodup) :
    ((failDeals (toFail w.initialDbDeals)
        (ups.foldl (upsertStep pieceIdOf) db).published_deals).map (fun r => r.deal_id)).Nodup ∧
    (∀ e ∈ chain.dealProposals, ∀ found, chain.dealStates e.1 = .ok found →
      ∃ r ∈ failDeals (toFail w.initialDbDeals)
          (ups.foldl (upsertStep pieceIdOf) db).published_deals,
        r.deal_id = int64OfUint64 e.1 ∧ r.status = chainStatus chain.height found e.2) ∧
    (∀ r ∈ failDeals (toFail w.initialDbDeals)
          (ups.foldl (upsertStep pieceIdOf) db).published_deals,
      r.deal_id ∉ walkedIds chain.dealProposals → r.status = "terminated") := by
  obtain ⟨u1, u2, u3, u4⟩ := upsertLoop_rows pieceIdOf ups db hndd
  obtain ⟨_, e2, e3⟩ := walk_each chain.height chain.dealStates chain.dealProposals _ _ hw
  obtain ⟨f1, f2⟩ := fillAllBlanks_keeps _ _ hf
  have hshape := (walk_shape chain.height chain.dealStates chain.dealProposals _ _ hw).1
  dsimp only at hshape e3 e2
  have huniq : ∀ x ∈ chain.dealProposals, ∀ y ∈ chain.dealProposals,
      int64OfUint64 x.1 = int64OfUint64 y.1 → x = y := by
    intro x hx y hy hxy
    exact List.inj_on_of_nodup_map hndc hx hy hxy
  have hupstatus : ∀ d ∈ ups, ∀ e ∈ chain.dealProposals, ∀ found,
      chain.dealStates e.1 = .ok found → d.dealID = int64OfUint64 e.1 →
      d.status = chainStatus chain.height found e.2 := by
    intro d hd e he found hfound hid
    obtain ⟨d0, hd0, h1, h2⟩ := f1 d hd
    rcases e2 d0 hd0 with h | ⟨e', he', found', hf', hid', hst'⟩
    · cases h
    · have hee : e' = e := huniq e' he' e he (by rw [← hid', ← h1, hid])
      subst hee
      rw [hfound] at hf'
      injection hf' with hf'
      subst hf'
      rw [h2, hst']
  have hnotfail : ∀ id ∈ walkedIds chain.dealProposals, id ∉ toFail w.initialDbDeals := by
    intro id hid hmem
    obtain ⟨fd, hfd, _⟩ := (mem_toFail _ _).1 hmem
    rw [hshape] at hfd
    have := (List.mem_filter.1 hfd).2
    simp only [decide_eq_true_eq] at this
    exact this hid
  rw [failDeals_eq_map]
  refine ⟨?_, ?_, ?_⟩
  · rw [List.map_map]
    have : ((fun r : PublishedDeal => r.deal_id) ∘ failDealRow (toFail w.initialDbDeals))
        = fun r => r.deal_id := by
      funext r
      exact failDealRow_id _ r
    rw [this]
    exact u1
  · intro e he found hfound
    have hwalked : int64OfUint64 e.1 ∈ walkedIds chain.dealProposals :=
      List.mem_map.2 ⟨e, he, rfl⟩
    have hkeep : ∀ u : PublishedDeal, u.deal_id = int64OfUint64 e.1 →
        failDealRow (toFail w.initialDbDeals) u = u := by
      intro u hu
      unfold failDealRow
      rw [if_neg]
      rw [hu]
      simp [hnotfail _ hwalked]
    obtain ⟨found', hf', hcase⟩ := e3 e he
    rw [hfound] at hf'
    injection hf' with hf'
    subst hf'
    have hrow : ∃ u ∈ (ups.foldl (upsertStep pieceIdOf) db).published_deals,
        u.deal_id = int64OfUint64 e.1 ∧ u.status = chainStatus chain.height found e.2 := by
      rcases hcase with ⟨d, hd, hid, hst⟩ | ⟨fd, hfd, hst⟩
      · obtain ⟨d', hd', h1, h2⟩ := f2 d hd
        obtain ⟨u, hu, huid⟩ := List.mem_map.1 (u4 d' hd')
        refine ⟨u, hu, by rw [huid, h1, hid], ?_⟩
        rcases u2 u hu with ⟨x, hx, hx1, hx2⟩ | ⟨_, hn⟩
        · rw [← hx2]
          exact hupstatus x hx e he found hfound (by rw [hx1, huid, h1, hid])
        · exact absurd (List.mem_map.2 ⟨d', hd', huid.symm⟩) hn
      · rcases loadDbDeals_mem _ _ _ hfd with h | ⟨r, hr, hrid, hrst⟩
        · cases h
        · obtain ⟨u, hu, huid⟩ := List.mem_map.1 (u3 _ (List.mem_map.2 ⟨r, hr, rfl⟩))
          dsimp only at hrid hrst huid
          refine ⟨u, hu, by rw [huid, hrid], ?_⟩
          rcases u2 u hu with ⟨x, hx, hx1, hx2⟩ | ⟨hudb, _⟩
          · rw [← hx2]
            exact hupstatus x hx e he found hfound (by rw [hx1, huid, hrid])
          · have : u = r := List.inj_on_of_nodup_map hndd hudb hr huid
            rw [this, hrst, hst]
    obtain ⟨u, hu, huid, hust⟩ := hrow
    refine ⟨failDealRow (toFail w.initialDbDeals) u, List.mem_map_of_mem _ hu, ?_, ?_⟩
    · rw [hkeep u huid, huid]
    · rw [hkeep u huid, hust]
  · intro r hr hnw
    obtain ⟨u, hu, hur⟩ := List.mem_map.1 hr
    have huid : u.deal_id = r.deal_id := by rw [← hur, failDealRow_id]
    rcases u2 u hu with ⟨x, hx, hx1, _⟩ | ⟨hudb, _⟩
    · exfalso
      apply hnw
      rw [← huid, ← hx1]
      exact upserts_walked chain datacap _ w ups hw hf _ (List.mem_map_of_mem _ hx)
    · have hget := loadDbDeals_get db.published_deals [] hndd u hudb
      have hmem := mapGet_some_mem _ _ _ hget
      have hmem2 : (u.deal_id, (⟨u.piece_id, u.piece_cid, u.status⟩ : filDeal))
          ∈ w.initialDbDeals := by
        rw [hshape]
        refine List.mem_filter.2 ⟨hmem, ?_⟩
        simp only [decide_eq_true_eq]
        rw [huid]
        exact hnw
      rw [← hur]
      unfold failDealRow
      by_cases hterm : u.status = "terminated"
      · split
        · rfl
        · exact hterm
      · rw [if_pos]
        simp only [Bool.and_eq_true, decide_eq_true_eq]
        exact ⟨(mem_toFail _ _).2 ⟨_, hmem2, hterm⟩, hterm⟩

theorem failRows_settled (s1 s2 : Stamps) (height : Int) (deals : List PublishedDeal)
    (inv : List Int) (p : Proposal)
    (h1 : s1.missed ≠ 0) (h2 : s1.terminated ≠ 0) (h3 : s1.invalid ≠ 0) :
    failInvalidatedRow s2.invalid inv
        (failTerminatedRow s2.terminated deals
          (failMissedStartRow s2.missed height
            (failInvalidatedRow s1.invalid inv
              (failTerminatedRow s1.terminated deals
                (failMissedStartRow s1.missed height p)))))
      = failInvalidatedRow s1.invalid inv
          (failTerminatedRow s1.terminated deals
            (failMissedStartRow s1.missed height p)) := by
  cases ha : p.activated_deal_id with
  | none =>
    by_cases hc : p.proposal_failstamp = 0 ∧ p.start_epoch < subInt64 height EpochsInDay
    · simp [failInvalidatedRow, failTerminatedRow, failMissedStartRow, ha, hc, h1]
    · by_cases hz : p.proposal_failstamp = 0
      · have hc2 : ¬ p.start_epoch < subInt64 height EpochsInDay := fun h => hc ⟨hz, h⟩
        simp [failInvalidatedRow, failTerminatedRow, failMissedStartRow, ha, hz, hc2]
      · simp [failInvalidatedRow, failTerminatedRow, failMissedStartRow, ha, hz]
  | some id =>
    by_cases ht : isTerminatedDeal deals id = true
    · simp [failInvalidatedRow, failTerminatedRow, failMissedStartRow, ha, ht, h2]
    · by_cases hi : p.proposal_failstamp = 0 ∧ id ∈ inv
      · simp [failInvalidatedRow, failTerminatedRow, failMissedStartRow, ha, ht, hi, h3]
      · by_cases hz : p.proposal_failstamp = 0
        · have hi2 : id ∉ inv := fun h => hi ⟨hz, h⟩
          simp [failInvalidatedRow, failTerminatedRow, failMissedStartRow, ha, ht, hz, hi2]
        · simp [failInvalidatedRow, failTerminatedRow, failMissedStartRow, ha, ht, hz]

theorem tenantClients_writeDatacap (clients : List Client) (c : Address) (d : Option Int) :
    tenantClients (writeDatacap clients c d) = tenantClients clients := by
  cases c with
  | robust a => rfl
  | id n =>
    unfold tenantClients writeDatacap
    dsimp only
    induction clients with
    | nil => rfl
    | cons r rest ih =>
      rw [List.map_cons]
      by_cases hr : r.client_id = n
      · rw [if_pos hr]
        cases ht : r.tenant_id with
        | none =>
          rw [List.filter_cons_of_neg (by simp [ht]), List.filter_cons_of_neg (by simp [ht])]
          exact ih
        | some t =>
          rw [List.filter_cons_of_pos (by simp [ht]), List.filter_cons_of_pos (by simp [ht]),
            List.map_cons, List.map_cons, ih]
      · rw [if_neg hr]
        cases ht : r.tenant_id with
        | none =>
          rw [List.filter_cons_of_neg (by simp [ht]), List.filter_cons_of_neg (by simp [ht])]
          exact ih
        | some t =>
          rw [List.filter_cons_of_pos (by simp [ht]), List.filter_cons_of_pos (by simp [ht]),
            List.map_cons, List.map_cons, ih]

theorem tenantClients_writeAllDatacap (dc : List (Address × Option Int)) :
    ∀ clients : List Client, tenantClients (writeAllDatacap clients dc) = tenantClients clients := by
  induction dc with
  | nil => intro clients; rfl
  | cons e rest ih =>
    intro clients
    obtain ⟨c, d⟩ := e
    rw [writeAllDatacap, ih, tenantClients_writeDatacap]

/-- C19: when a run of the reconciler has succeeded (deal ids unique on chain and in the
store, and the clock of the run not at zero), a second run against the same market state
succeeds as well, and in it every chain deal has a previous local status equal to its
computed status, no deal is selected for upsert, no local deal is put on the terminate
list, and the rows of `spd.proposals` and of `spd.published_deals` come out as they went
in. -/
theorem second_run_changes_nothing (chain : ChainView) (pieceIdOf : String → Int)
    (stamps1 stamps2 : Stamps) (db db1 : Store)
    (hrun : trackDeals chain pieceIdOf stamps1 db = .ok db1)
    (hndc : (walkedIds chain.dealProposals).Nodup)
    (hndd : (db.published_deals.map (fun r => r.deal_id)).Nodup)
    (h1 : stamps1.missed ≠ 0) (h2 : stamps1.terminated ≠ 0) (h3 : stamps1.invalid ≠ 0) :
    ∃ datacap w2,
      queryDatacap chain.verifiedClientStatus (tenantClients db1.clients) [] = .ok datacap ∧
      walk chain.height chain.dealStates
        { initialDbDeals := loadDbDeals db1.published_deals [],
          tenantClientDatacap := datacap, toUpsert := [] } chain.dealProposals = .ok w2 ∧
      (∀ e ∈ chain.dealProposals, ∃ found fd, chain.dealStates e.1 = .ok found ∧
        mapGet (loadDbDeals db1.published_deals []) (int64OfUint64 e.1) = some fd ∧
        fd.status = chainStatus chain.height found e.2) ∧
      w2.toUpsert = [] ∧
      toFail w2.initialDbDeals = [] ∧
      ∃ db2, trackDeals chain pieceIdOf stamps2 db1 = .ok db2 ∧
        db2.proposals = db1.proposals ∧ db2.published_deals = db1.published_deals := by
  obtain ⟨datacap, w, ups, hq, hw, hf, hdb1⟩ := trackDeals_ok chain pieceIdOf stamps1 db db1 hrun
  obtain ⟨r1, r2, r3⟩ := reconciled_deals chain pieceIdOf db datacap w ups hw hf hndc hndd
  obtain ⟨fr1, fr2, _⟩ := upsertLoop_frame pieceIdOf ups db
  have hdeals : db1.published_deals = failDeals (toFail w.initialDbDeals)
      (ups.foldl (upsertStep pieceIdOf) db).published_deals := by rw [hdb1]; rfl
  have hclients : db1.clients = writeAllDatacap db.clients w.tenantClientDatacap := by
    rw [hdb1, ← fr2]; rfl
  have hq2 : queryDatacap chain.verifiedClientStatus (tenantClients db1.clients) []
      = .ok datacap := by
    rw [hclients, tenantClients_writeAllDatacap, hq]
  rw [← hdeals] at r1 r2 r3
  have hprev : ∀ e ∈ chain.dealProposals, ∀ found, chain.dealStates e.1 = .ok found →
      ∃ fd, mapGet (loadDbDeals db1.published_deals []) (int64OfUint64 e.1) = some fd ∧
        fd.status = chainStatus chain.height found e.2 := by
    intro e he found hfound
    obtain ⟨r, hr, hid, hst⟩ := r2 e he found hfound
    refine ⟨⟨r.piece_id, r.piece_cid, r.status⟩, ?_, hst⟩
    rw [← hid]
    exact loadDbDeals_get db1.published_deals [] r1 r hr
  obtain ⟨w2, hw2, hups2, hdc2⟩ := walk_settled chain.height chain.dealStates chain.dealProposals
    _ w { initialDbDeals := loadDbDeals db1.published_deals [],
          tenantClientDatacap := datacap, toUpsert := [] } hw rfl hndc hprev
  have hshape2 := (walk_shape chain.height chain.dealStates chain.dealProposals _ _ hw2).1
  dsimp only at hshape2 hups2
  have hfail2 : toFail w2.initialDbDeals = [] := by
    apply List.eq_nil_iff_forall_not_mem.2
    intro id hid
    obtain ⟨fd, hfd, hst⟩ := (mem_toFail _ _).1 hid
    rw [hshape2] at hfd
    obtain ⟨hm, hnw⟩ := List.mem_filter.1 hfd
    simp only [decide_eq_true_eq] at hnw
    rcases loadDbDeals_mem _ _ _ hm with h | ⟨r, hr, hrid, hrst⟩
    · cases h
    · dsimp only at hrid hrst
      apply hst
      rw [← hrst]
      exact r3 r hr (by rw [hrid]; exact hnw)
  refine ⟨datacap, w2, hq2, hw2, ?_, hups2, hfail2, ?_⟩
  · intro e he
    obtain ⟨_, _, e3⟩ := walk_each chain.height chain.dealStates chain.dealProposals _ _ hw
    obtain ⟨found, hfound, _⟩ := e3 e he
    obtain ⟨fd, h4, h5⟩ := hprev e he found hfound
    exact ⟨found, fd, hfound, h4, h5⟩
  · have hrun2 : trackDeals chain pieceIdOf stamps2 db1
        = .ok (reconcileTx pieceIdOf stamps2 chain.height [] [] w2.tenantClientDatacap db1) := by
      unfold trackDeals
      rw [hq2]
      dsimp only
      rw [hw2]
      dsimp only
      rw [hups2, hfail2]
      rfl
    refine ⟨_, hrun2, ?_, rfl⟩
    have hp1 : db1.proposals = failProposals stamps1 chain.height db1.published_deals
        db1.invalidated_deals (ups.foldl (upsertStep pieceIdOf) db).proposals := by
      rw [hdeals, hdb1]
      rfl
    have hp2 : (reconcileTx pieceIdOf stamps2 chain.height [] [] w2.tenantClientDatacap
        db1).proposals = failProposals stamps2 chain.height db1.published_deals
          db1.invalidated_deals db1.proposals := rfl
    rw [hp2, hp1]
    rw [failProposals_eq_map, failProposals_eq_map, List.map_map]
    apply List.map_congr_left
    intro p _
    exact failRows_settled stamps1 stamps2 chain.height db1.published_deals
      db1.invalidated_deals p h1 h2 h3

/-! ### The transaction of the reconciler -/

theorem runs_exec (faults : Nat → Option String) (f : Store → Store) (s : Session) :
    Runs faults (f s.working) s (s.exec faults .tx f) := by
  unfold Runs Session.exec
  cases hf : faults s.issued with
  | some e =>
    dsimp only
    refine ⟨rfl, by omega, fun h => (by cases h), ?_⟩
    intro e' he'
    injection he' with he'
    subst he'
    refine ⟨by omega, by simpa using hf, ?_⟩
    intro n h1 h2
    omega
  | none =>
    dsimp only
    refine ⟨rfl, by omega, fun _ => ⟨rfl, ?_⟩, fun e h => by cases h⟩
    intro n h1 h2
    have : n = s.issued := by omega
    rw [this, hf]

theorem runs_read (faults : Nat → Option String) (s : Session) :
    Runs faults s.working s (s.exec faults .pool (fun st => st)) := by
  unfold Runs Session.exec
  cases hf : faults s.issued with
  | some e =>
    dsimp only
    refine ⟨rfl, by omega, fun h => (by cases h), ?_⟩
    intro e' he'
    injection he' with he'
    subst he'
    refine ⟨by omega, by simpa using hf, ?_⟩
    intro n h1 h2
    omega
  | none =>
    dsimp only
    refine ⟨rfl, by omega, fun _ => ⟨rfl, ?_⟩, fun e h => by cases h⟩
    intro n h1 h2
    have : n = s.issued := by omega
    rw [this, hf]

theorem runs_skip (faults : Nat → Option String) (s : Session) :
    Runs faults s.working s (s, none) := by
  refine ⟨rfl, Nat.le_refl _, fun _ => ⟨rfl, ?_⟩, fun e h => by cases h⟩
  intro n h1 h2
  dsimp only at h2
  omega

theorem runs_andThen (faults : Nat → Option String) (t1 t2 : Store) (s : Session)
    (r1 : Session × Option String) (next : Session → Session × Option String)
    (h1 : Runs faults t1 s r1)
    (h2 : ∀ s1, s1.working = t1 → Runs faults t2 s1 (next s1)) :
    Runs faults t2 s (andThen r1 next) := by
  obtain ⟨s1, _ | e⟩ := r1
  · obtain ⟨a1, a2, a3, _⟩ := h1
    obtain ⟨aw, an⟩ := a3 rfl
    obtain ⟨b1, b2, b3, b4⟩ := h2 s1 aw
    dsimp only at a1 a2 an
    show Runs faults t2 s (next s1)
    refine ⟨by rw [b1, a1], by omega, ?_, ?_⟩
    · intro hn
      obtain ⟨bw, bn⟩ := b3 hn
      refine ⟨bw, ?_⟩
      intro n k1 k2
      by_cases hlt : n < s1.issued
      · exact an n k1 hlt
      · exact bn n (by omega) k2
    · intro e he
      obtain ⟨c1, c2, c3⟩ := b4 e he
      refine ⟨by omega, c2, ?_⟩
      intro n k1 k2
      by_cases hlt : n < s1.issued
      · exact an n k1 hlt
      · exact c3 n (by omega) k2
  · obtain ⟨a1, a2, _, a4⟩ := h1
    show Runs faults t2 s (s1, some e)
    refine ⟨a1, a2, fun h => (by cases h), ?_⟩
    intro e' he'
    exact a4 e' he'

theorem runs_execAll (faults : Nat → Option String) (fs : List (Store → Store)) :
    ∀ s : Session, Runs faults (fs.foldl (fun st f => f st) s.working) s
      (execAll faults .tx fs s) := by
  induction fs with
  | nil => intro s; exact runs_skip faults s
  | cons f rest ih =>
    intro s
    rw [execAll, List.foldl_cons]
    refine runs_andThen faults _ _ s _ _ (runs_exec faults f s) ?_
    intro s1 hs1
    rw [← hs1]
    exact ih s1

theorem becameActive_scanned (d : deal) (pid : Int) :
    becameActive { d with pieceID := pid } = becameActive d := rfl

theorem runs_exec_eq (faults : Nat → Option String) (f : Store → Store) (s : Session)
    (target : Store) (h : f s.working = target) :
    Runs faults target s (s.exec faults .tx f) := by
  rw [← h]
  exact runs_exec faults f s

theorem runs_skip_eq (faults : Nat → Option String) (s : Session) (target : Store)
    (h : s.working = target) : Runs faults target s (s, none) := by
  rw [← h]
  exact runs_skip faults s

theorem runs_upsertAll (faults : Nat → Option String) (pieceIdOf : String → Int)
    (ups : List deal) :
    ∀ s : Session, Runs faults (ups.foldl (upsertStep pieceIdOf) s.working) s
      (upsertAll faults pieceIdOf ups s) := by
  induction ups with
  | nil => intro s; exact runs_skip faults s
  | cons d rest ih =>
    intro s
    rw [upsertAll, List.foldl_cons]
    refine runs_andThen faults _ _ s _ _ (runs_exec faults _ s) ?_
    intro s1 hs1
    refine runs_andThen faults (upsertStep pieceIdOf s.working d) _ s1 _ _ ?_ ?_
    · by_cases hb : becameActive d = true
      · rw [if_pos hb]
        refine runs_exec_eq faults _ s1 _ ?_
        rw [hs1]
        unfold upsertStep linkProposals
        dsimp only
        rw [becameActive_scanned, if_pos hb]
      · rw [if_neg hb]
        refine runs_skip_eq faults s1 _ ?_
        rw [hs1]
        unfold upsertStep linkProposals
        dsimp only
        rw [becameActive_scanned, if_neg hb]
    · intro s2 hs2
      rw [← hs2]
      exact ih s2

theorem runs_exec_at (faults : Nat → Option String) (f : Store → Store) (s : Session)
    (t : Store) (h : s.working = t) : Runs faults (f t) s (s.exec faults .tx f) :=
  runs_exec_eq faults f s (f t) (by rw [h])

theorem runs_upsertAll_at (faults : Nat → Option String) (pieceIdOf : String → Int)
    (ups : List deal) (s : Session) (t : Store) (h : s.working = t) :
    Runs faults (ups.foldl (upsertStep pieceIdOf) t) s (upsertAll faults pieceIdOf ups s) := by
  rw [← h]
  exact runs_upsertAll faults pieceIdOf ups s

theorem runs_failDeals_at (faults : Nat → Option String) (failIds : List Int) (s : Session)
    (t : Store) (h : s.working = t) :
    Runs faults { t with published_deals := failDeals failIds t.published_deals } s
      (if failIds.length > 0 then
        s.exec faults .tx (fun st =>
          { st with published_deals := st.published_deals.map (failDealRow failIds) })
      else (s, none)) := by
  by_cases hc : failIds.length > 0
  · rw [if_pos hc]
    refine runs_exec_eq faults _ s _ ?_
    rw [h]
    unfold failDeals
    rw [if_pos hc]
  · rw [if_neg hc]
    refine runs_skip_eq faults s _ ?_
    rw [h]
    unfold failDeals
    rw [if_neg hc]

theorem foldl_writeDatacap (datacap : List (Address × Option Int)) :
    ∀ st : Store,
      (datacap.map (fun e => fun (st : Store) =>
          { st with clients := writeDatacap st.clients e.1 e.2 })).foldl (fun st f => f st) st
        = { st with clients := writeAllDatacap st.clients datacap } := by
  induction datacap with
  | nil => intro st; rfl
  | cons e rest ih =>
    intro st
    obtain ⟨c, d⟩ := e
    rw [List.map_cons, List.foldl_cons, ih, writeAllDatacap]

theorem runs_datacap_at (faults : Nat → Option String) (datacap : List (Address × Option Int))
    (s : Session) (t : Store) (h : s.working = t) :
    Runs faults { t with clients := writeAllDatacap t.clients datacap } s
      (execAll faults .tx
        (datacap.map (fun e => fun (st : Store) =>
          { st with clients := writeDatacap st.clients e.1 e.2 })) s) := by
  have := runs_execAll faults
    (datacap.map (fun e => fun (st : Store) =>
      { st with clients := writeDatacap st.clients e.1 e.2 })) s
  rw [foldl_writeDatacap, h] at this
  exact this

theorem runs_txBody (faults : Nat → Option String) (pieceIdOf : String → Int) (stamps : Stamps)
    (height : Int) (upserts : List deal) (failIds : List Int)
    (datacap : List (Address × Option Int)) (s : Session) :
    Runs faults (reconcileTx pieceIdOf stamps height upserts failIds datacap s.working) s
      (txBody faults pieceIdOf stamps height upserts failIds datacap s) := by
  unfold txBody
  refine runs_andThen faults _ _ s _ _ (runs_exec_at faults _ s _ rfl) ?_
  intro s1 h1
  refine runs_andThen faults _ _ s1 _ _ (runs_upsertAll_at faults pieceIdOf upserts s1 _ h1) ?_
  intro s2 h2
  refine runs_andThen faults _ _ s2 _ _ (runs_failDeals_at faults failIds s2 _ h2) ?_
  intro s3 h3
  refine runs_andThen faults _ _ s3 _ _ (runs_datacap_at faults datacap s3 _ h3) ?_
  intro s4 h4
  refine runs_andThen faults _ _ s4 _ _ (runs_exec_at faults _ s4 _ h4) ?_
  intro s5 h5
  refine runs_andThen faults _ _ s5 _ _ (runs_exec_at faults _ s5 _ h5) ?_
  intro s6 h6
  refine runs_andThen faults _ _ s6 _ _ (runs_exec_at faults _ s6 _ h6) ?_
  intro s7 h7
  refine runs_andThen faults _ _ s7 _ _ (runs_exec_at faults _ s7 _ h7) ?_
  intro s8 h8
  refine runs_andThen faults _ _ s8 _ _ (runs_exec_at faults _ s8 _ h8) ?_
  intro s9 h9
  have := runs_execAll faults refreshMatviewStmts s9
  rw [h9] at this
  exact this

theorem commits_beginTxFunc (faults : Nat → Option String)
    (body : Session → Session × Option String) (s : Session) (target : Store)
    (hb : Runs faults target { s with working := s.committed, issued := s.issued + 1 }
      (body { s with working := s.committed, issued := s.issued + 1 })) :
    Commits faults target s (beginTxFunc faults body s) := by
  unfold beginTxFunc
  cases hf : faults s.issued with
  | some e =>
    dsimp only
    refine ⟨fun h => (by cases h), ?_⟩
    intro e' he'
    injection he' with he'
    subst he'
    refine ⟨rfl, Nat.lt_succ_self _, by simpa using hf, ?_⟩
    intro n k1 k2
    dsimp only at k2
    omega
  | none =>
    dsimp only
    obtain ⟨b1, b2, b3, b4⟩ := hb
    rcases hbody : body { s with working := s.committed, issued := s.issued + 1 }
      with ⟨s1, _ | e⟩
    · rw [hbody] at b1 b2 b3 b4
      obtain ⟨bw, bn⟩ := b3 rfl
      dsimp only at b1 b2 bw bn ⊢
      have hall : ∀ n, s.issued ≤ n → n < s1.issued → faults n = none := by
        intro n k1 k2
        by_cases hn : n = s.issued
        · rw [hn, hf]
        · exact bn n (by omega) k2
      cases hc : faults s1.issued with
      | some e =>
        dsimp only
        refine ⟨fun h => (by cases h), ?_⟩
        intro e' he'
        injection he' with he'
        subst he'
        refine ⟨b1, (by show s.issued < s1.issued + 1; omega), by simpa using hc, ?_⟩
        intro n k1 k2
        dsimp only at k2
        exact hall n k1 (by omega)
      | none =>
        dsimp only
        refine ⟨fun _ => ⟨bw, ?_⟩, fun e h => (by cases h)⟩
        intro n k1 k2
        dsimp only at k2
        by_cases hn : n = s1.issued
        · rw [hn, hc]
        · exact hall n k1 (by omega)
    · rw [hbody] at b1 b2 b3 b4
      obtain ⟨c1, c2, c3⟩ := b4 e rfl
      dsimp only at b1 b2 c1 c2 c3 ⊢
      refine ⟨fun h => (by cases h), ?_⟩
      intro e' he'
      injection he' with he'
      subst he'
      refine ⟨b1, (by show s.issued < s1.issued; omega), c2, ?_⟩
      intro n k1 k2
      dsimp only at k2
      by_cases hn : n = s.issued
      · rw [hn, hf]
      · exact c3 n (by omega) k2

theorem exec_fault (faults : Nat → Option String) (via : Conn) (f : Store → Store)
    (s : Session) (e : String) (h : faults s.issued = some e) :
    s.exec faults via f = ({ s with issued := s.issued + 1 }, some e) := by
  unfold Session.exec
  rw [h]

theorem exec_read (faults : Nat → Option String) (s : Session)
    (h : faults s.issued = none) :
    s.exec faults .pool (fun st => st) = ({ s with issued := s.issued + 1 }, none) := by
  unfold Session.exec
  rw [h]

/-- C20: every write of a run of `track-deals` is issued inside the one transaction: a run
that returns an error leaves the committed store as it was before the run, and that
error is either the error of the chain queries, the walk or the blanks, raised before
the transaction, or the error of the first statement that failed, at which the run
stopped; a run that returns no error had no failing statement and commits the store of
`trackDeals`. -/
theorem reconcile_is_atomic (chain : ChainView) (pieceIdOf : String → Int) (stamps : Stamps)
    (faults : Nat → Option String) (db : Store) :
    (∀ e, (trackDealsRun chain pieceIdOf stamps faults db).err = some e →
      (trackDealsRun chain pieceIdOf stamps faults db).store = db ∧
      ((trackDeals chain pieceIdOf stamps db = .error e ∧
          ∀ n, n < (trackDealsRun chain pieceIdOf stamps faults db).issued → faults n = none) ∨
        (0 < (trackDealsRun chain pieceIdOf stamps faults db).issued ∧
          faults ((trackDealsRun chain pieceIdOf stamps faults db).issued - 1) = some e ∧
          ∀ n, n < (trackDealsRun chain pieceIdOf stamps faults db).issued - 1 →
            faults n = none))) ∧
    ((trackDealsRun chain pieceIdOf stamps faults db).err = none →
      trackDeals chain pieceIdOf stamps db
          = .ok (trackDealsRun chain pieceIdOf stamps faults db).store ∧
        ∀ n, n < (trackDealsRun chain pieceIdOf stamps faults db).issued → faults n = none) := by
  unfold trackDealsRun
  cases h0 : faults 0 with
  | some e0 =>
    rw [exec_fault faults _ _ _ e0 h0]
    refine ⟨?_, fun h => (by cases h)⟩
    intro e he
    injection he with he
    subst he
    refine ⟨rfl, Or.inr ⟨Nat.one_pos, h0, ?_⟩⟩
    intro n hn
    exact absurd hn (Nat.not_lt_zero _)
  | none =>
    rw [exec_read faults _ h0]
    simp only [andThen]
    cases hq : queryDatacap chain.verifiedClientStatus (tenantClients db.clients) [] with
    | error eq =>
      refine ⟨?_, fun h => (by cases h)⟩
      intro e he
      injection he with he
      subst he
      refine ⟨rfl, Or.inl ⟨by unfold trackDeals; rw [hq], ?_⟩⟩
      intro n hn
      have : n = 0 := Nat.lt_one_iff.1 hn
      rw [this, h0]
    | ok datacap =>
      dsimp only
      cases h1 : faults 1 with
      | some e1 =>
        rw [exec_fault faults _ _ _ e1 h1]
        refine ⟨?_, fun h => (by cases h)⟩
        intro e he
        injection he with he
        subst he
        refine ⟨rfl, Or.inr ⟨Nat.succ_pos _, h1, ?_⟩⟩
        intro n hn
        have : n = 0 := Nat.lt_one_iff.1 hn
        rw [this, h0]
      | none =>
        rw [exec_read faults _ h1]
        dsimp only
        have h01 : ∀ n, n < 2 → faults n = none := by
          intro n hn
          rcases Nat.lt_or_ge n 1 with h | h
          · rw [Nat.lt_one_iff.1 h, h0]
          · have : n = 1 := by omega
            rw [this, h1]
        cases hw : walk chain.height chain.dealStates
            { initialDbDeals := loadDbDeals db.published_deals [],
              tenantClientDatacap := datacap, toUpsert := [] } chain.dealProposals with
        | error ew =>
          refine ⟨?_, fun h => (by cases h)⟩
          intro e he
          injection he with he
          subst he
          exact ⟨rfl, Or.inl ⟨by unfold trackDeals; rw [hq]; dsimp only; rw [hw], h01⟩⟩
        | ok w =>
          dsimp only
          cases hfb : fillAllBlanks w.toUpsert with
          | error ef =>
            refine ⟨?_, fun h => (by cases h)⟩
            intro e he
            injection he with he
            subst he
            exact ⟨rfl, Or.inl ⟨by
              unfold trackDeals; rw [hq]; dsimp only; rw [hw]; dsimp only; rw [hfb], h01⟩⟩
          | ok upserts =>
            dsimp only
            have hrun : trackDeals chain pieceIdOf stamps db
                = .ok (reconcileTx pieceIdOf stamps chain.height upserts
                    (toFail w.initialDbDeals) w.tenantClientDatacap db) := by
              unfold trackDeals; rw [hq]; dsimp only; rw [hw]; dsimp only; rw [hfb]
            obtain ⟨c1, c2⟩ := commits_beginTxFunc faults
              (txBody faults pieceIdOf stamps chain.height upserts (toFail w.initialDbDeals)
                w.tenantClientDatacap)
              { committed := db, working := db, issued := 0 + 1 + 1 }
              (reconcileTx pieceIdOf stamps chain.height upserts (toFail w.initialDbDeals)
                w.tenantClientDatacap db)
              (runs_txBody faults pieceIdOf stamps chain.height upserts
                (toFail w.initialDbDeals) w.tenantClientDatacap _)
            refine ⟨?_, ?_⟩
            · intro e he
              obtain ⟨k1, k2, k3, k4⟩ := c2 e he
              dsimp only at k1 k2 k4
              refine ⟨k1, Or.inr ⟨by unfold RunResult.of; dsimp only; omega, k3, ?_⟩⟩
              intro n hn
              by_cases hlt : n < 2
              · exact h01 n hlt
              · exact k4 n (by omega) hn
            · intro he
              obtain ⟨k1, k2⟩ := c1 he
              dsimp only at k2
              refine ⟨by rw [hrun]; unfold RunResult.of; dsimp only; rw [k1], ?_⟩
              intro n hn
              by_cases hlt : n < 2
              · exact h01 n hlt
              · exact k2 n (by omega) hn

/-! ### The flag `size_proven_correct` -/

theorem markProven_stable (deals : List PublishedDeal) (pieces : List Piece) (k : Nat)
    (r : Piece) (hk : pieces[k]? = some r) (hp : sizeProven r.piece_meta = true) :
    (markProven deals pieces)[k]? = some r := by
  unfold markProven
  rw [List.getElem?_map, hk, Option.map_some', if_pos hp]

theorem getElem?_of_isPrefix {α : Type} (l1 l2 : List α) (h : l1 <+: l2) (k : Nat) (r : α)
    (hk : l1[k]? = some r) : l2[k]? = some r := by
  obtain ⟨t, ht⟩ := h
  rw [← ht]
  have hlt : k < l1.length := by
    rcases Nat.lt_or_ge k l1.length with h1 | h1
    · exact h1
    · rw [List.getElem?_eq_none h1] at hk
      cases hk
  rw [List.getElem?_append_left hlt, hk]

theorem insertPiece_grows (cid : String) (log2Size : Nat) (piece_meta : JsonObj)
    (pieces : List Piece) : pieces <+: insertPiece cid log2Size piece_meta pieces := by
  unfold insertPiece
  split
  · exact List.prefix_refl _
  · exact List.prefix_append _ _

theorem insertSegment_pieces (aggCid segCid : String) (position : Nat) (db db' : PieceStore)
    (h : insertSegment aggCid segCid position db = .ok db') : db'.pieces = db.pieces := by
  unfold insertSegment at h
  split at h
  · split at h
    · injection h with h
      rw [← h]
    · injection h with h
      rw [← h]
  · cases h

theorem insertClaim_pieces (aggCid : String) (tenant : Int) (db db' : PieceStore)
    (h : insertClaim aggCid tenant db = .ok db') : db'.pieces = db.pieces := by
  unfold insertClaim at h
  split at h
  · split at h
    · injection h with h
      rw [← h]
    · injection h with h
      rw [← h]
  · cases h

theorem insertSegments_grows (aggCid : String) (segs : List CommP) :
    ∀ (i : Nat) (db db' : PieceStore), insertSegments aggCid i segs db = .ok db' →
      db.pieces <+: db'.pieces := by
  induction segs with
  | nil =>
    intro i db db' h
    simp only [insertSegments] at h
    injection h with h
    rw [← h]
  | cons g rest ih =>
    intro i db db' h
    rw [insertSegments] at h
    cases hs : insertSegment aggCid g.pcidV2 i
        { db with pieces := insertPiece g.pcidV2 g.log2Size [] db.pieces } with
    | error e => rw [hs] at h; cases h
    | ok db1 =>
      rw [hs] at h
      have h1 := insertSegment_pieces _ _ _ _ _ hs
      have h2 := ih (i + 1) db1 db' h
      rw [h1] at h2
      exact List.IsPrefix.trans (insertPiece_grows _ _ _ _) h2

theorem ingestAggregate_grows (tenant : Int) (agg : Aggregate) (db db' : PieceStore)
    (h : ingestAggregate tenant agg db = .ok db') : db.pieces <+: db'.pieces := by
  unfold ingestAggregate at h
  split at h
  · cases h
  · rename_i db1 hs
    have h1 := insertSegments_grows _ _ _ _ _ hs
    have h2 := insertClaim_pieces _ _ _ _ h
    rw [h2]
    exact List.IsPrefix.trans (insertPiece_grows _ _ _ _) h1

theorem ingestObjects_grows (aggregate : Nat → List PieceInfo → Except String String)
    (src : BulkPieceSource) (tenant : Int) (objs : List (Except String Aggregate)) :
    ∀ db : PieceStore, db.pieces <+: (ingestObjects aggregate src tenant objs db).1.pieces := by
  induction objs with
  | nil => intro db; exact List.prefix_refl _
  | cons o rest ih =>
    intro db
    rw [ingestObjects]
    cases ho : ingestObject aggregate src tenant o db with
    | error e => exact List.prefix_refl _
    | ok db1 =>
      dsimp only
      refine List.IsPrefix.trans ?_ (ih db1)
      cases o with
      | error e => simp [ingestObject] at ho
      | ok agg =>
        exact ingestAggregate_grows tenant agg db db1
          (ingestObject_ok_cid aggregate src tenant agg db db1 ho).2

theorem ingestPages_grows (aggregate : Nat → List PieceInfo → Except String String)
    (src : BulkPieceSource) (tenant : Int)
    (pages : List (Except String (List (Except String Aggregate)))) :
    ∀ db : PieceStore, db.pieces <+: (ingestPages aggregate src tenant pages db).1.pieces := by
  induction pages with
  | nil => intro db; exact List.prefix_refl _
  | cons pg rest ih =>
    intro db
    cases pg with
    | error e => exact List.prefix_refl _
    | ok objs =>
      rw [ingestPages]
      have h1 := ingestObjects_grows aggregate src tenant objs db
      rcases ho : ingestObjects aggregate src tenant objs db with ⟨db1, _ | e⟩
      · rw [ho] at h1
        exact List.IsPrefix.trans h1 (ih db1)
      · rw [ho] at h1
        exact h1

theorem ingestDays_grows (env : PollEnv) (src : BulkPieceSource) (tenant : Int)
    (days : List Int) :
    ∀ db : PieceStore, db.pieces <+: (ingestDays env src tenant days db).1.pieces := by
  induction days with
  | nil => intro db; exact List.prefix_refl _
  | cons d rest ih =>
    intro db
    rw [ingestDays]
    have h1 := ingestPages_grows env.aggregate src tenant (env.listing tenant d) db
    rcases ho : ingestPages env.aggregate src tenant (env.listing tenant d) db with ⟨db1, _ | e⟩
    · rw [ho] at h1
      exact List.IsPrefix.trans h1 (ih db1)
    · rw [ho] at h1
      exact h1

theorem ingestTenant_grows (env : PollEnv) (days : List Int) (t : Int × BulkPieceSource)
    (db : PieceStore) : db.pieces <+: (ingestTenant env days t db).1.pieces := by
  unfold ingestTenant
  split
  · exact List.prefix_refl _
  · split
    · exact List.prefix_refl _
    · split
      · exact List.prefix_refl _
      · split
        · exact List.prefix_refl _
        · have h1 := ingestDays_grows env t.2 t.1 days db
          split
          · rename_i db1 e ho
            rw [ho] at h1
            exact h1
          · rename_i db1 ho
            rw [ho] at h1
            exact h1

theorem ingestTenants_grows (env : PollEnv) (days : List Int)
    (ts : List (Int × BulkPieceSource)) :
    ∀ db : PieceStore, db.pieces <+: (ingestTenants env days ts db).1.pieces := by
  induction ts with
  | nil => intro db; exact List.prefix_refl _
  | cons t rest ih =>
    intro db
    rw [ingestTenants]
    have h1 := ingestTenant_grows env days t db
    rcases ho : ingestTenant env days t db with ⟨db1, _ | e | e⟩
    · rw [ho] at h1
      exact List.IsPrefix.trans h1 (ih db1)
    · rw [ho] at h1
      exact h1
    · rw [ho] at h1
      exact h1

theorem bulkPiecePoll_grows (env : PollEnv) (skipEntriesAgedDays : Nat) (db : PieceStore) :
    db.pieces <+: (bulkPiecePoll env skipEntriesAgedDays db).store.pieces := by
  have hbody : db.pieces <+: (pollBody env skipEntriesAgedDays db).1.pieces := by
    unfold pollBody
    split
    · exact List.prefix_refl _
    · exact ingestTenants_grows env _ _ db
  unfold bulkPiecePoll
  rcases hb : pollBody env skipEntriesAgedDays db with ⟨db1, _ | e | e⟩
  · rw [hb] at hbody
    dsimp only
    split
    · exact hbody
    · exact hbody
  · rw [hb] at hbody
    exact hbody
  · rw [hb] at hbody
    exact hbody

/-- C21: a piece whose meta has `size_proven_correct = true` keeps its row, flag and
log2 size included, through a run of the reconciler and through a run of the bulk
ingester. -/
theorem size_proven_never_reverts (chain : ChainView) (pieceIdOf : String → Int)
    (stamps : Stamps) (db db' : Store) (env : PollEnv) (skipEntriesAgedDays : Nat)
    (pdb : PieceStore) (k : Nat) (r : Piece) (hp : sizeProven r.piece_meta = true) :
    (trackDeals chain pieceIdOf stamps db = .ok db' → db.pieces[k]? = some r →
      db'.pieces[k]? = some r) ∧
    (pdb.pieces[k]? = some r →
      (bulkPiecePoll env skipEntriesAgedDays pdb).store.pieces[k]? = some r) := by
  refine ⟨?_, ?_⟩
  · intro hrun hk
    obtain ⟨datacap, w, ups, _, _, _, hdb⟩ := trackDeals_ok chain pieceIdOf stamps db db' hrun
    obtain ⟨_, _, fr3⟩ := upsertLoop_frame pieceIdOf ups db
    have hpieces : db'.pieces = markProven
        (failDeals (toFail w.initialDbDeals) (ups.foldl (upsertStep pieceIdOf) db).published_deals)
        db.pieces := by
      rw [hdb, ← fr3]
      rfl
    rw [hpieces]
    exact markProven_stable _ _ k r hk hp
  · intro hk
    exact getElem?_of_isPrefix _ _ (bulkPiecePoll_grows env skipEntriesAgedDays pdb) k r hk

/-! ### The error codes of the web API -/

/-- C22: the constants of `APIErrorCode` carry the values of the table of the
specification, name by name; the sixteen values are pairwise distinct; and `apiSpStatus`
fails with `ErrSystemTemporarilyDisabled`, which is 4503, for every caller. -/
theorem api_error_codes_match_table :
    apiErrorCodes = specErrorTable ∧
    apiErrorCodes.length = 16 ∧
    (apiErrorCodes.map Prod.snd).Nodup ∧
    (∀ (ρ : Type) (retFail : APIErrorCode → String → List String → ρ) (actor : String),
      apiSpStatus retFail actor = retFail 4503 spStatusFormat [actor]) := by
  refine ⟨by decide, by decide, by decide, ?_⟩
  intro ρ retFail actor
  rfl

/-! ### The datacap written to the client records -/

theorem bigInt64_of_int64 (v : Int) (h0 : -(2 ^ 63) ≤ v) (h1 : v < 2 ^ 63) : bigInt64 v = v := by
  rcases Int.lt_or_le v 0 with hneg | hpos
  · unfold bigInt64
    have hn : ((v.natAbs % 2 ^ 64 : Nat) : Int) = -v := by omega
    simp only [hn]
    rw [if_pos hneg]
    unfold wrapInt64
    omega
  · exact bigInt64_of_inRange v hpos h1

theorem writeDatacap_getElem (clients : List Client) (c : Address) (d : Option Int) (k : Nat)
    (r : Client) (hk : clients[k]? = some r) :
    (writeDatacap clients c d)[k]? =
      some (if c = .id r.client_id then
        { r with client_meta :=
            jsonbSet r.client_meta "activatable_datacap" (.num (datacapToWrite c d)) }
      else r) := by
  cases c with
  | robust s =>
    rw [if_neg (by intro h; cases h)]
    exact hk
  | id n =>
    unfold writeDatacap
    dsimp only
    rw [List.getElem?_map, hk, Option.map_some']
    by_cases hn : r.client_id = n
    · rw [if_pos hn, if_pos (by rw [hn])]
    · rw [if_neg hn, if_neg (by intro h; injection h with h; exact hn h.symm)]

theorem writeAllDatacap_keep (dc : List (Address × Option Int)) :
    ∀ (clients : List Client) (k : Nat) (r : Client), clients[k]? = some r →
      Address.id r.client_id ∉ dc.map Prod.fst →
      (writeAllDatacap clients dc)[k]? = some r := by
  induction dc with
  | nil => intro clients k r hk _; exact hk
  | cons e rest ih =>
    intro clients k r hk hn
    obtain ⟨c, d⟩ := e
    simp only [List.map_cons, List.mem_cons, not_or] at hn
    rw [writeAllDatacap]
    refine ih _ k r ?_ hn.2
    rw [writeDatacap_getElem clients c d k r hk, if_neg (fun h => hn.1 h.symm)]

theorem writeAllDatacap_written (dc : List (Address × Option Int)) :
    ∀ (clients : List Client) (k : Nat) (r : Client) (d : Option Int),
      (dc.map Prod.fst).Nodup → clients[k]? = some r →
      mapGet dc (.id r.client_id) = some d →
      ∃ r', (writeAllDatacap clients dc)[k]? = some r' ∧ r'.client_id = r.client_id ∧
        r'.tenant_id = r.tenant_id ∧
        mapGet r'.client_meta "activatable_datacap"
          = some (.num (datacapToWrite (.id r.client_id) d)) := by
  induction dc with
  | nil => intro clients k r d _ _ hg; cases hg
  | cons e rest ih =>
    intro clients k r d hnd hk hg
    obtain ⟨c, d0⟩ := e
    simp only [List.map_cons, List.nodup_cons] at hnd
    rw [writeAllDatacap]
    have hrow := writeDatacap_getElem clients c d0 k r hk
    by_cases hc : c = .id r.client_id
    · rw [mapGet, if_pos hc] at hg
      injection hg with hg
      subst hg
      rw [if_pos hc] at hrow
      refine ⟨_, writeAllDatacap_keep rest _ k _ hrow (by rw [← hc]; exact hnd.1), rfl, rfl, ?_⟩
      rw [hc]
      exact mapGet_mapSet_self _ _ _
    · rw [mapGet, if_neg hc] at hg
      rw [if_neg hc] at hrow
      exact ih _ k r d hnd.2 hrow hg

theorem mem_tenantClients (clients : List Client) (r : Client) (hr : r ∈ clients)
    (ht : r.tenant_id.isSome = true) : r.client_id ∈ tenantClients clients := by
  unfold tenantClients
  exact List.mem_map.2 ⟨r, List.mem_filter.2 ⟨hr, ht⟩, rfl⟩

/-- C24 (as amended): in a run that succeeds, each tracked client has an entry in the
projection of the walk, and its record gets `activatable_datacap` written from that
entry: the projected value itself when it fits a signed 64-bit integer and the client is
neither `f01151139` nor `f02090659`, zero for these two clients, and zero when the chain
datacap is unknown. -/
theorem written_datacap_is_projection (chain : ChainView) (pieceIdOf : String → Int)
    (stamps : Stamps) (db db' : Store)
    (hrun : trackDeals chain pieceIdOf stamps db = .ok db')
    (k : Nat) (r : Client) (hk : db.clients[k]? = some r) (ht : r.tenant_id.isSome = true) :
    ∃ datacap w d r',
      queryDatacap chain.verifiedClientStatus (tenantClients db.clients) [] = .ok datacap ∧
      walk chain.height chain.dealStates
        { initialDbDeals := loadDbDeals db.published_deals [],
          tenantClientDatacap := datacap, toUpsert := [] } chain.dealProposals = .ok w ∧
      mapGet w.tenantClientDatacap (asFilAddr r.client_id) = some d ∧
      db'.clients[k]? = some r' ∧
      mapGet r'.client_meta "activatable_datacap"
        = some (.num (datacapToWrite (asFilAddr r.client_id) d)) ∧
      (r.client_id ≠ 1151139 → r.client_id ≠ 2090659 →
        ∀ v, d = some v → -(2 ^ 63) ≤ v → v < 2 ^ 63 →
          datacapToWrite (asFilAddr r.client_id) d = v) ∧
      (r.client_id = 1151139 ∨ r.client_id = 2090659 →
        datacapToWrite (asFilAddr r.client_id) d = 0) ∧
      (d = none → datacapToWrite (asFilAddr r.client_id) d = 0) ∧
      (chain.verifiedClientStatus (asFilAddr r.client_id) = .ok none → d = none) := by
  obtain ⟨datacap, w, ups, hq, hw, _, hdb⟩ := trackDeals_ok chain pieceIdOf stamps db db' hrun
  obtain ⟨_, fr2, _⟩ := upsertLoop_frame pieceIdOf ups db
  have hclients : db'.clients = writeAllDatacap db.clients w.tenantClientDatacap := by
    rw [hdb, ← fr2]
    rfl
  obtain ⟨hnd, _⟩ := queryDatacap_keys chain.verifiedClientStatus (tenantClients db.clients) []
    datacap hq List.nodup_nil
  obtain ⟨hkeys, hnone⟩ := walk_datacap_keys chain.height chain.dealStates chain.dealProposals
    _ w hw
  dsimp only at hkeys hnone
  have hmem : r.client_id ∈ tenantClients db.clients :=
    mem_tenantClients db.clients r (List.getElem?_mem hk) ht
  have hcov := queryDatacap_covers chain.verifiedClientStatus (tenantClients db.clients) []
    datacap hq r.client_id hmem
  have hkey : asFilAddr r.client_id ∈ w.tenantClientDatacap.map Prod.fst := by
    rw [hkeys]
    exact (mapGet_isSome_iff datacap _).1 hcov
  have hsome := (mapGet_isSome_iff w.tenantClientDatacap _).2 hkey
  cases hd : mapGet w.tenantClientDatacap (asFilAddr r.client_id) with
  | none => rw [hd] at hsome; cases hsome
  | some d =>
    obtain ⟨r', h1, _, _, h4⟩ := writeAllDatacap_written w.tenantClientDatacap db.clients k r d
      (by rw [hkeys]; exact hnd) hk hd
    refine ⟨datacap, w, d, r', hq, hw, hd, by rw [hclients]; exact h1, h4, ?_, ?_, ?_, ?_⟩
    · intro n1 n2 v hv h0 h1
      subst hv
      unfold datacapToWrite asFilAddr
      dsimp only
      rw [if_neg, bigInt64_of_int64 v h0 h1]
      rintro (h | h)
      · injection h with h
        exact n1 h
      · injection h with h
        exact n2 h
    · intro hz
      unfold datacapToWrite asFilAddr
      dsimp only
      rw [if_pos]
      rcases hz with h | h
      · exact Or.inl (by rw [h])
      · exact Or.inr (by rw [h])
    · intro hv
      subst hv
      unfold datacapToWrite
      dsimp only
      split <;> rfl
    · intro hch
      have hg := queryDatacap_get chain.verifiedClientStatus (tenantClients db.clients) datacap
        hq r.client_id hmem none hch
      have := hnone _ hg
      rw [hd] at this
      injection this

/-- C24 (as stated) fails: the tracked client `f01151139` has a projected datacap of 100
after the walk, and the run writes 0 into its record. -/
theorem zeroed_client_written_zero :
    ∃ db w, trackDeals datacap100Chain (fun _ => 1) sampleStamps zeroedStore = .ok db ∧
      walk 6000 noStates
        { initialDbDeals := [], tenantClientDatacap := [(.id 1151139, some 100)], toUpsert := [] }
        [] = .ok w ∧
      mapGet w.tenantClientDatacap (asFilAddr 1151139) = some (some 100) ∧
      activatableDatacap db = [some (.num 0)] := by
  refine ⟨_, _, rfl, rfl, by decide, ?_⟩
  rfl

/-! ### The log2 size of an upserted deal -/

theorem find?_of_filter_singleton {α : Type} (p : α → Bool) (l : List α) (a : α)
    (h : l.filter p = [a]) : l.find? p = some a := by
  induction l with
  | nil => simp at h
  | cons x xs ih =>
    by_cases hx : p x = true
    · rw [List.filter_cons_of_pos hx] at h
      injection h with h1 _
      rw [List.find?_cons_of_pos _ hx, h1]
    · rw [List.filter_cons_of_neg hx] at h
      rw [List.find?_cons_of_neg _ hx]
      exact ih h

theorem two_pow_trailingZeros64 (n : Nat) (hn : n < 2 ^ 64) (h1 : onesCount64 n = 1) :
    2 ^ trailingZeros64 n = n := by
  unfold onesCount64 at h1
  obtain ⟨i, hi⟩ := List.length_eq_one.1 h1
  have hfind := find?_of_filter_singleton _ _ i hi
  have hmem : i ∈ (List.range 64).filter (fun i => n.testBit i) := by
    rw [hi]
    exact List.mem_singleton.2 rfl
  obtain ⟨hi64, hbit⟩ := List.mem_filter.1 hmem
  have htz : trailingZeros64 n = i := by
    unfold trailingZeros64
    rw [hfind]
    rfl
  rw [htz]
  apply Nat.eq_of_testBit_eq
  intro j
  rw [Nat.testBit_two_pow]
  by_cases hij : i = j
  · subst hij
    rw [hbit]
    simp
  · rw [decide_eq_false hij]
    cases hb : n.testBit j with
    | false => rfl
    | true =>
      exfalso
      rcases Nat.lt_or_ge j 64 with hj | hj
      · have : j ∈ (List.range 64).filter (fun i => n.testBit i) :=
          List.mem_filter.2 ⟨List.mem_range.2 hj, hb⟩
        rw [hi] at this
        exact hij (List.mem_singleton.1 this).symm
      · have hlt : n < 2 ^ j := Nat.lt_of_lt_of_le hn (Nat.pow_le_pow_right (by decide) hj)
        rw [Nat.testBit_lt_two_pow hlt] at hb
        cases hb

theorem fillBlanks_size (d d' : deal) (hf : fillBlanks d = .ok d') :
    d'.proposal = d.proposal ∧ onesCount64 d.proposal.PieceSize = 1 ∧
      d'.pieceLog2Size = trailingZeros64 d.proposal.PieceSize := by
  unfold fillBlanks at hf
  cases h1 : d.proposal.Client.parseActor with
  | error e => rw [h1] at hf; cases hf
  | ok c =>
    rw [h1] at hf
    cases h2 : d.proposal.Provider.parseActor with
    | error e => rw [h2] at hf; cases hf
    | ok q =>
      rw [h2] at hf
      dsimp only at hf
      split at hf
      · cases hf
      · rename_i hone
        injection hf with hf
        subst hf
        exact ⟨rfl, by simpa using hone, rfl⟩

theorem fillBlanks_bad_size (d : deal) (h : onesCount64 d.proposal.PieceSize ≠ 1) :
    ∃ e, fillBlanks d = .error e := by
  cases hf : fillBlanks d with
  | error e => exact ⟨e, rfl⟩
  | ok d' => exact absurd (fillBlanks_size d d' hf).2.1 h

theorem fillAllBlanks_sizes (l : List deal) :
    ∀ l', fillAllBlanks l = .ok l' →
      ∀ d' ∈ l', ∃ d ∈ l, d'.proposal = d.proposal ∧ onesCount64 d.proposal.PieceSize = 1 ∧
        d'.pieceLog2Size = trailingZeros64 d.proposal.PieceSize := by
  induction l with
  | nil =>
    intro l' h
    simp only [fillAllBlanks] at h
    injection h with h
    subst h
    intro d' hd'
    cases hd'
  | cons d rest ih =>
    intro l' h
    simp only [fillAllBlanks] at h
    cases hf : fillBlanks d with
    | error e => rw [hf] at h; cases h
    | ok d1 =>
      rw [hf] at h
      cases hr : fillAllBlanks rest with
      | error e => rw [hr] at h; cases h
      | ok rest' =>
        rw [hr] at h
        injection h with h
        subst h
        intro x hx
        rcases List.mem_cons.1 hx with hx | hx
        · subst hx
          exact ⟨d, List.mem_cons_self _ _, fillBlanks_size d x hf⟩
        · obtain ⟨y, hy, hxy⟩ := ih rest' hr x hx
          exact ⟨y, List.mem_cons_of_mem _ hy, hxy⟩

theorem fillAllBlanks_bad_size (l : List deal) (d : deal) (hd : d ∈ l)
    (h : onesCount64 d.proposal.PieceSize ≠ 1) : ∃ e, fillAllBlanks l = .error e := by
  cases hf : fillAllBlanks l with
  | error e => exact ⟨e, rfl⟩
  | ok l' =>
    exfalso
    obtain ⟨k1, k2⟩ := fillAllBlanks_keeps l l' hf
    clear k1
    induction l generalizing l' with
    | nil => cases hd
    | cons x rest ih =>
      simp only [fillAllBlanks] at hf
      cases hx : fillBlanks x with
      | error e => rw [hx] at hf; cases hf
      | ok x1 =>
        rw [hx] at hf
        cases hr : fillAllBlanks rest with
        | error e => rw [hr] at hf; cases hf
        | ok rest' =>
          rcases List.mem_cons.1 hd with hd | hd
          · subst hd
            exact h (fillBlanks_size d x1 hx).2.1
          · exact ih hd rest' hr (fillAllBlanks_keeps rest rest' hr).2

theorem upsertDeal_new_row (pieceIdOf : String → Int) (d : deal) (deals : List PublishedDeal)
    (hnew : d.dealID ∉ deals.map (fun r => r.deal_id)) :
    ∃ row ∈ (upsertDeal pieceIdOf d deals).1,
      row.deal_id = d.dealID ∧ row.claimed_log2_size = d.pieceLog2Size := by
  induction deals with
  | nil => exact ⟨_, List.mem_singleton.2 rfl, rfl, rfl⟩
  | cons r rest ih =>
    simp only [List.map_cons, List.mem_cons, not_or] at hnew
    rw [upsertDeal, if_neg (fun h => hnew.1 h.symm)]
    obtain ⟨row, hrow, h1, h2⟩ := ih hnew.2
    exact ⟨row, List.mem_cons_of_mem _ hrow, h1, h2⟩

theorem trackDealsRun_blanks_error (chain : ChainView) (pieceIdOf : String → Int)
    (stamps : Stamps) (faults : Nat → Option String) (db : Store)
    (datacap : List (Address × Option Int)) (w : WalkState) (e : String)
    (hq : queryDatacap chain.verifiedClientStatus (tenantClients db.clients) [] = .ok datacap)
    (hw : walk chain.height chain.dealStates
      { initialDbDeals := loadDbDeals db.published_deals [],
        tenantClientDatacap := datacap, toUpsert := [] } chain.dealProposals = .ok w)
    (hf : fillAllBlanks w.toUpsert = .error e) :
    (trackDealsRun chain pieceIdOf stamps faults db).err ≠ none ∧
    (trackDealsRun chain pieceIdOf stamps faults db).store = db ∧
    (trackDealsRun chain pieceIdOf stamps faults db).issued ≤ 2 := by
  unfold trackDealsRun
  cases h0 : faults 0 with
  | some e0 =>
    rw [exec_fault faults _ _ _ e0 h0]
    exact ⟨by simp [andThen, RunResult.of], rfl, by simp [andThen, RunResult.of]⟩
  | none =>
    rw [exec_read faults _ h0]
    simp only [andThen]
    rw [hq]
    dsimp only
    cases h1 : faults 1 with
    | some e1 =>
      rw [exec_fault faults _ _ _ e1 h1]
      exact ⟨by simp [RunResult.of], rfl, by simp [RunResult.of]⟩
    | none =>
      rw [exec_read faults _ h1]
      dsimp only
      rw [hw]
      dsimp only
      rw [hf]
      exact ⟨by simp [RunResult.of], rfl, by simp [RunResult.of]⟩

/-- C25: when a chain deal selected for upsert has a piece size whose 64-bit
representation does not have exactly one bit set, the run returns an error with the
store as it was and without having opened the transaction; when the blanks are filled
for all selected deals, each has a piece size with exactly one bit set, its log2 size
`L` is the count of trailing zero bits with `2 ^ L = PieceSize`, and `L` is the claimed
log2 size of the row inserted for a deal new to the store. -/
theorem upsert_size_is_power_of_two (chain : ChainView) (pieceIdOf : String → Int)
    (stamps : Stamps) (faults : Nat → Option String) (db : Store)
    (datacap : List (Address × Option Int)) (w : WalkState)
    (hq : queryDatacap chain.verifiedClientStatus (tenantClients db.clients) [] = .ok datacap)
    (hw : walk chain.height chain.dealStates
      { initialDbDeals := loadDbDeals db.published_deals [],
        tenantClientDatacap := datacap, toUpsert := [] } chain.dealProposals = .ok w) :
    (∀ d ∈ w.toUpsert, onesCount64 d.proposal.PieceSize ≠ 1 →
      (∃ e, trackDeals chain pieceIdOf stamps db = .error e) ∧
      (trackDealsRun chain pieceIdOf stamps faults db).err ≠ none ∧
      (trackDealsRun chain pieceIdOf stamps faults db).store = db ∧
      (trackDealsRun chain pieceIdOf stamps faults db).issued ≤ 2) ∧
    (∀ ups, fillAllBlanks w.toUpsert = .ok ups → ∀ d' ∈ ups,
      (∃ d ∈ w.toUpsert, d'.proposal = d.proposal) ∧
      onesCount64 d'.proposal.PieceSize = 1 ∧
      d'.pieceLog2Size = trailingZeros64 d'.proposal.PieceSize ∧
      (d'.proposal.PieceSize < 2 ^ 64 → 2 ^ d'.pieceLog2Size = d'.proposal.PieceSize) ∧
      (∀ deals : List PublishedDeal, d'.dealID ∉ deals.map (fun r => r.deal_id) →
        ∃ row ∈ (upsertDeal pieceIdOf d' deals).1,
          row.deal_id = d'.dealID ∧ row.claimed_log2_size = d'.pieceLog2Size)) := by
  refine ⟨?_, ?_⟩
  · intro d hd hbad
    obtain ⟨e, he⟩ := fillAllBlanks_bad_size w.toUpsert d hd hbad
    refine ⟨⟨e, ?_⟩, trackDealsRun_blanks_error chain pieceIdOf stamps faults db datacap w e
      hq hw he⟩
    unfold trackDeals
    rw [hq]
    dsimp only
    rw [hw]
    dsimp only
    rw [he]
  · intro ups hups d' hd'
    obtain ⟨d, hd, h1, h2, h3⟩ := fillAllBlanks_sizes w.toUpsert ups hups d' hd'
    rw [← h1] at h2 h3
    refine ⟨⟨d, hd, h1⟩, h2, h3, ?_, fun deals hnew => upsertDeal_new_row pieceIdOf d' deals hnew⟩
    intro hlt
    rw [h3]
    exact two_pow_trailingZeros64 _ hlt h2

/-! ### The order of linking and failing in one run -/

theorem failMissedStartRow_of_activated (now height : Int) (p : Proposal)
    (h : p.activated_deal_id.isSome = true) : failMissedStartRow now height p = p := by
  unfold failMissedStartRow
  rw [if_neg]
  rintro ⟨_, hn, _⟩
  rw [hn] at h
  cases h

theorem failMissedStartRow_of_failed (now height : Int) (p : Proposal)
    (h : p.proposal_failstamp ≠ 0) : failMissedStartRow now height p = p := by
  unfold failMissedStartRow
  rw [if_neg]
  rintro ⟨h0, _⟩
  exact h h0

theorem failInvalidatedRow_of_failed (now : Int) (invalidated : List Int) (p : Proposal)
    (h : p.proposal_failstamp ≠ 0) : failInvalidatedRow now invalidated p = p := by
  unfold failInvalidatedRow
  split
  · rw [if_neg]
    rintro ⟨h0, _⟩
    exact h h0
  · rfl

/-- C27: a proposal that the link step has linked has `activated_deal_id` set and is left
as it is by the start-missed update, whatever its start epoch; in a run every row that
carries an `activated_deal_id` after the upsert loop passes the start-missed update
unchanged, that update being applied to the rows the loop left; and the start-missed and
the deal-invalid updates leave every row with a non-zero `proposal_failstamp` as it
is. -/
theorem link_precedes_start_missed (pieceIdOf : String → Int) (stamps : Stamps) (height : Int)
    (upserts : List deal) (failIds : List Int) (datacap : List (Address × Option Int))
    (db : Store) :
    (∀ (d : deal) (p : Proposal), linkMatches d p = true →
      (linkRow d p).activated_deal_id = some d.dealID ∧
      failMissedStartRow stamps.missed height (linkRow d p) = linkRow d p) ∧
    (∀ (k : Nat) (p1 : Proposal),
      (upserts.foldl (upsertStep pieceIdOf) db).proposals[k]? = some p1 →
      p1.activated_deal_id.isSome = true →
      (failMissedStart stamps.missed height
        (upserts.foldl (upsertStep pieceIdOf) db).proposals)[k]? = some p1) ∧
    (reconcileTx pieceIdOf stamps height upserts failIds datacap db).proposals =
      failInvalidated stamps.invalid db.invalidated_deals
        (failTerminated stamps.terminated
          (reconcileTx pieceIdOf stamps height upserts failIds datacap db).published_deals
          (failMissedStart stamps.missed height
            (upserts.foldl (upsertStep pieceIdOf) db).proposals)) ∧
    (∀ (now : Int) (invalidated : List Int) (p : Proposal), p.proposal_failstamp ≠ 0 →
      failMissedStartRow now height p = p ∧ failInvalidatedRow now invalidated p = p) := by
  refine ⟨?_, ?_, ?_, ?_⟩
  · intro d p hm
    have hrow : linkRow d p = { p with activated_deal_id := some d.dealID } := by
      unfold linkRow
      rw [if_pos hm]
    rw [hrow]
    exact ⟨rfl, failMissedStartRow_of_activated _ _ _ rfl⟩
  · intro k p1 hk hact
    unfold failMissedStart
    rw [List.getElem?_map, hk, Option.map_some', failMissedStartRow_of_activated _ _ _ hact]
  · obtain ⟨fr1, _, _⟩ := upsertLoop_frame pieceIdOf upserts db
    unfold reconcileTx failProposals
    dsimp only
    rw [fr1]
  · intro now invalidated p hp
    exact ⟨failMissedStartRow_of_failed now height p hp,
      failInvalidatedRow_of_failed now invalidated p hp⟩

/-! ### The day loop of the bulk piece ingester -/

theorem dayLoop_countDown (n : Nat) :
    ∀ rounds : Nat, n < 2 ^ 63 → n + 2 ≤ rounds →
      dayLoop rounds (n : Int) = some (countDown n) := by
  induction n with
  | zero =>
    intro rounds _ hr
    obtain ⟨r1, rfl⟩ : ∃ r1, rounds = r1 + 2 := ⟨rounds - 2, by omega⟩
    rw [dayLoop, if_pos (by decide)]
    have : subInt64 ((0 : Nat) : Int) 1 = -1 := by decide
    rw [this, dayLoop, if_neg (by decide)]
    rfl
  | succ n ih =>
    intro rounds hn hr
    obtain ⟨r1, rfl⟩ : ∃ r1, rounds = r1 + 1 := ⟨rounds - 1, by omega⟩
    rw [dayLoop, if_pos (by omega)]
    have hsub : subInt64 ((n + 1 : Nat) : Int) 1 = (n : Int) := by
      rw [subInt64_of_inRange _ _ (by omega) (by omega)]
      omega
    rw [hsub, ih r1 (by omega) (by omega)]
    rfl

theorem countDown_length (n : Nat) : (countDown n).length = n + 1 := by
  induction n with
  | zero => rfl
  | succ n ih => rw [countDown, List.length_cons, ih]

theorem countDown_getElem (n : Nat) :
    ∀ i : Nat, i ≤ n → (countDown n)[i]? = some ((n : Int) - (i : Int)) := by
  induction n with
  | zero =>
    intro i hi
    have : i = 0 := by omega
    subst this
    rfl
  | succ n ih =>
    intro i hi
    cases i with
    | zero =>
      rw [countDown, List.getElem?_cons_zero]
      simp
    | succ j =>
      rw [countDown, List.getElem?_cons_succ, ih j (by omega)]
      congr 1
      omega

theorem countDown_mem (n : Nat) : ∀ d ∈ countDown n, 0 ≤ d ∧ d ≤ (n : Int) := by
  induction n with
  | zero =>
    intro d hd
    simp only [countDown, List.mem_singleton] at hd
    subst hd
    exact ⟨Int.le_refl _, Int.le_refl _⟩
  | succ n ih =>
    intro d hd
    rw [countDown] at hd
    rcases List.mem_cons.1 hd with h | h
    · subst h
      omega
    · obtain ⟨h1, h2⟩ := ih d h
      omega

theorem dayOffsets_of_lt (n : Nat) (h : n < 2 ^ 63) : dayOffsets n = countDown n := by
  unfold dayOffsets
  rw [int64OfUint64_of_lt n h, if_neg (by omega), Int.toNat_ofNat]

theorem dayLoopPrefs_countDown (c : LocalClock) (now : Nat → Int) (n : Nat) :
    ∀ rounds i : Nat, n < 2 ^ 63 → n + 2 ≤ rounds →
      ∃ ps, dayLoopPrefs c now rounds i (n : Int) = some ps ∧ ps.length = n + 1 ∧
        ∀ k : Nat, k ≤ n →
          ps[k]? = some (pref c (now (i + k)) ((n : Int) - (k : Int))) := by
  induction n with
  | zero =>
    intro rounds i _ hr
    obtain ⟨r1, rfl⟩ : ∃ r1, rounds = r1 + 2 := ⟨rounds - 2, by omega⟩
    refine ⟨[pref c (now i) 0], ?_, rfl, ?_⟩
    · rw [dayLoopPrefs, if_pos (by decide)]
      have : subInt64 ((0 : Nat) : Int) 1 = -1 := by decide
      rw [this, dayLoopPrefs, if_neg (by decide)]
      rfl
    · intro k hk
      obtain rfl : k = 0 := by omega
      rfl
  | succ n ih =>
    intro rounds i hn hr
    obtain ⟨r1, rfl⟩ : ∃ r1, rounds = r1 + 1 := ⟨rounds - 1, by omega⟩
    obtain ⟨ps, h1, h2, h3⟩ := ih r1 (i + 1) (by omega) (by omega)
    refine ⟨pref c (now i) ((n + 1 : Nat) : Int) :: ps, ?_, by rw [List.length_cons, h2], ?_⟩
    · rw [dayLoopPrefs, if_pos (by omega)]
      have hsub : subInt64 ((n + 1 : Nat) : Int) 1 = (n : Int) := by
        rw [subInt64_of_inRange _ _ (by omega) (by omega)]
        omega
      rw [hsub, h1]
      rfl
    · intro k hk
      cases k with
      | zero =>
        rw [List.getElem?_cons_zero]
        have e : ((n + 1 : Nat) : Int) - ((0 : Nat) : Int) = ((n + 1 : Nat) : Int) := by omega
        rw [e]
        rfl
      | succ j =>
        rw [List.getElem?_cons_succ, h3 j (by omega)]
        have e1 : i + 1 + j = i + (j + 1) := by omega
        have e2 : (n : Int) - (j : Int) = ((n + 1 : Nat) : Int) - ((j + 1 : Nat) : Int) := by
          omega
        rw [e1, e2]

theorem localDay_days_back (c : LocalClock) (now k : Int)
    (hz : c.zoneOffset ((now - k * 86400000000000) / 1000000000) =
      c.zoneOffset (now / 1000000000)) :
    c.dateOnly (now - k * 86400000000000) = dateDaysAgo c now k := by
  unfold LocalClock.dateOnly dateDaysAgo LocalClock.localDay
  rw [hz]
  generalize c.zoneOffset (now / 1000000000) = o
  have h : ((now - k * 86400000000000) / 1000000000 + o) / 86400 =
      (now / 1000000000 + o) / 86400 - k := by omega
  rw [h]

/-- C26 (as amended): for a value `N` of `skip-entries-aged-days` that fits a signed
64-bit integer the day loop ends after exactly `N + 1` iterations, with the day offsets
`N, N - 1, ..., 0` in that order, three of them for the default `N = 2`. The date
prefix of the iteration with offset `d` is the local date of the clock reading of that
iteration moved by the 64-bit duration `-24h * d`; for `N` up to 106751 that is the
local date of the instant `24 * d` hours before the reading, and it is the date of `d`
days before the reading whenever the zone has the same offset at both instants. -/
theorem day_loop_runs_n_plus_one (c : LocalClock) (now : Nat → Int) (n : Nat)
    (hn : n < 2 ^ 63) :
    dayLoop (n + 2) (int64OfUint64 n) = some (dayOffsets n) ∧
    (dayOffsets n).length = n + 1 ∧
    (∀ i : Nat, i ≤ n → (dayOffsets n)[i]? = some ((n : Int) - (i : Int))) ∧
    (∃ ps, dayLoopPrefs c now (n + 2) 0 (int64OfUint64 n) = some ps ∧ ps.length = n + 1 ∧
      ∀ i : Nat, i ≤ n →
        ps[i]? = some (c.dateOnly (now i + dayShift ((n : Int) - (i : Int)))) ∧
        (n ≤ 106751 →
          ps[i]? = some (c.dateOnly (now i - ((n : Int) - (i : Int)) * 86400000000000)) ∧
          (c.zoneOffset ((now i - ((n : Int) - (i : Int)) * 86400000000000) / 1000000000) =
              c.zoneOffset (now i / 1000000000) →
            ps[i]? = some (dateDaysAgo c (now i) ((n : Int) - (i : Int)))))) ∧
    (n ≤ 106751 → ∀ d ∈ dayOffsets n, dayShift d = -(d * 86400000000000)) ∧
    dayOffsets 2 = [2, 1, 0] := by
  have hshift : n ≤ 106751 → ∀ d : Int, 0 ≤ d → d ≤ (n : Int) →
      dayShift d = -(d * 86400000000000) := by
    intro hsmall d h0 h1
    unfold dayShift
    rw [wrapInt64_of_inRange _ (by omega) (by omega)]
    omega
  rw [dayOffsets_of_lt n hn, int64OfUint64_of_lt n hn]
  refine ⟨dayLoop_countDown n (n + 2) hn (Nat.le_refl _), countDown_length n,
    countDown_getElem n, ?_, ?_, by decide⟩
  · obtain ⟨ps, h1, h2, h3⟩ := dayLoopPrefs_countDown c now n (n + 2) 0 hn (Nat.le_refl _)
    refine ⟨ps, h1, h2, ?_⟩
    intro i hi
    have hp : ps[i]? = some (c.dateOnly (now i + dayShift ((n : Int) - (i : Int)))) := by
      have := h3 i hi
      rw [Nat.zero_add] at this
      exact this
    refine ⟨hp, fun hsmall => ?_⟩
    have hback : now i + dayShift ((n : Int) - (i : Int)) =
        now i - ((n : Int) - (i : Int)) * 86400000000000 := by
      rw [hshift hsmall _ (by omega) (by omega)]
      omega
    rw [hback] at hp
    refine ⟨hp, fun hz => ?_⟩
    rw [hp, localDay_days_back c (now i) _ hz]
  · intro hsmall d hd
    obtain ⟨h0, h1⟩ := countDown_mem n d hd
    exact hshift hsmall d h0 h1

/-- C26 (as stated) fails twice. In New York at 23:30 of 2 November 2025, a day of 25
hours, the default of two days gives the prefixes of 1 November and twice of 2 November,
while two days ago, one day ago and today are 31 October, 1 November and 2 November.
And 106752 fits a signed 64-bit integer and is the first day offset of its loop, but the
duration added to the reading of the clock for that offset is a positive one, so that
the prefix, under UTC, is a date of the year 2318 and not the date 106752 days back. -/
theorem day_prefixes_not_days_ago :
    dayLoopPrefs newYorkClock (fun _ => autumnNight) 4 0 (int64OfUint64 2) =
      some ["2025-11-01", "2025-11-02", "2025-11-02"] ∧
    [dateDaysAgo newYorkClock autumnNight 2, dateDaysAgo newYorkClock autumnNight 1,
      dateDaysAgo newYorkClock autumnNight 0] = ["2025-10-31", "2025-11-01", "2025-11-02"] ∧
    (106752 : Nat) < 2 ^ 63 ∧
    (dayOffsets 106752).head? = some 106752 ∧
    dayShift 106752 = 9223371273709551616 ∧
    dayShift 106752 ≠ -(106752 * 86400000000000) ∧
    pref utcClock autumnNight 106752 = "2318-02-13" ∧
    dateDaysAgo utcClock autumnNight 106752 = "1733-07-25" := by
  refine ⟨by rfl, by rfl, by decide, ?_, by decide, by decide, by decide, by decide⟩
  rw [dayOffsets_of_lt 106752 (by decide), countDown]
  rfl

/-! ### The tenant parameter of the listing -/

/-- C28: the value 32768 of `tenant` passes the bounds 1 and `1<<15` and is handed to
the query as -32768; every accepted value below `1<<15` is handed over as it is, and an
absent parameter as 0. -/
theorem tenant_32768_wraps :
    tenantParam (some 32768) = some (.ok 32768) ∧
    requestedTenant tenant32768Request = .ok (-32768) ∧
    apiSpListEligible strictApi tenant32768Request = .error "negative tenant" ∧
    (∀ v : Nat, 1 ≤ v → v < 2 ^ 15 →
      tenantParam (some v) = some (.ok v) ∧
      requestedTenant { plainRequest with tenant := tenantParam (some v) } = .ok (v : Int)) ∧
    requestedTenant { plainRequest with tenant := tenantParam none } = .ok 0 := by
  refine ⟨rfl, rfl, by decide, ?_, rfl⟩
  intro v h1 h2
  have hp : tenantParam (some v) = some (.ok v) := by
    unfold tenantParam parseUIntQueryParam
    rw [Option.map_some', if_neg (by omega)]
  have h16 : int16OfUint64 v = (v : Int) := by
    unfold int16OfUint64
    omega
  refine ⟨hp, ?_⟩
  rw [hp]
  show Except.ok (int16OfUint64 v) = Except.ok (v : Int)
  rw [h16]

/-! ### The decoding of a piece CID -/

/-- C29: on the one byte of the JSON value `7` the slice `b[1 : len(b)-1]` is out of
range and `UnmarshalJSON` panics; on two bytes or more it does not panic, and the text
handed to the CID decoder is the value without its first and last byte, which for a
string token is the text between the quotes. -/
theorem unmarshal_one_byte_panics (cidDecode : List Char → Except String String)
    (commPFromPCidV2 : String → Except String WrCommP) :
    WrCommP.UnmarshalJSON cidDecode commPFromPCidV2 ['7'] = .panic "slice bounds out of range" ∧
    (∀ b : List Char, b.length = 1 →
      WrCommP.UnmarshalJSON cidDecode commPFromPCidV2 b = .panic "slice bounds out of range") ∧
    (∀ b : List Char, 2 ≤ b.length →
      WrCommP.UnmarshalJSON cidDecode commPFromPCidV2 b =
        match cidDecode ((b.take (b.length - 1)).drop 1) with
        | .error e => .error e
        | .ok c =>
          match commPFromPCidV2 c with
          | .error e => .error e
          | .ok p => .ok p) ∧
    (∀ text : List Char,
      (('"' :: text ++ ['"']).take (('"' :: text ++ ['"']).length - 1)).drop 1 = text) := by
  refine ⟨?_, ?_, ?_, ?_⟩
  · unfold WrCommP.UnmarshalJSON
    rw [if_neg (by decide)]
  · intro b hb
    unfold WrCommP.UnmarshalJSON
    rw [if_neg (by omega)]
  · intro b hb
    unfold WrCommP.UnmarshalJSON
    rw [if_pos (by omega)]
  · intro text
    have hlen : ('"' :: text ++ ['"']).length - 1 = text.length + 1 := by simp
    rw [hlen, List.cons_append, List.take_succ_cons, List.drop_succ_cons, List.drop_zero,
      List.take_left']
    rfl

/-! ### The replication caps -/

theorem countIn_append (geoOf : Nat → GeoData) (props : List Reservation) (r : Reservation)
    (tenant : Int) (g : Bucket) :
    countIn geoOf (props ++ [r]) tenant g =
      countIn geoOf props tenant g +
        (if decide (r.tenant = tenant) && inBucket (geoOf r.provider) g then 1 else 0) := by
  unfold countIn
  rw [List.filter_append, List.length_append]
  congr 1
  by_cases h : (decide (r.tenant = tenant) && inBucket (geoOf r.provider) g) = true
  · rw [if_pos h]
    have : [r].filter (fun p => decide (p.tenant = tenant) && inBucket (geoOf p.provider) g)
        = [r] := List.filter_cons_of_pos h
    rw [this]
    rfl
  · rw [if_neg h]
    have : [r].filter (fun p => decide (p.tenant = tenant) && inBucket (geoOf p.provider) g)
        = [] := List.filter_cons_of_neg h
    rw [this]
    rfl

theorem inBucket_mem_bucketsOf (geo : GeoData) (g : Bucket) (h : inBucket geo g = true) :
    g ∈ bucketsOf geo := by
  unfold bucketsOf
  cases g with
  | total => simp
  | org name =>
    have : geo.org = name := by simpa [inBucket] using h
    simp [this]
  | metro name =>
    have : geo.metro = name := by simpa [inBucket] using h
    simp [this]
  | country name =>
    have : geo.country = name := by simpa [inBucket] using h
    simp [this]
  | continent name =>
    have : geo.continent = name := by simpa [inBucket] using h
    simp [this]

theorem belowCaps_spec (capsOf : Int → TenantCaps) (geoOf : Nat → GeoData)
    (props : List Reservation) (tenant : Int) (sp : Nat)
    (h : belowCaps (replicationState capsOf geoOf props tenant sp) = true) :
    ∀ g ∈ bucketsOf (geoOf sp), countIn geoOf props tenant g < capFor (capsOf tenant) g := by
  unfold belowCaps replicationState at h
  simp only [Bool.and_eq_true, decide_eq_true_eq, Nat.cast_lt] at h
  obtain ⟨⟨⟨⟨h1, h2⟩, h3⟩, h4⟩, h5⟩ := h
  intro g hg
  unfold bucketsOf at hg
  simp only [List.mem_cons, List.mem_singleton, List.not_mem_nil, or_false] at hg
  rcases hg with rfl | rfl | rfl | rfl | rfl
  · exact h1
  · exact h2
  · exact h3
  · exact h4
  · exact h5

theorem reservePiece_capsHold (capsOf : Int → TenantCaps) (geoOf : Nat → GeoData)
    (props : List Reservation) (req : ReserveRequest) (h : CapsHold capsOf geoOf props) :
    CapsHold capsOf geoOf (reservePiece capsOf geoOf props req) := by
  unfold reservePiece
  split
  · rename_i hok
    simp only [Bool.and_eq_true] at hok
    have hlt := belowCaps_spec capsOf geoOf props req.tenant req.provider hok.2
    intro tenant g
    rw [countIn_append]
    dsimp only
    by_cases hc : (decide (req.tenant = tenant) && inBucket (geoOf req.provider) g) = true
    · rw [if_pos hc]
      simp only [Bool.and_eq_true, decide_eq_true_eq] at hc
      obtain ⟨ht, hb⟩ := hc
      subst ht
      exact hlt g (inBucket_mem_bucketsOf _ g hb)
    · rw [if_neg hc]
      exact h tenant g
  · exact h

/-- C23: the cap invariant holds without proposals and is kept by every sequence of
reservations, whichever providers make them and in whichever order their transactions
take effect: for every tenant and every bucket the count of active and pending
proposals stays at most the cap of the tenant for the bucket. -/
theorem reservations_keep_caps (capsOf : Int → TenantCaps) (geoOf : Nat → GeoData)
    (reqs : List ReserveRequest) (props : List Reservation)
    (h : CapsHold capsOf geoOf props) :
    CapsHold capsOf geoOf [] ∧
    CapsHold capsOf geoOf (reserveAll capsOf geoOf reqs props) ∧
    CapsHold capsOf geoOf (reserveAll capsOf geoOf reqs []) := by
  have hnil : CapsHold capsOf geoOf [] := fun tenant g => Nat.zero_le _
  have hall : ∀ (rs : List ReserveRequest) (ps : List Reservation),
      CapsHold capsOf geoOf ps → CapsHold capsOf geoOf (reserveAll capsOf geoOf rs ps) := by
    intro rs
    induction rs with
    | nil => intro ps hps; exact hps
    | cons r rest ih =>
      intro ps hps
      unfold reserveAll
      rw [List.foldl_cons]
      exact ih _ (reservePiece_capsHold capsOf geoOf ps r hps)
  exact ⟨hnil, hall reqs props h, hall reqs [] hnil⟩

/-! ### Instances on sample data -/

/-- The budget of line 198 at flag values whose product with `time.Second` leaves the
signed 64-bit range: with 9223372034 and 3 the budget wraps to a negative duration and
no attempt is made even at elapsed time 0; with -9223372037 and 0 it wraps to a
positive duration and the attempt is made. -/
theorem wrapped_budget_instances :
    spBudget 9223372034 3 = -9223372036709551616 ∧
    attemptedBy 9223372034 3 true timedOutRounds [signedPending] = [] ∧
    spBudget (-9223372037) 0 = 9223372036709551616 ∧
    attemptedBy (-9223372037) 0 true timedOutRounds [signedPending] = [signedPending] := by
  refine ⟨by decide, by decide, by decide, by decide⟩

/-- C8, instance: the row of the store reached by signing, delivering and activating the
reserved proposal satisfies exactly one of the three conditions. -/
theorem reachable_exactly_one_witness :
    ∃ p ∈ activatedStore.proposals,
      countTrue [condLinked activatedStore.published_deals p, condPendingActivation p,
        condUndelivered p] = 1 :=
  ⟨_, List.Mem.head _,
    reachable_exactly_one activatedStore reachable_activatedStore _ (List.Mem.head _)⟩

/-- C2, instance: at height 10000 the signed proposal starting at epoch 5000 is failed. -/
theorem failMissedStart_iff_witness :
    (failMissedStartRow 11 10000 signedProposal).proposal_failstamp ≠ 0 ↔
      signedProposal.start_epoch < 10000 - EpochsInDay :=
  (failMissedStart_iff 11 10000 [signedProposal] (by decide) (by decide) (by decide)
    (signedProposal, failMissedStartRow 11 10000 signedProposal)
    (List.Mem.head _) rfl rfl).1

/-- C3, instance: client `f01000` with datacap 100 and one published verified deal of 64
bytes. -/
theorem walk_projects_datacap_witness :
    ∃ st, walk 6000 noStates (sampleWalkState 100) [(1, sampleDeal 64)] = .ok st ∧
      mapGet st.tenantClientDatacap (asFilAddr 1000) =
        some (some (100 + publishedVerifiedSize 6000 noStates (asFilAddr 1000)
          [(1, sampleDeal 64)])) :=
  ⟨_, rfl, walk_projects_datacap (fun _ => .ok (some 100)) [1000] [(.id 1000, some 100)] rfl
    6000 noStates [] [(1, sampleDeal 64)] _ rfl 1000 (by decide) 100 rfl (by decide)⟩

/-- C4, instance: client `f01000` with datacap 100 and one published verified deal of 64
bytes. -/
theorem written_datacap_nonneg_witness :
    ∃ st, walk 6000 noStates (sampleWalkState 100) [(1, sampleDeal 64)] = .ok st ∧
      ∀ e ∈ st.tenantClientDatacap, 0 ≤ datacapToWrite e.1 e.2 :=
  ⟨_, rfl, written_datacap_nonneg (fun _ => .ok (some 100)) [1000] [(.id 1000, some 100)] rfl
    6000 noStates [] [(1, sampleDeal 64)] _ rfl
    (fun c hc v hv => by
      have hc' : c = 1000 := by simpa using hc
      subst hc'
      injection hv with hv
      injection hv with hv
      subst hv
      decide)
    (by decide)⟩

/-- C6, instance: the locally "active" deal 7 is absent from an empty market state and is
put on the terminate list. -/
theorem absent_deals_terminated_witness :
    ∃ db, trackDeals quietChain (fun _ => 1) sampleStamps activeLinkStore = .ok db ∧
      ∃ datacap w,
        walk quietChain.height quietChain.dealStates
          { initialDbDeals := loadDbDeals activeLinkStore.published_deals [],
            tenantClientDatacap := datacap, toUpsert := [] } quietChain.dealProposals = .ok w ∧
        (localDeal7 "active").deal_id ∈ toFail w.initialDbDeals := by
  refine ⟨_, rfl, ?_⟩
  obtain ⟨datacap, w, hw, _, h⟩ := absent_deals_terminated quietChain (fun _ => 1) sampleStamps
    activeLinkStore _ (by decide) rfl
  exact ⟨datacap, w, hw, ((h 0 (localDeal7 "active") rfl (by decide)).1 (by decide)).1⟩

/-- C7, instance: the proposal linked to the "terminated" deal 7 is failed with the reason
of the terminated update. -/
theorem reconcile_fails_dead_links_witness :
    terminatedLinkProposal.proposal_failstamp ≠ 0 ∧
      failureOf terminatedLinkProposal = some (.str "sector containing deal was terminated") :=
  ((reconcile_fails_dead_links (fun _ => 1) sampleStamps 6000 [] [] [] deadLinkStore
    (by decide) (by decide)).1 (linkedProposal, terminatedLinkProposal) (List.Mem.head _)
      7 rfl).1 rfl

/-- C9, instance: the signed proposal after an attempt that ended in an RPC error. -/
theorem recordAttempt_spec_witness :
    failureOf timedOutProposal = some (.str "context deadline exceeded") ∧
      timedOutProposal.proposal_delivered = signedProposal.proposal_delivered :=
  have h := ((recordAttempt_spec 17 18 timedOutRpc "1b4e28ba" [signedProposal]
    (signedProposal, timedOutProposal) (List.Mem.head _)).2 rfl).2.2 _ rfl
  ⟨h.2.1, h.2.2.1⟩

/-- C10, instance: the signed proposal after an attempt that ran into the deadline. -/
theorem timeout_fails_proposal_witness :
    ∃ e, timedOutRpc.err = some e ∧ e.isDeadlineExceeded = true ∧
      awaitsDelivery timedOutProposal = false := by
  obtain ⟨e, h1, h2, h⟩ := timeout_fails_proposal 17 18 timedOutRpc "1b4e28ba" [signedProposal]
    (by decide) rfl
  exact ⟨e, h1, h2, (h (signedProposal, timedOutProposal) (List.Mem.head _) rfl).2.2.2.2⟩

/-- C11, instance: the first attempt of a queue of two times out, and it is the only
attempt. -/
theorem timeout_ends_queue_witness :
    didTimeout (timedOutRounds 0).rpc = true ∧
      attemptedBy 270 3 true timedOutRounds
          [signedPending, { signedPending with ProposalUUID := "9c5b94b1" }]
        = [signedPending] :=
  ⟨rfl, ((timeout_ends_queue 270 3 true timedOutRounds
    [signedPending, { signedPending with ProposalUUID := "9c5b94b1" }] [signedProposal] 0
    (by decide)).1 rfl).1⟩

/-- C15, instance: `goodAggregate` is ingested and its CIDs agree; `badAggregate` ends
the object loop with an error and the store as it was. -/
theorem aggregate_rows_need_matching_cid_witness :
    sampleAggregation goodAggregate.AggCommP.PieceInfo.Size
        (goodAggregate.PieceList.map CommP.PieceInfo) = .ok "baga-agg-1"
      ∧ ∃ e, ingestObjects sampleAggregation pollSource 7 [.ok badAggregate] emptyPieceStore
          = (emptyPieceStore, some e) := by
  refine ⟨(aggregate_rows_need_matching_cid sampleAggregation pollSource 7 goodAggregate []
    emptyPieceStore).1 afterGoodAggregate rfl, ?_⟩
  obtain ⟨e, _, h⟩ := (aggregate_rows_need_matching_cid sampleAggregation pollSource 7
    badAggregate [] emptyPieceStore).2 "baga-agg-1" rfl (by decide)
  exact ⟨e, h⟩

/-- C16, instance: the run of `pollEnv` ends at `badAggregate` without a refresh, with
the store that `goodAggregate` left. -/
theorem mismatch_aborts_run_witness :
    (bulkPiecePoll pollEnv 2 emptyPieceStore).outcome
        = .error "supplied list of pieces does not aggregate with the expected PCidV1"
      ∧ (bulkPiecePoll pollEnv 2 emptyPieceStore).store = afterGoodAggregate
      ∧ (bulkPiecePoll pollEnv 2 emptyPieceStore).refreshed = false :=
  (mismatch_aborts_run pollEnv 2 emptyPieceStore).2.2 [] [] 7 pollSource [2, 1] [] 0 [] []
    [.ok goodAggregate] [] badAggregate emptyPieceStore emptyPieceStore emptyPieceStore
    afterGoodAggregate "baga-agg-1" rfl rfl rfl (by decide) rfl rfl (by decide) rfl rfl rfl rfl rfl
    (by decide)

/-- C17, instance: three rows for the default limit of 2 give the first two rows and the
truncation note. -/
theorem eligible_response_truncates_witness :
    ∃ ret info, apiSpListEligible sampleApi plainRequest = .payload ret info
      ∧ ret.map (fun q => q.PieceCid) = ["baga-1", "baga-2"]
      ∧ threeRows.length > 2 := by
  obtain ⟨ret, h, hmap, _⟩ := eligible_response_truncates sampleApi plainRequest 2 0 threeRows
    rfl rfl rfl (by decide)
  refine ⟨ret, _, h, ?_, by decide⟩
  have h2 : ret.map some = [renderPiece sampleApi threeRows[0], renderPiece sampleApi threeRows[1]] :=
    hmap
  match ret, h2 with
  | [a, b], h3 =>
    simp only [List.map_cons, List.map_nil, List.cons.injEq, and_true] at h3
    obtain ⟨ha, hb⟩ := h3
    have ha1 : a = (renderPiece sampleApi threeRows[0]).get rfl := by
      apply Option.some.inj; rw [ha]; rfl
    have hb1 : b = (renderPiece sampleApi threeRows[1]).get rfl := by
      apply Option.some.inj; rw [hb]; rfl
    rw [ha1, hb1]
    rfl

/-- C18, instance: without `internal-nolateral`, the default limit is served by the head
form. -/
theorem query_form_choice_witness :
    useQueryFunc sampleApi plainRequest 2 = "pieces_eligible_head" :=
  (query_form_choice sampleApi plainRequest 2).2.2 (by decide)

/-- C19, instance: after the run that activated deal 7, a second run on the same chain
succeeds and returns the proposals as they were. -/
theorem second_run_changes_nothing_witness :
    trackDeals activeChain (fun _ => 1) sampleStamps deliveredStore = .ok activatedStore ∧
      ∃ db2, trackDeals activeChain (fun _ => 1) sampleStamps activatedStore = .ok db2 ∧
        db2.proposals = activatedStore.proposals := by
  obtain ⟨_, _, _, _, _, _, _, db2, h, hp, _⟩ := second_run_changes_nothing activeChain
    (fun _ => 1) sampleStamps sampleStamps deliveredStore activatedStore rfl
    (by decide) (by decide) (by decide) (by decide) (by decide)
  exact ⟨rfl, db2, h, hp⟩

/-- C20, instance: when the activation link of deal 7, the sixth statement of the run,
fails, the run returns that error and the store is the one from before the run. -/
theorem reconcile_is_atomic_witness :
    (trackDealsRun activeChain (fun _ => 1) sampleStamps (deadlockAt 5) deliveredStore).err
        = some "deadlock detected"
      ∧ (trackDealsRun activeChain (fun _ => 1) sampleStamps (deadlockAt 5) deliveredStore).issued
        = 6
      ∧ (trackDealsRun activeChain (fun _ => 1) sampleStamps (deadlockAt 5) deliveredStore).store
        = deliveredStore :=
  ⟨rfl, rfl, ((reconcile_is_atomic activeChain (fun _ => 1) sampleStamps (deadlockAt 5)
    deliveredStore).1 "deadlock detected" rfl).1⟩

/-- C21, instance: the proven piece of log2 size 34 keeps its row when deal 7, an active
deal of that piece with claimed log2 size 35, is reconciled. -/
theorem size_proven_never_reverts_witness :
    sizeProven provenPiece.piece_meta = true ∧
      ∃ db', trackDeals activeChain (fun _ => 1) sampleStamps provenStore = .ok db' ∧
        (db'.published_deals.map (fun d => (d.status, d.claimed_log2_size))) = [("active", 35)] ∧
        db'.pieces[0]? = some provenPiece :=
  ⟨rfl, _, rfl, by decide,
    (size_proven_never_reverts activeChain (fun _ => 1) sampleStamps provenStore _ pollEnv 2
      emptyPieceStore 0 provenPiece rfl).1 rfl rfl⟩

/-- C24, instance: the tracked client `f01000` with chain datacap 100 and no deal gets
100 written. -/
theorem written_datacap_is_projection_witness :
    ∃ db', trackDeals datacap100Chain (fun _ => 1) sampleStamps sampleStore = .ok db' ∧
      activatableDatacap db' = [some (.num 100)] ∧
      ∃ d r', db'.clients[0]? = some r' ∧
        mapGet r'.client_meta "activatable_datacap"
          = some (.num (datacapToWrite (asFilAddr 1000) d)) := by
  obtain ⟨_, _, d, r', _, _, _, h1, h2, _⟩ := written_datacap_is_projection datacap100Chain
    (fun _ => 1) sampleStamps sampleStore _ rfl 0
    { client_id := 1000, tenant_id := some 1, client_meta := [] } rfl rfl
  exact ⟨_, rfl, rfl, d, r', h1, h2⟩

/-- C25, instance: deal 7 of 32 GiB is selected for upsert with log2 size 35. -/
theorem upsert_size_is_power_of_two_witness :
    filledDeal7.proposal.PieceSize = 34359738368 ∧ filledDeal7.pieceLog2Size = 35 ∧
      2 ^ filledDeal7.pieceLog2Size = filledDeal7.proposal.PieceSize :=
  ⟨rfl, rfl,
    ((upsert_size_is_power_of_two activeChain (fun _ => 1) sampleStamps (fun _ => none)
      deliveredStore [] ⟨[], [], [upsertOfDeal7]⟩ rfl rfl).2 [filledDeal7] rfl filledDeal7
        (List.Mem.head _)).2.2.2.1 (by decide)⟩

/-- C27, instance: at height 10000 the pending proposal, whose start epoch 5000 is more
than a day behind, is linked to deal 7 and then left alone by the start-missed update. -/
theorem link_precedes_start_missed_witness :
    pendingProposal.start_epoch < subInt64 10000 EpochsInDay ∧
      (linkRow scannedDeal7 pendingProposal).activated_deal_id = some 7 ∧
      failMissedStartRow 11 10000 (linkRow scannedDeal7 pendingProposal)
        = linkRow scannedDeal7 pendingProposal ∧
      (failMissedStartRow 11 10000 pendingProposal).proposal_failstamp = 11 :=
  have h := (link_precedes_start_missed (fun _ => 1) sampleStamps 10000 [] [] [] sampleStore).1
    scannedDeal7 pendingProposal (by decide)
  ⟨by decide, h.1, h.2, by decide⟩

/-- C26, instance: the default of two days gives the three offsets 2, 1, 0, and under UTC,
read at 2025-11-03T04:30:00Z, the prefixes of 1, 2 and 3 November 2025. -/
theorem day_loop_runs_n_plus_one_witness :
    (2 : Nat) < 2 ^ 63 ∧
    dayLoop 4 (int64OfUint64 2) = some [2, 1, 0] ∧ (dayOffsets 2).length = 3 ∧
    dayLoopPrefs utcClock (fun _ => autumnNight) 4 0 (int64OfUint64 2) =
      some ["2025-11-01", "2025-11-02", "2025-11-03"] ∧
    (∃ ps, dayLoopPrefs utcClock (fun _ => autumnNight) 4 0 (int64OfUint64 2) = some ps ∧
      ps[0]? = some (dateDaysAgo utcClock autumnNight 2)) :=
  have h := day_loop_runs_n_plus_one utcClock (fun _ => autumnNight) 2 (by decide)
  ⟨by decide, h.1.trans (congrArg some h.2.2.2.2.2), h.2.1, by rfl,
    h.2.2.2.1.elim (fun ps hps =>
      ⟨ps, hps.1, ((hps.2.2 0 (by decide)).2 (by decide)).2 rfl⟩)⟩

/-- C23, instance: of two providers of one org asking at once, one gets the reservation,
and the count of tenant 13 in that org is 1, its cap. -/
theorem reservations_keep_caps_witness :
    reserveAll sampleCaps sampleGeo twoRequests []
        = [{ tenant := 13, piece := 1, provider := 2000 }] ∧
      countIn sampleGeo (reserveAll sampleCaps sampleGeo twoRequests []) 13 (.org "org-a")
        ≤ capFor (sampleCaps 13) (.org "org-a") :=
  ⟨by decide,
    (reservations_keep_caps sampleCaps sampleGeo twoRequests []
      (fun _ _ => Nat.zero_le _)).2.1 13 (.org "org-a")⟩

/-- C1, instance: the sample deal starting at epoch 5000, without a state entry, walked at
height 9000, is "terminated" for a missed sealing epoch on both sides. -/
theorem setStatus_eq_specClassify_witness :
    (-(2 ^ 63) ≤ (sampleDeal 1024).StartEpoch ∧
      (sampleDeal 1024).StartEpoch + EpochsInDay < 2 ^ 63) ∧
    (walkDeal 9000 [] none 1 (sampleDeal 1024)).status = "terminated" ∧
    (walkDeal 9000 [] none 1 (sampleDeal 1024)).status =
      (specClassify 9000 none (sampleDeal 1024).StartEpoch).status ∧
    (walkDeal 9000 [] none 1 (sampleDeal 1024)).terminationReason =
      (specClassify 9000 none (sampleDeal 1024).StartEpoch).reason ∧
    (walkDeal 9000 [] none 1 (sampleDeal 1024)).sectorStart =
      (specClassify 9000 none (sampleDeal 1024).StartEpoch).sectorStart :=
  ⟨⟨by decide, by decide⟩, by decide,
    setStatus_eq_specClassify 9000 [] none 1 (sampleDeal 1024) (by decide) (by decide)⟩

end Spade
